import Mathlib

/-!
Verification of the orchestrator engine (sessions, task manifest, persistent
store) against its natural-language specification.

The TypeScript sources are shallowly embedded:

* JS `Date` values become `Nat` timestamps passed explicitly (`now`).
* JS in-place `Array.prototype.sort` (stable, TimSort in V8) is embedded as a
  stable insertion sort by the same comparator.  For the comparators used here
  (all of them sign-consistent total preorders) a stable sort is unique, so
  the embedding agrees with V8 extensionally.
* JS `Map` objects (insertion-ordered, `set` keeps the original position of an
  existing key) become association lists with replace-first-or-append update.
* The file-per-record directories become lists of records in directory order;
  saving replaces the record with the same id or appends a new one.
* Fallible operations return `Except`, paired with the post-state, because a
  thrown JS exception leaves already-performed mutations in place.
* Unbounded recursion in the source (DFS, Kahn's queue, recursive session
  deletion) is embedded with explicit fuel; theorems establish or assume fuel
  adequacy where it matters.
-/

namespace Orch

/-! ## JS-style helpers -/

/-- Stable insertion for a JS comparator (negative means `x` sorts before
`y`).  `x` is placed before the first element strictly greater than it, hence
after all elements that compare equal: processing the list left to right this
is exactly a stable sort. -/
def insertByCmp (cmp : α → α → Int) (x : α) : List α → List α
  | [] => [x]
  | y :: ys => if cmp x y < 0 then x :: y :: ys else y :: insertByCmp cmp x ys

/-- Stable sort by a JS comparator (embeds `Array.prototype.sort`). -/
def stableSortByCmp (cmp : α → α → Int) (l : List α) : List α :=
  l.foldl (fun acc x => insertByCmp cmp x acc) []

/-- `if (query.offset) tasks.splice(0, query.offset)` — `0` is falsy in JS. -/
def jsDropOffset (o : Option Nat) (l : List α) : List α :=
  match o with
  | some n => if n = 0 then l else l.drop n
  | none => l

/-- `if (query.limit) tasks.splice(query.limit)` — `0` is falsy in JS. -/
def jsTakeLimit (o : Option Nat) (l : List α) : List α :=
  match o with
  | some n => if n = 0 then l else l.take n
  | none => l

/-- `Math.round` on an exact rational (round half away from zero; all values
rounded in this development are nonnegative, where this is floor of x+1/2). -/
def jsRound (q : Rat) : Int := ⌊q + 1/2⌋

/-! ## Task data model (types/task.ts) -/

inductive TaskStatus
  | not_started
  | in_progress
  | completed
  | blocked
  | cancelled
  | failed
deriving DecidableEq

inductive TaskPriority
  | low
  | medium
  | high
  | critical
deriving DecidableEq

inductive DependencyType
  | finish_to_start
  | start_to_start
  | finish_to_finish
  | start_to_finish
deriving DecidableEq

def statusText : TaskStatus → String
  | .not_started => "not_started"
  | .in_progress => "in_progress"
  | .completed => "completed"
  | .blocked => "blocked"
  | .cancelled => "cancelled"
  | .failed => "failed"

structure TaskDependency where
  taskId : String
  type : DependencyType
deriving DecidableEq

structure TaskProgress where
  completionPercentage : Int
  lastUpdated : Nat
deriving DecidableEq

/-- A Task record.  Fields not read or written by the operations under
verification (acceptance criteria, milestones, child task ids, free-form
metadata) are omitted; `estimation` is collapsed to its `effortHours` field,
the only part the embedded operations read. -/
structure Task where
  id : String
  name : String
  description : String
  status : TaskStatus
  priority : TaskPriority
  orchestrationId : String
  parentTaskId : Option String
  dependencies : List TaskDependency
  effortHours : Option Nat
  progress : TaskProgress
  sessionId : Option String
  createdAt : Nat
  startedAt : Option Nat
  completedAt : Option Nat
  updatedAt : Nat
  assignee : Option String
  tags : List String
deriving DecidableEq

/-! ## TaskManifest: queries (TaskManifest.queryTasks) -/

/-- Task query filter; `none` plays the role of an absent (falsy) field. -/
structure TaskQuery where
  orchestrationId : Option String := none
  status : Option TaskStatus := none
  priority : Option TaskPriority := none
  parentTaskId : Option String := none
  assignee : Option String := none
  tags : List String := []
  dateFrom : Option Nat := none
  dateTo : Option Nat := none
  offset : Option Nat := none
  limit : Option Nat := none

/-- TaskManifest.taskMatchesQuery. -/
def taskMatchesQuery (t : Task) (q : TaskQuery) : Bool :=
  (match q.orchestrationId with
   | some o => t.orchestrationId == o
   | none => true) &&
  (match q.status with
   | some st => decide (t.status = st)
   | none => true) &&
  (match q.priority with
   | some p => decide (t.priority = p)
   | none => true) &&
  (match q.parentTaskId with
   | some p => t.parentTaskId == some p
   | none => true) &&
  (match q.assignee with
   | some a => t.assignee == some a
   | none => true) &&
  (match q.tags with
   | [] => true
   | qt => qt.any (fun tag => t.tags.contains tag)) &&
  (match q.dateFrom with
   | some f => decide (f ≤ t.createdAt)
   | none => true) &&
  (match q.dateTo with
   | some u => decide (t.createdAt ≤ u)
   | none => true)

/-- Comparator `(a, b) => b.createdAt.getTime() - a.createdAt.getTime()`
(newest first) used by TaskManifest.queryTasks. -/
def cmpByCreatedAtDesc (a b : Task) : Int := (b.createdAt : Int) - (a.createdAt : Int)

/-- TaskManifest.queryTasks: filter the task directory, sort newest-first,
then apply offset/limit.  The per-file parse-failure skip has no counterpart
because the store holds records, not bytes. -/
def queryTasks (store : List Task) (q : TaskQuery) : List Task :=
  jsTakeLimit q.limit (jsDropOffset q.offset
    (stableSortByCmp cmpByCreatedAtDesc (store.filter (fun t => taskMatchesQuery t q))))

/-- TaskManifest.loadTask (returns `none` when the file does not exist). -/
def loadTask (store : List Task) (taskId : String) : Option Task :=
  store.find? (fun t => t.id == taskId)

/-- TaskManifest.saveTask: overwrite the file with the same id, or create a
new one. -/
def saveTask : List Task → Task → List Task
  | [], t => [t]
  | u :: us, t => if u.id == t.id then t :: us else u :: saveTask us t

/-! ## TaskManifest.updateTask -/

structure UpdateProgressParams where
  completionPercentage : Option Int := none
  lastUpdated : Option Nat := none

/-- Update delta for a task.  `none` = field absent from the delta object (an
absent key is skipped by the object spread in the source). -/
structure UpdateTaskParams where
  name : Option String := none
  description : Option String := none
  status : Option TaskStatus := none
  priority : Option TaskPriority := none
  dependencies : Option (List TaskDependency) := none
  progress : Option UpdateProgressParams := none
  sessionId : Option String := none
  assignee : Option String := none
  tags : Option (List String) := none

/-- TaskManifest.updateTask (lines 255-285 of the source file): load, merge
the delta, stamp `completedAt`/`startedAt` on the corresponding status
changes, save.  Note: the source performs no status-transition validation of
any kind. -/
def updateTask (store : List Task) (taskId : String) (params : UpdateTaskParams)
    (now : Nat) : List Task × Option Task :=
  match loadTask store taskId with
  | none => (store, none)
  | some task =>
    let progressUpdate : TaskProgress :=
      match params.progress with
      | some p =>
        { completionPercentage := p.completionPercentage.getD task.progress.completionPercentage,
          lastUpdated := p.lastUpdated.getD task.progress.lastUpdated }
      | none => task.progress
    let updatedTask : Task :=
      { task with
        name := params.name.getD task.name
        description := params.description.getD task.description
        status := params.status.getD task.status
        priority := params.priority.getD task.priority
        dependencies := params.dependencies.getD task.dependencies
        sessionId := match params.sessionId with
          | some s => some s
          | none => task.sessionId
        assignee := match params.assignee with
          | some a => some a
          | none => task.assignee
        tags := params.tags.getD task.tags
        progress := progressUpdate
        updatedAt := now }
    let updatedTask :=
      if params.status = some TaskStatus.completed ∧ task.status ≠ TaskStatus.completed then
        { updatedTask with completedAt := some now }
      else updatedTask
    let updatedTask :=
      if (match params.status with
          | some s => decide (s ≠ TaskStatus.not_started)
          | none => false) && decide (task.status = TaskStatus.not_started) then
        { updatedTask with startedAt := some now }
      else updatedTask
    (saveTask store updatedTask, some updatedTask)

/-! ## TaskManifest.getNextTask -/

/-- `priorityOrder = { critical: 4, high: 3, medium: 2, low: 1 }`. -/
def priorityOrder : TaskPriority → Int
  | .critical => 4
  | .high => 3
  | .medium => 2
  | .low => 1

/-- The comparator inside getNextTask: zero-dependency tasks first, then by
descending priority. -/
def nextTaskCmp (a b : Task) : Int :=
  if a.dependencies.length = 0 ∧ b.dependencies.length > 0 then -1
  else if a.dependencies.length > 0 ∧ b.dependencies.length = 0 then 1
  else priorityOrder b.priority - priorityOrder a.priority

/-- TaskManifest.getNextTask: query `not_started` tasks of the orchestration
(queryTasks already sorted them newest-first), re-sort by `nextTaskCmp`,
return the first. -/
def getNextTask (store : List Task) (orchestrationId : String) : Option Task :=
  let tasks := queryTasks store
    { orchestrationId := some orchestrationId, status := some TaskStatus.not_started }
  if tasks.length = 0 then none
  else (stableSortByCmp nextTaskCmp tasks).head?

/-! ## TaskExecutor.checkDependencies (with isDependencySatisfied) -/

structure DependencyCheckResult where
  allSatisfied : Bool
  satisfiedDependencies : List TaskDependency
  unsatisfiedDependencies : List TaskDependency
  blockedBy : List String
deriving DecidableEq

/-- TaskExecutor.isDependencySatisfied. -/
def isDependencySatisfied (dependency : TaskDependency) (dependentTask : Task) : Bool :=
  match dependency.type with
  | .finish_to_start => decide (dependentTask.status = TaskStatus.completed)
  | .start_to_start =>
    decide (dependentTask.status = TaskStatus.in_progress ∨
      dependentTask.status = TaskStatus.completed)
  | .finish_to_finish => decide (dependentTask.status = TaskStatus.completed)
  | .start_to_finish =>
    decide (dependentTask.status = TaskStatus.in_progress ∨
      dependentTask.status = TaskStatus.completed)

def checkDependenciesStep (store : List Task) (acc : DependencyCheckResult)
    (dependency : TaskDependency) : DependencyCheckResult :=
  match loadTask store dependency.taskId with
  | none =>
    { acc with
      allSatisfied := false
      unsatisfiedDependencies := acc.unsatisfiedDependencies ++ [dependency]
      blockedBy := acc.blockedBy ++ ["Dependent task " ++ dependency.taskId ++ " not found"] }
  | some dependentTask =>
    if isDependencySatisfied dependency dependentTask then
      { acc with satisfiedDependencies := acc.satisfiedDependencies ++ [dependency] }
    else
      { acc with
        allSatisfied := false
        unsatisfiedDependencies := acc.unsatisfiedDependencies ++ [dependency]
        blockedBy := acc.blockedBy ++
          ["Task " ++ dependentTask.name ++ " (" ++ statusText dependentTask.status ++ ")"] }

/-- TaskExecutor.checkDependencies; `none` embeds the thrown
`Task ... not found` error. -/
def checkDependencies (store : List Task) (taskId : String) :
    Option DependencyCheckResult :=
  match loadTask store taskId with
  | none => none
  | some task =>
    some (task.dependencies.foldl (checkDependenciesStep store)
      { allSatisfied := true
        satisfiedDependencies := []
        unsatisfiedDependencies := []
        blockedBy := [] })

/-! ## TaskManifest.getTaskStatistics -/

structure TaskStatisticsResult where
  total : Nat
  notStartedCount : Nat
  inProgressCount : Nat
  completedCount : Nat
  blockedCount : Nat
  cancelledCount : Nat
  failedCount : Nat
  lowCount : Nat
  mediumCount : Nat
  highCount : Nat
  criticalCount : Nat
  /-- `Math.round((completed / tasks.length) * 100)` — `none` embeds the JS
  `NaN` produced by the unguarded `0 / 0` when there are no tasks. -/
  completionPercentage : Option Int
  averageProgress : Int
  estimatedTotalHours : Nat
deriving DecidableEq

/-- TaskManifest.getTaskStatistics.  The per-task counting loop is embedded
as filters (same counts); `completionPercentage` is computed unguarded while
`averageProgress` is guarded by `tasks.length > 0`, exactly as in the
source. -/
def getTaskStatistics (store : List Task) (orchestrationId : String) :
    TaskStatisticsResult :=
  let tasks := queryTasks store { orchestrationId := some orchestrationId }
  let completedCount := (tasks.filter (fun t => decide (t.status = TaskStatus.completed))).length
  let totalProgress : Int := tasks.foldl (fun s t => s + t.progress.completionPercentage) 0
  { total := tasks.length
    notStartedCount := (tasks.filter (fun t => decide (t.status = TaskStatus.not_started))).length
    inProgressCount := (tasks.filter (fun t => decide (t.status = TaskStatus.in_progress))).length
    completedCount := completedCount
    blockedCount := (tasks.filter (fun t => decide (t.status = TaskStatus.blocked))).length
    cancelledCount := (tasks.filter (fun t => decide (t.status = TaskStatus.cancelled))).length
    failedCount := (tasks.filter (fun t => decide (t.status = TaskStatus.failed))).length
    lowCount := (tasks.filter (fun t => decide (t.priority = TaskPriority.low))).length
    mediumCount := (tasks.filter (fun t => decide (t.priority = TaskPriority.medium))).length
    highCount := (tasks.filter (fun t => decide (t.priority = TaskPriority.high))).length
    criticalCount := (tasks.filter (fun t => decide (t.priority = TaskPriority.critical))).length
    completionPercentage :=
      if tasks.length = 0 then none
      else some (jsRound (((completedCount : Rat) / (tasks.length : Rat)) * 100))
    averageProgress :=
      if tasks.length > 0 then jsRound ((totalProgress : Rat) / (tasks.length : Rat))
      else 0
    estimatedTotalHours := tasks.foldl (fun s t => s + t.effortHours.getD 0) 0 }

/-! ## ValidationUtils transition tables (never consulted by the update
operations — that fact is what claim C1 is about) -/

inductive SessionType
  | planning
  | task
  | verification
  | interactive
deriving DecidableEq

inductive SessionState
  | active
  | completed
  | suspended
  | failed
deriving DecidableEq

/-- The `validTransitions` table of ValidationUtils.validateStateTransition. -/
def sessionStateAllowedTargets : SessionState → List SessionState
  | .active => [.suspended, .completed, .failed]
  | .suspended => [.active, .completed, .failed]
  | .completed => []
  | .failed => [.active]

/-- ValidationUtils.validateStateTransition (`isValid` component; same-state
transitions are allowed first). -/
def validateStateTransition (f t : SessionState) : Bool :=
  if f = t then true
  else decide (t ∈ sessionStateAllowedTargets f)

/-- The `validTransitions` table of
ValidationUtils.validateTaskStatusTransition. -/
def taskStatusAllowedTargets : TaskStatus → List TaskStatus
  | .not_started => [.in_progress, .cancelled]
  | .in_progress => [.completed, .blocked, .failed, .cancelled]
  | .blocked => [.in_progress, .cancelled]
  | .completed => []
  | .failed => [.in_progress, .cancelled]
  | .cancelled => [.not_started]

/-- ValidationUtils.validateTaskStatusTransition (`isValid` component; note:
no same-state allowance in the source for tasks). -/
def validateTaskStatusTransition (f t : TaskStatus) : Bool :=
  decide (t ∈ taskStatusAllowedTargets f)

/-! ## Session data model (types/session.ts) -/

/-- A Session record.  `context` and `metadata` are omitted: none of the
operations under verification reads them (only timestamps, ids, state and the
parent/child links). -/
structure SessionRecord where
  id : String
  type : SessionType
  orchestrationId : String
  taskId : Option String
  timestamp : Nat
  state : SessionState
  parentSessionId : Option String
  childSessionIds : List String
  lastActivityAt : Nat
  completedAt : Option Nat
  failureReason : Option String
deriving DecidableEq

/-- OrchestrationSession.updateState (lines 89-108): set the state, refresh
`lastActivityAt`, stamp `completedAt` on `completed` and `failureReason` on
`failed`.  No transition validation is performed. -/
def updateState (s : SessionRecord) (newState : SessionState)
    (reason : Option String) (now : Nat) : SessionRecord :=
  let s1 := { s with state := newState, lastActivityAt := now }
  if newState = SessionState.completed then { s1 with completedAt := some now }
  else if newState = SessionState.failed then { s1 with failureReason := reason }
  else s1

/-- OrchestrationSession.addChildSession. -/
def addChildSession (s : SessionRecord) (childSessionId : String) (now : Nat) :
    SessionRecord :=
  if s.childSessionIds.contains childSessionId then s
  else { s with
    childSessionIds := s.childSessionIds ++ [childSessionId]
    lastActivityAt := now }

/-- OrchestrationSession.removeChildSession (`indexOf` + `splice(index, 1)` =
erase the first occurrence). -/
def removeChildSession (s : SessionRecord) (childSessionId : String) (now : Nat) :
    SessionRecord :=
  if s.childSessionIds.contains childSessionId then
    { s with
      childSessionIds := s.childSessionIds.erase childSessionId
      lastActivityAt := now }
  else s

/-! ## StateManager (persistent store for sessions) -/

structure StorageConfig where
  enableBackups : Bool := true
  maxBackups : Nat := 10

/-- A backup copy made by StateManager.createBackup. -/
structure BackupEntry where
  kind : String
  recordId : String
  data : SessionRecord
deriving DecidableEq

structure StoreState where
  sessions : List SessionRecord
  backups : List BackupEntry
deriving DecidableEq

/-- The error classes of StateManager.ts.  `validationErr` mirrors the
`ValidationError extends StorageError` subclass declaration; `jsErr` is a
plain thrown `Error`. -/
inductive StoreErr
  | storageErr (msg : String)
  | validationErr (msg : String)
  | corruptionErr (msg : String)
  | jsErr (msg : String)
deriving DecidableEq

/-- The Zod `SessionSchema` checks of ValidationUtils.validateSession that can
fail in this typed embedding: the two `min(1)` string constraints on `id` and
`orchestrationId`.  Enum membership, array-ness and timestamp shape hold by
construction of `SessionRecord`. -/
def validateSessionB (s : SessionRecord) : Bool :=
  decide (1 ≤ s.id.length) && decide (1 ≤ s.orchestrationId.length)

/-- Drop the oldest `k` backups of the given kind/id (backup rotation keeps
the newest `maxBackups`; entries are stored oldest-first). -/
def dropOldestBackups (k : Nat) (kind id : String) :
    List BackupEntry → List BackupEntry
  | [] => []
  | b :: bs =>
    match k with
    | 0 => b :: bs
    | Nat.succ k' =>
      if b.kind == kind && b.recordId == id then dropOldestBackups k' kind id bs
      else b :: dropOldestBackups (Nat.succ k') kind id bs

/-- StateManager.createBackup + cleanupBackups: copy the existing record (if
any) into the backup area, then rotate that record's backups down to
`maxBackups` (a falsy `maxBackups = 0` disables rotation). -/
def smCreateBackup (cfg : StorageConfig) (st : StoreState) (kind id : String) :
    StoreState :=
  match st.sessions.find? (fun s => s.id == id) with
  | none => st
  | some s =>
    let backs := st.backups ++ [{ kind := kind, recordId := id, data := s }]
    if cfg.maxBackups = 0 then { st with backups := backs }
    else
      let forId := backs.filter (fun b => b.kind == kind && b.recordId == id)
      if forId.length ≤ cfg.maxBackups then { st with backups := backs }
      else { st with backups :=
        dropOldestBackups (forId.length - cfg.maxBackups) kind id backs }

/-- Overwrite the session file with the same id, or create a new one. -/
def putSessionFile : List SessionRecord → SessionRecord → List SessionRecord
  | [], s => [s]
  | u :: us, s => if u.id == s.id then s :: us else u :: putSessionFile us s

/-- StateManager.saveSession (lines 133-160): validate first; on failure throw
a plain `StorageError` (note: NOT the `ValidationError` subclass) before any
backup or write; otherwise back up the existing version and write the
record. -/
def smSaveSession (cfg : StorageConfig) (st : StoreState) (session : SessionRecord) :
    StoreState × Except StoreErr Unit :=
  if validateSessionB session = false then
    (st, Except.error (StoreErr.storageErr "Session validation failed"))
  else
    let st1 := if cfg.enableBackups then smCreateBackup cfg st "sessions" session.id else st
    ({ st1 with sessions := putSessionFile st1.sessions session }, Except.ok ())

/-- StateManager.loadSession: absent file gives `none`; a stored record that
fails validation throws (the byte-level corruption branch has no counterpart
in this record-level store). -/
def smLoadSession (st : StoreState) (sessionId : String) :
    Except StoreErr (Option SessionRecord) :=
  match st.sessions.find? (fun s => s.id == sessionId) with
  | none => Except.ok none
  | some s =>
    if validateSessionB s then Except.ok (some s)
    else Except.error (StoreErr.storageErr "Session validation failed")

/-- StateManager.deleteSession: back up (a no-op when the file is absent),
then unlink — which throws when the file does not exist, wrapped into a
`StorageError`. -/
def smDeleteSession (cfg : StorageConfig) (st : StoreState) (sessionId : String) :
    StoreState × Except StoreErr Unit :=
  let st1 := if cfg.enableBackups then smCreateBackup cfg st "sessions" sessionId else st
  if st1.sessions.any (fun s => s.id == sessionId) then
    ({ st1 with sessions := st1.sessions.filter (fun s => !(s.id == sessionId)) },
      Except.ok ())
  else
    (st1, Except.error (StoreErr.storageErr ("Failed to delete session " ++ sessionId)))

/-- Session query filter.  The `tags` filter (over the omitted metadata) has
no counterpart here. -/
structure SessionQuery where
  orchestrationId : Option String := none
  type : Option SessionType := none
  state : Option SessionState := none
  taskId : Option String := none
  parentSessionId : Option String := none
  dateFrom : Option Nat := none
  dateTo : Option Nat := none
  offset : Option Nat := none
  limit : Option Nat := none

/-- StateManager.matchesQuery. -/
def sessionMatchesQuery (s : SessionRecord) (q : SessionQuery) : Bool :=
  (match q.orchestrationId with
   | some o => s.orchestrationId == o
   | none => true) &&
  (match q.type with
   | some t => decide (s.type = t)
   | none => true) &&
  (match q.state with
   | some st => decide (s.state = st)
   | none => true) &&
  (match q.taskId with
   | some t => s.taskId == some t
   | none => true) &&
  (match q.parentSessionId with
   | some p => s.parentSessionId == some p
   | none => true) &&
  (match q.dateFrom with
   | some f => decide (f ≤ s.timestamp)
   | none => true) &&
  (match q.dateTo with
   | some u => decide (s.timestamp ≤ u)
   | none => true)

/-- Comparator `(a, b) => b.timestamp - a.timestamp` (newest first). -/
def cmpByTimestampDesc (a b : SessionRecord) : Int :=
  (b.timestamp : Int) - (a.timestamp : Int)

/-- StateManager.querySessions: per-file load (records failing validation are
skipped with a warning), filter, newest-first sort, offset/limit. -/
def smQuerySessions (st : StoreState) (q : SessionQuery) : List SessionRecord :=
  jsTakeLimit q.limit (jsDropOffset q.offset
    (stableSortByCmp cmpByTimestampDesc
      (st.sessions.filter (fun s => validateSessionB s && sessionMatchesQuery s q))))

/-! ## SessionRegistry -/

/-- The registry: the in-memory `sessions` map (insertion-ordered, keyed by
session id) plus the persistent store. -/
structure Registry where
  cache : List SessionRecord
  store : StoreState
deriving DecidableEq

/-- `this.sessions.get(id)`. -/
def cacheGet (cache : List SessionRecord) (sessionId : String) :
    Option SessionRecord :=
  cache.find? (fun s => s.id == sessionId)

/-- `this.sessions.set(session.id, session)` — a JS Map keeps the original
position of an existing key. -/
def cachePut : List SessionRecord → SessionRecord → List SessionRecord
  | [], s => [s]
  | u :: us, s => if u.id == s.id then s :: us else u :: cachePut us s

structure CreateSessionParams where
  type : SessionType
  orchestrationId : String
  taskId : Option String := none
  parentSessionId : Option String := none

/-- The OrchestrationSession constructor (context/metadata initialization
omitted with those fields). -/
def newSessionRecord (params : CreateSessionParams) (newId : String) (now : Nat) :
    SessionRecord :=
  { id := newId
    type := params.type
    orchestrationId := params.orchestrationId
    taskId := params.taskId
    timestamp := now
    state := SessionState.active
    parentSessionId := params.parentSessionId
    childSessionIds := []
    lastActivityAt := now
    completedAt := none
    failureReason := none }

/-- SessionRegistry.createSession (lines 812-841): construct, cache, persist;
then, if a parent id was given AND the parent is in the in-memory cache,
append this session's id to the parent's `childSessionIds` and persist the
parent.  A thrown save error propagates with the mutations made so far kept
(JS exception semantics). -/
def createSession (cfg : StorageConfig) (reg : Registry)
    (params : CreateSessionParams) (newId : String) (now : Nat) :
    Registry × Except StoreErr SessionRecord :=
  let session := newSessionRecord params newId now
  let reg1 : Registry := { reg with cache := cachePut reg.cache session }
  match smSaveSession cfg reg1.store session with
  | (st, Except.error e) => ({ reg1 with store := st }, Except.error e)
  | (st, Except.ok _) =>
    let reg2 : Registry := { reg1 with store := st }
    match params.parentSessionId with
    | none => (reg2, Except.ok session)
    | some pid =>
      match cacheGet reg2.cache pid with
      | none => (reg2, Except.ok session)
      | some parentSession =>
        let parent2 := addChildSession parentSession session.id now
        let reg3 : Registry := { reg2 with cache := cachePut reg2.cache parent2 }
        match smSaveSession cfg reg3.store parent2 with
        | (st2, Except.error e) => ({ reg3 with store := st2 }, Except.error e)
        | (st2, Except.ok _) => ({ reg3 with store := st2 }, Except.ok session)

/-- SessionRegistry.getSession: memory first, then storage (caching the
loaded record). -/
def getSession (reg : Registry) (sessionId : String) :
    Registry × Except StoreErr (Option SessionRecord) :=
  match cacheGet reg.cache sessionId with
  | some s => (reg, Except.ok (some s))
  | none =>
    match smLoadSession reg.store sessionId with
    | Except.error e => (reg, Except.error e)
    | Except.ok none => (reg, Except.ok none)
    | Except.ok (some data) =>
      ({ reg with cache := cachePut reg.cache data }, Except.ok (some data))

/-- One step of SessionRegistry.querySessions: prefer the cached object for
each stored record, caching records seen for the first time. -/
def registryQueryStep (acc : Registry × List SessionRecord) (data : SessionRecord) :
    Registry × List SessionRecord :=
  match cacheGet acc.1.cache data.id with
  | some s => (acc.1, acc.2 ++ [s])
  | none => ({ acc.1 with cache := cachePut acc.1.cache data }, acc.2 ++ [data])

/-- SessionRegistry.querySessions. -/
def registryQuerySessions (reg : Registry) (q : SessionQuery) :
    Registry × List SessionRecord :=
  (smQuerySessions reg.store q).foldl registryQueryStep (reg, [])

structure RelatedSessions where
  parent : Option SessionRecord
  children : List SessionRecord
  siblings : List SessionRecord
  predecessors : List SessionRecord
  successors : List SessionRecord
deriving DecidableEq

/-- SessionRegistry.findRelatedSessions (lines 1342-1392): load the session
(throwing when absent), query all sessions OF ITS ORCHESTRATION, and look the
parent/children/siblings up within that query result. -/
def findRelatedSessions (reg : Registry) (sessionId : String) :
    Registry × Except StoreErr RelatedSessions :=
  match getSession reg sessionId with
  | (reg1, Except.error e) => (reg1, Except.error e)
  | (reg1, Except.ok none) =>
    (reg1, Except.error (StoreErr.jsErr ("Session " ++ sessionId ++ " not found")))
  | (reg1, Except.ok (some session)) =>
    let qres := registryQuerySessions reg1 { orchestrationId := some session.orchestrationId }
    let allSessions := qres.2
    let parent := match session.parentSessionId with
      | some pid => allSessions.find? (fun s => s.id == pid)
      | none => none
    let children := allSessions.filter (fun s => s.parentSessionId == some sessionId)
    let siblings := match session.parentSessionId with
      | some pid =>
        allSessions.filter (fun s => s.parentSessionId == some pid && !(s.id == sessionId))
      | none => []
    let predecessors := allSessions.filter (fun s =>
      !(s.id == sessionId) &&
      (match s.completedAt with
       | some c => decide (c ≤ session.timestamp)
       | none => false))
    let successors := match session.completedAt with
      | some c =>
        allSessions.filter (fun s => !(s.id == sessionId) && decide (c ≤ s.timestamp))
      | none => []
    (qres.1, Except.ok
      { parent := parent
        children := children
        siblings := siblings
        predecessors := predecessors
        successors := successors })

/-- Final phase of SessionRegistry.deleteSession: drop the id from the
in-memory map, then delete from storage (which throws when the record file is
absent — with the cache mutation kept). -/
def deleteSessionFinish (cfg : StorageConfig) (reg : Registry) (sessionId : String) :
    Registry × Except StoreErr Bool :=
  let reg1 : Registry := { reg with cache := reg.cache.filter (fun s => !(s.id == sessionId)) }
  match smDeleteSession cfg reg1.store sessionId with
  | (st, Except.error e) => ({ reg1 with store := st }, Except.error e)
  | (st, Except.ok _) => ({ reg1 with store := st }, Except.ok true)

/-- Call modes of the recursive deletion: `go` is a deleteSession invocation,
`children` is the `for (const childId of session.childSessionIds)` loop at
index `i` (a defunctionalization of the source's mutual recursion, so that
the embedding is structurally recursive on fuel and evaluates by `rfl`). -/
inductive DeleteCall
  | go (sessionId : String)
  | children (sessionId : String) (i : Nat)

/-- SessionRegistry.deleteSession (lines 923-958).  If the session is cached:
remove its id from the cached parent's child list (persisting the parent),
then iterate `for (const childId of session.childSessionIds)` — the LIVE
array of the cached object, which recursive deletions splice concurrently —
deleting each visited child recursively; finally remove the session itself
from cache and storage (an uncached id still goes through the storage
delete, which throws when the file is absent).  The loop's array iterator
reads index `i` of the current array each step.  Fuel only bounds recursion
depth; every theorem below supplies adequate fuel. -/
def deleteRun (cfg : StorageConfig) (now : Nat) :
    Nat → DeleteCall → Registry → Registry × Except StoreErr Bool
  | 0, _, reg => (reg, Except.ok true)
  | Nat.succ fuel, DeleteCall.go sessionId, reg =>
    (match cacheGet reg.cache sessionId with
    | none => deleteSessionFinish cfg reg sessionId
    | some session =>
      match
        (match session.parentSessionId with
        | none => (reg, none)
        | some pid =>
          match cacheGet reg.cache pid with
          | none => (reg, none)
          | some parentSession =>
            let parent2 := removeChildSession parentSession sessionId now
            let regA : Registry := { reg with cache := cachePut reg.cache parent2 }
            match smSaveSession cfg regA.store parent2 with
            | (st, Except.error e) => (({ regA with store := st } : Registry), some e)
            | (st, Except.ok _) => (({ regA with store := st } : Registry), none)) with
      | (regB, some e) => (regB, Except.error e)
      | (regB, none) =>
        match deleteRun cfg now fuel (DeleteCall.children sessionId 0) regB with
        | (regC, Except.error e) => (regC, Except.error e)
        | (regC, Except.ok _) => deleteSessionFinish cfg regC sessionId)
  | Nat.succ fuel, DeleteCall.children sessionId i, reg =>
    let current := match cacheGet reg.cache sessionId with
      | some s => s.childSessionIds
      | none => []
    if h : i < current.length then
      match deleteRun cfg now fuel (DeleteCall.go (current.get ⟨i, h⟩)) reg with
      | (reg2, Except.error e) => (reg2, Except.error e)
      | (reg2, Except.ok _) =>
        deleteRun cfg now fuel (DeleteCall.children sessionId (i + 1)) reg2
    else (reg, Except.ok true)

/-- SessionRegistry.deleteSession entry point. -/
def deleteSession (cfg : StorageConfig) (fuel : Nat) (reg : Registry)
    (sessionId : String) (now : Nat) : Registry × Except StoreErr Bool :=
  deleteRun cfg now fuel (DeleteCall.go sessionId) reg

/-! ## Concrete sample records for scenario theorems -/

/-- A task with the given id, status, priority, orchestration, dependencies
and creation time; all remaining fields neutral. -/
def mkTask (id : String) (status : TaskStatus) (priority : TaskPriority)
    (oid : String) (deps : List TaskDependency) (createdAt : Nat) : Task :=
  { id := id
    name := id
    description := id
    status := status
    priority := priority
    orchestrationId := oid
    parentTaskId := none
    dependencies := deps
    effortHours := none
    progress := { completionPercentage := 0, lastUpdated := createdAt }
    sessionId := none
    createdAt := createdAt
    startedAt := none
    completedAt := none
    updatedAt := createdAt
    assignee := none
    tags := [] }

/-- A session with the given id, orchestration, state, timestamp and
parent/child links; all remaining fields neutral. -/
def mkSession (id oid : String) (state : SessionState) (ts : Nat)
    (parent : Option String) (children : List String) : SessionRecord :=
  { id := id
    type := SessionType.planning
    orchestrationId := oid
    taskId := none
    timestamp := ts
    state := state
    parentSessionId := parent
    childSessionIds := children
    lastActivityAt := ts
    completedAt := none
    failureReason := none }

/-! ## C1 — status/state transition enforcement -/

/-- C1 (code_bug evidence): the repository's own transition tables
(ValidationUtils, unit-tested) reject `completed → in_progress` for tasks and
`completed → active` for sessions, yet `TaskManifest.updateTask` performs the
former (updating the stored record, returning it, raising no error) and
`OrchestrationSession.updateState` performs the latter — neither operation
consults any transition table. -/
theorem C1_transitions_unenforced :
    validateTaskStatusTransition TaskStatus.completed TaskStatus.in_progress = false
    ∧ validateStateTransition SessionState.completed SessionState.active = false
    ∧ (updateTask [mkTask "t1" TaskStatus.completed TaskPriority.medium "o" [] 0]
        "t1" { status := some TaskStatus.in_progress } 5).2.isSome = true
    ∧ ((updateTask [mkTask "t1" TaskStatus.completed TaskPriority.medium "o" [] 0]
        "t1" { status := some TaskStatus.in_progress } 5).2.map (fun t => t.status))
        = some TaskStatus.in_progress
    ∧ ((updateTask [mkTask "t1" TaskStatus.completed TaskPriority.medium "o" [] 0]
        "t1" { status := some TaskStatus.in_progress } 5).1.map (fun t => t.status))
        = [TaskStatus.in_progress]
    ∧ (updateState (mkSession "s1" "o" SessionState.completed 0 none [])
        SessionState.active none 7).state = SessionState.active := by
  refine ⟨by decide, by decide, rfl, rfl, rfl, rfl⟩

/-! ## C2 — updateState same-state idempotence -/

/-- C2 counterexample: calling `updateState(id, completed, reason)` twice DOES
change `completedAt` after the first call — the second call re-stamps it with
its own time (1 becomes 2 here), contradicting the claim. -/
theorem C2_completedAt_restamped :
    (updateState (mkSession "s1" "o" SessionState.active 0 none [])
      SessionState.completed none 1).completedAt = some 1
    ∧ (updateState
        (updateState (mkSession "s1" "o" SessionState.active 0 none [])
          SessionState.completed none 1)
        SessionState.completed none 2).completedAt = some 2
    ∧ some (2 : Nat) ≠ some (1 : Nat) := by
  refine ⟨rfl, rfl, by decide⟩

/-- C2 amended: a repeated `updateState(id, s, reason)` never errors
(`updateState` is total and unconditional), always refreshes
`lastActivityAt`, never changes `failureReason` after the first call, and
leaves `completedAt` unchanged UNLESS `s = completed`, in which case it
re-stamps `completedAt` with the second call's time. -/
theorem C2_updateState_idempotence_amended (s : SessionRecord)
    (st : SessionState) (reason : Option String) (t1 t2 : Nat) :
    (updateState (updateState s st reason t1) st reason t2).lastActivityAt = t2
    ∧ (updateState (updateState s st reason t1) st reason t2).state
        = (updateState s st reason t1).state
    ∧ (updateState (updateState s st reason t1) st reason t2).failureReason
        = (updateState s st reason t1).failureReason
    ∧ (st ≠ SessionState.completed →
        (updateState (updateState s st reason t1) st reason t2).completedAt
          = (updateState s st reason t1).completedAt)
    ∧ (st = SessionState.completed →
        (updateState (updateState s st reason t1) st reason t2).completedAt
          = some t2) := by
  cases st <;> simp [updateState]

/-- C2 witness: the amended theorem at a concrete failed-state double call. -/
theorem C2_updateState_idempotence_amended_witness :
    (SessionState.failed ≠ SessionState.completed)
    ∧ (updateState
        (updateState (mkSession "s1" "o" SessionState.active 0 none [])
          SessionState.failed (some "r") 1)
        SessionState.failed (some "r") 2).completedAt
      = (updateState (mkSession "s1" "o" SessionState.active 0 none [])
          SessionState.failed (some "r") 1).completedAt :=
  ⟨by decide,
    (C2_updateState_idempotence_amended
      (mkSession "s1" "o" SessionState.active 0 none [])
      SessionState.failed (some "r") 1 2).2.2.2.1 (by decide)⟩

/-! ## C10 — getTaskStatistics division guards -/

/-- C10: `getTaskStatistics` guards the `averageProgress` division but not the
`completionPercentage` division: with zero tasks it returns
`averageProgress = 0` while `completionPercentage` is the unguarded `0 / 0`
(JS `NaN`, embedded as `none`); with at least one task the count-based
`completionPercentage` always lies in [0, 100]. -/
theorem C10_statistics_division_guards (store : List Task) (oid : String) :
    ((queryTasks store { orchestrationId := some oid }).length = 0 →
      (getTaskStatistics store oid).averageProgress = 0
      ∧ (getTaskStatistics store oid).completionPercentage = none)
    ∧ (0 < (queryTasks store { orchestrationId := some oid }).length →
      ∃ p, (getTaskStatistics store oid).completionPercentage = some p
        ∧ 0 ≤ p ∧ p ≤ 100) := by
  constructor
  · intro h
    simp [getTaskStatistics, h]
  · intro h
    have hne : (queryTasks store { orchestrationId := some oid }).length ≠ 0 :=
      Nat.pos_iff_ne_zero.mp h
    have heq : (getTaskStatistics store oid).completionPercentage =
        some (jsRound (((((queryTasks store { orchestrationId := some oid }).filter
              (fun t => decide (t.status = TaskStatus.completed))).length : Rat) /
            ((queryTasks store { orchestrationId := some oid }).length : Rat)) * 100)) := by
      simp [getTaskStatistics, hne]
    refine ⟨_, heq, ?_, ?_⟩
    · unfold jsRound
      have hq : (0 : Rat) ≤
          ((((queryTasks store { orchestrationId := some oid }).filter
              (fun t => decide (t.status = TaskStatus.completed))).length : Rat) /
            ((queryTasks store { orchestrationId := some oid }).length : Rat)) * 100 := by
        positivity
      have : (0 : Int) = ⌊(0 : Rat) + 1/2⌋ := by norm_num
      rw [this]
      exact Int.floor_le_floor (by linarith)
    · unfold jsRound
      have hc : ((queryTasks store { orchestrationId := some oid }).filter
            (fun t => decide (t.status = TaskStatus.completed))).length
          ≤ (queryTasks store { orchestrationId := some oid }).length :=
        List.length_filter_le _ _
      have hq : ((((queryTasks store { orchestrationId := some oid }).filter
              (fun t => decide (t.status = TaskStatus.completed))).length : Rat) /
            ((queryTasks store { orchestrationId := some oid }).length : Rat)) * 100
          ≤ 100 := by
        have hlen : (0 : Rat) < ((queryTasks store { orchestrationId := some oid }).length : Rat) := by
          exact_mod_cast h
        have hdiv : ((((queryTasks store { orchestrationId := some oid }).filter
              (fun t => decide (t.status = TaskStatus.completed))).length : Rat) /
            ((queryTasks store { orchestrationId := some oid }).length : Rat)) ≤ 1 := by
          rw [div_le_one hlen]
          exact_mod_cast hc
        nlinarith
      calc ⌊((((queryTasks store { orchestrationId := some oid }).filter
              (fun t => decide (t.status = TaskStatus.completed))).length : Rat) /
            ((queryTasks store { orchestrationId := some oid }).length : Rat)) * 100 + 1/2⌋
          ≤ ⌊(100 : Rat) + 1/2⌋ := Int.floor_le_floor (by linarith)
        _ = 100 := by norm_num

/-- C10 witness: the zero-task branch at an empty store and the in-range
branch at a one-task store. -/
theorem C10_statistics_division_guards_witness :
    ((getTaskStatistics [] "o").averageProgress = 0
      ∧ (getTaskStatistics [] "o").completionPercentage = none)
    ∧ ∃ p, (getTaskStatistics [mkTask "a" TaskStatus.completed TaskPriority.medium "o" [] 0]
        "o").completionPercentage = some p ∧ 0 ≤ p ∧ p ≤ 100 :=
  ⟨(C10_statistics_division_guards [] "o").1 (by decide),
    (C10_statistics_division_guards
      [mkTask "a" TaskStatus.completed TaskPriority.medium "o" [] 0] "o").2 (by decide)⟩

/-! ## C7 — save-time validation -/

/-- C7 counterexample: saving a session with an empty id fails validation and
writes nothing, but the error thrown is the plain `StorageError` ("Session
validation failed: ..."), NOT the dedicated `ValidationError` subclass the
claim names. -/
theorem C7_save_throws_plain_storage_error :
    (smSaveSession {} { sessions := [], backups := [] }
        (mkSession "" "o" SessionState.active 0 none [])).1
      = { sessions := [], backups := [] }
    ∧ (smSaveSession {} { sessions := [], backups := [] }
        (mkSession "" "o" SessionState.active 0 none [])).2
      = Except.error (StoreErr.storageErr "Session validation failed")
    ∧ ∀ msg, (smSaveSession {} { sessions := [], backups := [] }
        (mkSession "" "o" SessionState.active 0 none [])).2
      ≠ Except.error (StoreErr.validationErr msg) := by
  refine ⟨rfl, rfl, ?_⟩
  intro msg h
  simp [smSaveSession, validateSessionB, mkSession] at h

/-- C7 amended: the record's shape is validated before any write; when
validation fails, save fails with a generic `StorageError` (the
`ValidationError` subclass is declared but never thrown here) and writes
nothing — the returned store is exactly the input store: no data file and no
backup is created or modified. -/
theorem C7_save_validation_amended (cfg : StorageConfig) (st : StoreState)
    (s : SessionRecord) (h : validateSessionB s = false) :
    smSaveSession cfg st s
      = (st, Except.error (StoreErr.storageErr "Session validation failed")) := by
  simp [smSaveSession, h]

/-- C7 witness: the amended theorem at a concrete invalid record. -/
theorem C7_save_validation_amended_witness :
    validateSessionB (mkSession "" "o" SessionState.active 0 none []) = false
    ∧ smSaveSession {} { sessions := [], backups := [] }
        (mkSession "" "o" SessionState.active 0 none [])
      = ({ sessions := [], backups := [] },
          Except.error (StoreErr.storageErr "Session validation failed")) :=
  ⟨by decide,
    C7_save_validation_amended {} { sessions := [], backups := [] }
      (mkSession "" "o" SessionState.active 0 none []) (by decide)⟩

/-! ## Stable-sort lemmas -/

/-- Sortedness with respect to a JS comparator. -/
def SortedByCmp (cmp : α → α → Int) (l : List α) : Prop :=
  l.Pairwise (fun a b => cmp a b ≤ 0)

theorem insertByCmp_perm (cmp : α → α → Int) (x : α) (l : List α) :
    (insertByCmp cmp x l).Perm (x :: l) := by
  induction l with
  | nil => simp [insertByCmp]
  | cons y ys ih =>
    unfold insertByCmp
    by_cases h : cmp x y < 0
    · simp [h]
    · simp only [h, if_false]
      exact (ih.cons y).trans (List.Perm.swap x y ys)

theorem stableSortByCmp_permAux (cmp : α → α → Int) (l acc : List α) :
    (l.foldl (fun acc x => insertByCmp cmp x acc) acc).Perm (acc ++ l) := by
  induction l generalizing acc with
  | nil => simp
  | cons x xs ih =>
    simp only [List.foldl_cons]
    refine (ih (insertByCmp cmp x acc)).trans ?_
    have h1 : (insertByCmp cmp x acc ++ xs).Perm ((x :: acc) ++ xs) :=
      (insertByCmp_perm cmp x acc).append_right xs
    refine h1.trans ?_
    exact List.perm_middle.symm

theorem stableSortByCmp_perm (cmp : α → α → Int) (l : List α) :
    (stableSortByCmp cmp l).Perm l := by
  simpa using stableSortByCmp_permAux cmp l []

theorem mem_insertByCmp {cmp : α → α → Int} {x : α} {l : List α} {z : α} :
    z ∈ insertByCmp cmp x l ↔ z = x ∨ z ∈ l := by
  rw [(insertByCmp_perm cmp x l).mem_iff]
  simp

theorem insertByCmp_sorted (cmp : α → α → Int)
    (hflip : ∀ a b, ¬ cmp a b < 0 → cmp b a ≤ 0)
    (htrans : ∀ a b c, cmp a b ≤ 0 → cmp b c ≤ 0 → cmp a c ≤ 0)
    (x : α) (l : List α) (hs : SortedByCmp cmp l) :
    SortedByCmp cmp (insertByCmp cmp x l) := by
  induction l with
  | nil => simp [insertByCmp, SortedByCmp]
  | cons y ys ih =>
    unfold insertByCmp
    by_cases h : cmp x y < 0
    · simp only [h, if_true]
      refine List.Pairwise.cons ?_ hs
      intro z hz
      rcases List.mem_cons.mp hz with rfl | hz'
      · exact le_of_lt h
      · have hyz := (List.pairwise_cons.mp hs).1 z hz'
        exact htrans x y z (le_of_lt h) hyz
    · simp only [h, if_false]
      have hys : SortedByCmp cmp ys := (List.pairwise_cons.mp hs).2
      refine List.Pairwise.cons ?_ (ih hys)
      intro z hz
      rcases mem_insertByCmp.mp hz with heq | hz'
      · subst heq; exact hflip _ y h
      · exact (List.pairwise_cons.mp hs).1 z hz'

theorem stableSortByCmp_sorted (cmp : α → α → Int)
    (hflip : ∀ a b, ¬ cmp a b < 0 → cmp b a ≤ 0)
    (htrans : ∀ a b c, cmp a b ≤ 0 → cmp b c ≤ 0 → cmp a c ≤ 0)
    (l : List α) : SortedByCmp cmp (stableSortByCmp cmp l) := by
  have aux : ∀ (m acc : List α), SortedByCmp cmp acc →
      SortedByCmp cmp (m.foldl (fun acc x => insertByCmp cmp x acc) acc) := by
    intro m
    induction m with
    | nil => intro acc h; simpa using h
    | cons x xs ih =>
      intro acc h
      simp only [List.foldl_cons]
      exact ih _ (insertByCmp_sorted cmp hflip htrans x acc h)
  exact aux l [] (by simp [SortedByCmp])

theorem sorted_head_min {cmp : α → α → Int} {l : List α}
    (hs : SortedByCmp cmp l) {t : α} (ht : l.head? = some t) :
    ∀ u ∈ l, u = t ∨ cmp t u ≤ 0 := by
  cases l with
  | nil => cases ht
  | cons a rest =>
    cases ht
    intro u hu
    rcases List.mem_cons.mp hu with rfl | hu'
    · exact Or.inl rfl
    · exact Or.inr ((List.pairwise_cons.mp hs).1 u hu')

/-! ## Comparator facts -/

theorem cmpByCreatedAtDesc_flip (a b : Task) :
    ¬ cmpByCreatedAtDesc a b < 0 → cmpByCreatedAtDesc b a ≤ 0 := by
  unfold cmpByCreatedAtDesc; omega

theorem cmpByCreatedAtDesc_trans (a b c : Task) :
    cmpByCreatedAtDesc a b ≤ 0 → cmpByCreatedAtDesc b c ≤ 0 →
    cmpByCreatedAtDesc a c ≤ 0 := by
  unfold cmpByCreatedAtDesc; omega

theorem nextTaskCmp_flip (a b : Task) :
    ¬ nextTaskCmp a b < 0 → nextTaskCmp b a ≤ 0 := by
  unfold nextTaskCmp
  rcases Nat.eq_zero_or_pos a.dependencies.length with ha | ha <;>
    rcases Nat.eq_zero_or_pos b.dependencies.length with hb | hb <;>
      simp [ha, hb, Nat.pos_iff_ne_zero.mp, Nat.ne_of_gt] <;> omega

theorem nextTaskCmp_trans (a b c : Task) :
    nextTaskCmp a b ≤ 0 → nextTaskCmp b c ≤ 0 → nextTaskCmp a c ≤ 0 := by
  unfold nextTaskCmp
  rcases Nat.eq_zero_or_pos a.dependencies.length with ha | ha <;>
    rcases Nat.eq_zero_or_pos b.dependencies.length with hb | hb <;>
      rcases Nat.eq_zero_or_pos c.dependencies.length with hc | hc <;>
        simp [ha, hb, hc, Nat.pos_iff_ne_zero.mp, Nat.ne_of_gt] <;> omega

/-! ## C6 — getNextTask -/

/-- The spec scenario: A (no deps), B (depends on A, finish_to_start),
C (depends on B), equal priority, created in the order A, B, C. -/
def taskA : Task := mkTask "A" TaskStatus.not_started TaskPriority.medium "o" [] 1

def taskB : Task := mkTask "B" TaskStatus.not_started TaskPriority.medium "o"
  [{ taskId := "A", type := DependencyType.finish_to_start }] 2

def taskC : Task := mkTask "C" TaskStatus.not_started TaskPriority.medium "o"
  [{ taskId := "B", type := DependencyType.finish_to_start }] 3

def scenarioStore0 : List Task := [taskA, taskB, taskC]

/-- The scenario store after marking A completed via updateTask. -/
def scenarioStore1 : List Task :=
  (updateTask scenarioStore0 "A" { status := some TaskStatus.completed } 10).1

theorem taskMatchesQuery_next_iff (t : Task) (oid : String) :
    taskMatchesQuery t
      { orchestrationId := some oid, status := some TaskStatus.not_started } = true
    ↔ (t.status = TaskStatus.not_started ∧ t.orchestrationId = oid) := by
  simp [taskMatchesQuery, and_comm]

theorem nextTaskCmp_le_props (t u : Task) (h : nextTaskCmp t u ≤ 0) :
    (u.dependencies = [] → t.dependencies = [])
    ∧ ((t.dependencies = [] ↔ u.dependencies = []) →
        priorityOrder u.priority ≤ priorityOrder t.priority) := by
  unfold nextTaskCmp at h
  rcases Nat.eq_zero_or_pos t.dependencies.length with ht | ht <;>
    rcases Nat.eq_zero_or_pos u.dependencies.length with hu | hu
  · constructor
    · intro _; exact List.length_eq_zero.mp ht
    · intro _
      simp [ht, hu, Nat.ne_of_gt] at h
      omega
  · constructor
    · intro hue
      exact absurd (List.length_eq_zero.mpr hue) (Nat.pos_iff_ne_zero.mp hu)
    · intro hiff
      exact absurd (List.length_eq_zero.mpr
        (hiff.mp (List.length_eq_zero.mp ht))) (Nat.pos_iff_ne_zero.mp hu)
  · exfalso
    simp [ht, hu, Nat.pos_iff_ne_zero.mp, Nat.ne_of_gt] at h
  · constructor
    · intro hue
      exact absurd (List.length_eq_zero.mpr hue) (Nat.pos_iff_ne_zero.mp hu)
    · intro _
      simp [Nat.pos_iff_ne_zero.mp ht, Nat.pos_iff_ne_zero.mp hu, Nat.ne_of_gt] at h
      omega

/-- C6 counterexample: in the scenario the first call returns A and, after A
is marked completed, `checkDependencies(B)` reports all satisfied — but
`getNextTask` then returns C, not B: B and C tie in the dependency/priority
comparator, the sort is stable, and queryTasks had ordered them newest-first.
The claim asserts the call returns B. -/
theorem C6_scenario_returns_newest_not_B :
    ((getNextTask scenarioStore0 "o").map (fun t => t.id) = some "A")
    ∧ ((checkDependencies scenarioStore1 "B").map (fun r => r.allSatisfied) = some true)
    ∧ ((getNextTask scenarioStore1 "o").map (fun t => t.id) = some "C")
    ∧ (some "C" : Option String) ≠ some "B" := by
  refine ⟨rfl, rfl, rfl, by decide⟩

/-- C6 amended: `getNextTask` considers exactly the `not_started` tasks of
the orchestration (none exactly when no such task exists), prefers tasks with
zero dependencies, then orders by priority (critical > high > medium > low);
ties fall back to queryTasks' newest-first order, so in the scenario the call
after completing A returns C (the most recently created of the tied B and C),
while `checkDependencies(B)` does report all dependencies satisfied. -/
theorem C6_getNextTask_amended :
    (∀ (store : List Task) (oid : String),
      (getNextTask store oid = none ↔
        ∀ t ∈ store, ¬(t.status = TaskStatus.not_started ∧ t.orchestrationId = oid))
      ∧ (∀ t, getNextTask store oid = some t →
          t ∈ store ∧ t.status = TaskStatus.not_started ∧ t.orchestrationId = oid
          ∧ ∀ u ∈ store, u.status = TaskStatus.not_started → u.orchestrationId = oid →
              ((u.dependencies = [] → t.dependencies = [])
               ∧ ((t.dependencies = [] ↔ u.dependencies = []) →
                   priorityOrder u.priority ≤ priorityOrder t.priority))))
    ∧ ((getNextTask scenarioStore0 "o").map (fun t => t.id) = some "A")
    ∧ ((checkDependencies scenarioStore1 "B").map (fun r => r.allSatisfied) = some true)
    ∧ ((getNextTask scenarioStore1 "o").map (fun t => t.id) = some "C") := by
  refine ⟨?_, rfl, rfl, rfl⟩
  intro store oid
  set q : TaskQuery :=
    { orchestrationId := some oid, status := some TaskStatus.not_started } with hqdef
  have hquery : queryTasks store q =
      stableSortByCmp cmpByCreatedAtDesc
        (store.filter (fun t => taskMatchesQuery t q)) := rfl
  have hlen : (queryTasks store q).length =
      (store.filter (fun t => taskMatchesQuery t q)).length := by
    rw [hquery]
    exact (stableSortByCmp_perm _ _).length_eq
  have hmem : ∀ u, u ∈ queryTasks store q ↔
      u ∈ store.filter (fun t => taskMatchesQuery t q) := by
    intro u
    rw [hquery]
    exact (stableSortByCmp_perm _ _).mem_iff
  constructor
  · -- none ↔ no eligible task
    unfold getNextTask
    constructor
    · intro h t htmem hpred
      by_cases hz : (queryTasks store q).length = 0
      · have : store.filter (fun t => taskMatchesQuery t q) = [] :=
          List.length_eq_zero.mp (hlen ▸ hz)
        have : t ∈ store.filter (fun t => taskMatchesQuery t q) :=
          List.mem_filter.mpr ⟨htmem, (taskMatchesQuery_next_iff t oid).mpr hpred⟩
        simp_all
      · simp only [hz, if_false] at h
        rw [← hqdef] at h
        have hlen2 : (stableSortByCmp nextTaskCmp (queryTasks store q)).length ≠ 0 := by
          rw [(stableSortByCmp_perm _ _).length_eq]
          exact hz
        have hne : stableSortByCmp nextTaskCmp (queryTasks store q) ≠ [] := by
          intro hnil
          rw [hnil] at hlen2
          exact hlen2 rfl
        rcases List.exists_cons_of_ne_nil hne with ⟨a, rest, hcons⟩
        rw [hcons] at h
        simp at h
    · intro h
      have : store.filter (fun t => taskMatchesQuery t q) = [] := by
        rw [List.filter_eq_nil]
        intro t ht
        intro hmatch
        exact h t ht ((taskMatchesQuery_next_iff t oid).mp hmatch)
      have hz : (queryTasks store q).length = 0 := by rw [hlen, this]; rfl
      simp [hz]
  · -- some t → t eligible and minimal
    intro t h
    unfold getNextTask at h
    by_cases hz : (queryTasks store q).length = 0
    · simp [hz] at h
    · simp only [hz, if_false] at h
      have hsorted : SortedByCmp nextTaskCmp
          (stableSortByCmp nextTaskCmp (queryTasks store q)) :=
        stableSortByCmp_sorted nextTaskCmp nextTaskCmp_flip nextTaskCmp_trans _
      have htmem : t ∈ stableSortByCmp nextTaskCmp (queryTasks store q) :=
        List.mem_of_mem_head? h
      have htq : t ∈ queryTasks store q :=
        (stableSortByCmp_perm _ _).mem_iff.mp htmem
      have htf := (hmem t).mp htq
      have htstore := (List.mem_filter.mp htf).1
      have htpred := (taskMatchesQuery_next_iff t oid).mp (List.mem_filter.mp htf).2
      refine ⟨htstore, htpred.1, htpred.2, ?_⟩
      intro u hustore hu1 hu2
      have huf : u ∈ store.filter (fun t => taskMatchesQuery t q) :=
        List.mem_filter.mpr ⟨hustore, (taskMatchesQuery_next_iff u oid).mpr ⟨hu1, hu2⟩⟩
      have huq : u ∈ stableSortByCmp nextTaskCmp (queryTasks store q) :=
        (stableSortByCmp_perm _ _).mem_iff.mpr ((hmem u).mpr huf)
      rcases sorted_head_min hsorted h u huq with rfl | hle
      · exact ⟨fun h => h, fun _ => le_refl _⟩
      · exact nextTaskCmp_le_props t u hle

/-- C6 witness: the amended theorem's none-case at an empty store. -/
theorem C6_getNextTask_amended_witness :
    getNextTask [] "o" = none :=
  (C6_getNextTask_amended.1 [] "o").1.mpr (by simp)

/-! ## Keyed-record-list lemmas (cache map and session directory) -/

theorem find?_id_eq {l : List SessionRecord} {k : String} {x : SessionRecord}
    (h : l.find? (fun s => s.id == k) = some x) : x.id = k := by
  have := List.find?_some h
  simpa using this

theorem cacheGet_id_eq {l : List SessionRecord} {k : String} {x : SessionRecord}
    (h : cacheGet l k = some x) : x.id = k := find?_id_eq h

theorem cacheGet_cachePut_self (l : List SessionRecord) (s : SessionRecord) :
    cacheGet (cachePut l s) s.id = some s := by
  induction l with
  | nil => simp [cachePut, cacheGet]
  | cons u us ih =>
    unfold cachePut
    by_cases h : u.id = s.id
    · simp [cacheGet, h]
    · simp only [cacheGet] at ih ⊢
      simp [h, List.find?_cons_of_neg, ih]

theorem beq_false_of_ne {a b : String} (h : ¬ a = b) : (a == b) = false := by
  simp [h]

theorem cacheGet_cachePut_other (l : List SessionRecord) (s : SessionRecord)
    (k : String) (h : k ≠ s.id) : cacheGet (cachePut l s) k = cacheGet l k := by
  have hsk : ¬ s.id = k := fun he => h he.symm
  induction l with
  | nil => simp [cachePut, cacheGet, List.find?, beq_false_of_ne hsk]
  | cons u us ih =>
    unfold cachePut
    by_cases hu : u.id = s.id
    · have huk : ¬ u.id = k := by rw [hu]; exact hsk
      simp [cacheGet, hu, List.find?_cons_of_neg, hsk, huk]
    · simp only [cacheGet] at ih ⊢
      by_cases hk : u.id = k
      · simp [hu, hk, h, List.find?_cons_of_pos]
      · simp [hu, hk, List.find?_cons_of_neg, ih]

theorem putSessionFile_find_self (l : List SessionRecord) (s : SessionRecord) :
    (putSessionFile l s).find? (fun u => u.id == s.id) = some s := by
  induction l with
  | nil => simp [putSessionFile]
  | cons u us ih =>
    unfold putSessionFile
    by_cases h : u.id = s.id
    · simp [h]
    · simp [h, List.find?_cons_of_neg, ih]

theorem putSessionFile_find_other (l : List SessionRecord) (s : SessionRecord)
    (k : String) (h : k ≠ s.id) :
    (putSessionFile l s).find? (fun u => u.id == k) = l.find? (fun u => u.id == k) := by
  have hsk : ¬ s.id = k := fun he => h he.symm
  induction l with
  | nil => simp [putSessionFile, List.find?, beq_false_of_ne hsk]
  | cons u us ih =>
    unfold putSessionFile
    by_cases hu : u.id = s.id
    · have huk : ¬ u.id = k := by rw [hu]; exact hsk
      simp [hu, List.find?_cons_of_neg, hsk, huk]
    · by_cases hk : u.id = k
      · simp [hu, hk, h, List.find?_cons_of_pos]
      · simp [hu, hk, List.find?_cons_of_neg, ih]

theorem mem_putSessionFile_self (l : List SessionRecord) (s : SessionRecord) :
    s ∈ putSessionFile l s := by
  induction l with
  | nil => simp [putSessionFile]
  | cons u us ih =>
    unfold putSessionFile
    by_cases h : u.id = s.id
    · simp [h]
    · simp [h, ih]

theorem smCreateBackup_sessions (cfg : StorageConfig) (st : StoreState)
    (kind id : String) : (smCreateBackup cfg st kind id).sessions = st.sessions := by
  unfold smCreateBackup
  cases st.sessions.find? (fun s => s.id == id) with
  | none => rfl
  | some s =>
    simp only
    split
    · rfl
    · split <;> rfl

theorem smSaveSession_ok (cfg : StorageConfig) (st : StoreState)
    (s : SessionRecord) (h : validateSessionB s = true) :
    (smSaveSession cfg st s).2 = Except.ok ()
    ∧ (smSaveSession cfg st s).1.sessions = putSessionFile st.sessions s := by
  unfold smSaveSession
  rw [h]
  simp only [Bool.true_eq_false, if_false]
  refine ⟨by trivial, ?_⟩
  by_cases hb : cfg.enableBackups
  · simp [hb, smCreateBackup_sessions]
  · simp [hb]

theorem registryQueryStep_fold_ids (inputs : List SessionRecord) :
    ∀ (reg : Registry) (acc : List SessionRecord),
      ((inputs.foldl registryQueryStep (reg, acc)).2).map (fun s => s.id)
        = acc.map (fun s => s.id) ++ inputs.map (fun s => s.id) := by
  induction inputs with
  | nil => intro reg acc; simp
  | cons d ds ih =>
    intro reg acc
    simp only [List.foldl_cons]
    cases hcg : cacheGet reg.cache d.id with
    | some s =>
      have hstep : registryQueryStep (reg, acc) d = (reg, acc ++ [s]) := by
        unfold registryQueryStep
        rw [hcg]
      rw [hstep, ih]
      simp [cacheGet_id_eq hcg]
    | none =>
      have hstep : registryQueryStep (reg, acc) d =
          ({ cache := cachePut reg.cache d, store := reg.store }, acc ++ [d]) := by
        unfold registryQueryStep
        rw [hcg]
      rw [hstep, ih]
      simp

theorem registryQuerySessions_ids (reg : Registry) (q : SessionQuery) :
    ((registryQuerySessions reg q).2).map (fun s => s.id)
      = (smQuerySessions reg.store q).map (fun s => s.id) := by
  unfold registryQuerySessions
  rw [registryQueryStep_fold_ids]
  simp

theorem mem_smQuerySessions {st : StoreState} {q : SessionQuery} {s : SessionRecord}
    (ho : q.offset = none) (hl : q.limit = none)
    (hmem : s ∈ st.sessions) (hv : validateSessionB s = true)
    (hq : sessionMatchesQuery s q = true) : s ∈ smQuerySessions st q := by
  unfold smQuerySessions
  rw [ho, hl]
  simp only [jsTakeLimit, jsDropOffset]
  exact (stableSortByCmp_perm _ _).mem_iff.mpr
    (List.mem_filter.mpr ⟨hmem, by simp [hv, hq]⟩)

theorem addChildSession_contains (s : SessionRecord) (cid : String) (now : Nat) :
    (addChildSession s cid now).childSessionIds.contains cid = true := by
  unfold addChildSession
  by_cases h : cid ∈ s.childSessionIds <;> simp [h]

theorem addChildSession_id (s : SessionRecord) (cid : String) (now : Nat) :
    (addChildSession s cid now).id = s.id := by
  unfold addChildSession; split <;> rfl

theorem addChildSession_orch (s : SessionRecord) (cid : String) (now : Nat) :
    (addChildSession s cid now).orchestrationId = s.orchestrationId := by
  unfold addChildSession; split <;> rfl

theorem validateSessionB_addChildSession (s : SessionRecord) (cid : String) (now : Nat) :
    validateSessionB (addChildSession s cid now) = validateSessionB s := by
  unfold addChildSession validateSessionB; split <;> rfl

theorem findRelatedSessions_parent_eval (reg : Registry) (sid : String)
    (C : SessionRecord) (hget : cacheGet reg.cache sid = some C)
    (pid : String) (hp : C.parentSessionId = some pid) :
    ∃ rel, (findRelatedSessions reg sid).2 = Except.ok rel
      ∧ rel.parent = ((registryQuerySessions reg
          { orchestrationId := some C.orchestrationId }).2).find?
            (fun s => s.id == pid) := by
  unfold findRelatedSessions getSession
  rw [hget]
  simp only [hp]
  exact ⟨_, rfl, rfl⟩

/-! ## C3 — createSession parent/child linking and findRelatedSessions -/

theorem smSaveSession_pair_eta (cfg : StorageConfig) (st : StoreState)
    (s : SessionRecord) (h : validateSessionB s = true) :
    smSaveSession cfg st s = ((smSaveSession cfg st s).1, Except.ok ()) := by
  rw [← (smSaveSession_ok cfg st s h).1]

theorem createSession_eval (cfg : StorageConfig) (reg : Registry)
    (params : CreateSessionParams) (newId : String) (now : Nat) (pid : String)
    (P : SessionRecord)
    (hpid : params.parentSessionId = some pid)
    (hvC : validateSessionB (newSessionRecord params newId now) = true)
    (hlook : cacheGet (cachePut reg.cache (newSessionRecord params newId now)) pid
      = some P)
    (hvP2 : validateSessionB
      (addChildSession P (newSessionRecord params newId now).id now) = true) :
    createSession cfg reg params newId now =
      ({ cache := cachePut (cachePut reg.cache (newSessionRecord params newId now))
            (addChildSession P (newSessionRecord params newId now).id now),
         store := (smSaveSession cfg
             (smSaveSession cfg reg.store (newSessionRecord params newId now)).1
             (addChildSession P (newSessionRecord params newId now).id now)).1 },
        Except.ok (newSessionRecord params newId now)) := by
  unfold createSession
  dsimp only
  rw [smSaveSession_pair_eta cfg reg.store (newSessionRecord params newId now) hvC]
  dsimp only
  rw [hpid]
  dsimp only
  rw [hlook]
  dsimp only
  rw [smSaveSession_pair_eta cfg
    (smSaveSession cfg reg.store (newSessionRecord params newId now)).1
    (addChildSession P (newSessionRecord params newId now).id now) hvP2]

theorem findRelated_reports_parent (reg' : Registry) (cid pid : String)
    (C P2 : SessionRecord)
    (hgetC : cacheGet reg'.cache cid = some C)
    (hCparent : C.parentSessionId = some pid)
    (hmem : P2 ∈ reg'.store.sessions)
    (hval : validateSessionB P2 = true)
    (hP2id : P2.id = pid)
    (horch : P2.orchestrationId = C.orchestrationId) :
    ∃ rel, (findRelatedSessions reg' cid).2 = Except.ok rel
      ∧ ∃ pr, rel.parent = some pr ∧ pr.id = pid := by
  obtain ⟨rel, hrel, hrelparent⟩ :=
    findRelatedSessions_parent_eval reg' cid C hgetC pid hCparent
  refine ⟨rel, hrel, ?_⟩
  have hmemQ : P2 ∈ smQuerySessions reg'.store
      { orchestrationId := some C.orchestrationId } := by
    refine mem_smQuerySessions rfl rfl hmem hval ?_
    unfold sessionMatchesQuery
    simp [horch]
  have hpidmem : pid ∈ ((registryQuerySessions reg'
      { orchestrationId := some C.orchestrationId }).2).map (fun s => s.id) := by
    rw [registryQuerySessions_ids]
    exact List.mem_map.mpr ⟨P2, hmemQ, hP2id⟩
  obtain ⟨x, hx, hxid⟩ := List.mem_map.mp hpidmem
  have hfind : (((registryQuerySessions reg'
      { orchestrationId := some C.orchestrationId }).2).find?
        (fun s => s.id == pid)).isSome := by
    rw [List.find?_isSome]
    exact ⟨x, hx, by simp [hxid]⟩
  obtain ⟨pr, hpr⟩ := Option.isSome_iff_exists.mp hfind
  refine ⟨pr, by rw [hrelparent, hpr], ?_⟩
  have := List.find?_some hpr
  simpa using this

/-- C3 amended: when the parent named by `parentSessionId` is in the
registry's in-memory cache (as it always is for sessions created through this
registry) and shares the child's orchestration id, createSession creates the
child with `parentSessionId = P.id`, reads, modifies and writes back the
parent record so that its `childSessionIds` contains the child's id (in both
cache and storage), and `findRelatedSessions(C.id)` reports the parent.  The
matching-orchestration condition is what the counterexample forces:
related-session lookup only queries the child's own orchestration. -/
theorem C3_createSession_parent_link_amended
    (cfg : StorageConfig) (reg : Registry) (params : CreateSessionParams)
    (pid newId : String) (P : SessionRecord) (now : Nat)
    (hpid : params.parentSessionId = some pid)
    (hP : cacheGet reg.cache pid = some P)
    (hPvalid : validateSessionB P = true)
    (horch : params.orchestrationId = P.orchestrationId)
    (hnew : 1 ≤ newId.length)
    (hneq : newId ≠ pid) :
    ∃ (reg' : Registry) (C : SessionRecord),
      createSession cfg reg params newId now = (reg', Except.ok C)
      ∧ C.id = newId
      ∧ C.parentSessionId = some pid
      ∧ cacheGet reg'.cache newId = some C
      ∧ reg'.store.sessions.find? (fun s => s.id == newId) = some C
      ∧ (∃ P2, cacheGet reg'.cache pid = some P2
          ∧ P2.childSessionIds.contains newId = true
          ∧ reg'.store.sessions.find? (fun s => s.id == pid) = some P2
          ∧ P2.id = pid ∧ P2.orchestrationId = P.orchestrationId)
      ∧ (∃ rel, (findRelatedSessions reg' newId).2 = Except.ok rel
          ∧ ∃ pr, rel.parent = some pr ∧ pr.id = pid) := by
  have hPid : P.id = pid := cacheGet_id_eq hP
  have hPv := hPvalid
  unfold validateSessionB at hPv
  rw [Bool.and_eq_true] at hPv
  obtain ⟨hPa, hPb⟩ := hPv
  have hCvalid : validateSessionB (newSessionRecord params newId now) = true := by
    show (decide (1 ≤ newId.length) && decide (1 ≤ params.orchestrationId.length)) = true
    rw [horch, Bool.and_eq_true]
    exact ⟨by simpa using hnew, hPb⟩
  have hlook : cacheGet (cachePut reg.cache (newSessionRecord params newId now)) pid
      = some P := by
    rw [cacheGet_cachePut_other reg.cache (newSessionRecord params newId now) pid
      (fun h => hneq h.symm)]
    exact hP
  have hP2valid : validateSessionB
      (addChildSession P (newSessionRecord params newId now).id now) = true := by
    rw [validateSessionB_addChildSession]
    exact hPvalid
  have hrun := createSession_eval cfg reg params newId now pid P hpid hCvalid hlook hP2valid
  have hP2id : (addChildSession P (newSessionRecord params newId now).id now).id = pid := by
    rw [addChildSession_id, hPid]
  have hsv1 := (smSaveSession_ok cfg reg.store (newSessionRecord params newId now) hCvalid).2
  have hsw1 := (smSaveSession_ok cfg
    (smSaveSession cfg reg.store (newSessionRecord params newId now)).1
    (addChildSession P (newSessionRecord params newId now).id now) hP2valid).2
  have hgetC : cacheGet (cachePut (cachePut reg.cache (newSessionRecord params newId now))
      (addChildSession P (newSessionRecord params newId now).id now)) newId
      = some (newSessionRecord params newId now) := by
    rw [cacheGet_cachePut_other _ _ newId (by rw [hP2id]; exact hneq)]
    exact cacheGet_cachePut_self reg.cache (newSessionRecord params newId now)
  refine ⟨_, newSessionRecord params newId now, hrun, rfl,
    by show params.parentSessionId = some pid; exact hpid, hgetC, ?_, ?_, ?_⟩
  · -- child in storage
    show ((smSaveSession cfg
        (smSaveSession cfg reg.store (newSessionRecord params newId now)).1
        (addChildSession P (newSessionRecord params newId now).id now)).1).sessions.find?
      (fun s => s.id == newId) = some (newSessionRecord params newId now)
    rw [hsw1]
    rw [putSessionFile_find_other _ _ newId (by rw [hP2id]; exact hneq)]
    rw [hsv1]
    exact putSessionFile_find_self reg.store.sessions (newSessionRecord params newId now)
  · -- parent updated in cache and storage
    refine ⟨addChildSession P (newSessionRecord params newId now).id now,
      ?_, addChildSession_contains P _ now, ?_, hP2id, addChildSession_orch P _ now⟩
    · show cacheGet (cachePut (cachePut reg.cache (newSessionRecord params newId now))
          (addChildSession P (newSessionRecord params newId now).id now)) pid
        = some (addChildSession P (newSessionRecord params newId now).id now)
      rw [← hP2id]
      exact cacheGet_cachePut_self _ _
    · show ((smSaveSession cfg
          (smSaveSession cfg reg.store (newSessionRecord params newId now)).1
          (addChildSession P (newSessionRecord params newId now).id now)).1).sessions.find?
        (fun s => s.id == pid)
        = some (addChildSession P (newSessionRecord params newId now).id now)
      rw [hsw1, ← hP2id]
      exact putSessionFile_find_self _ _
  · -- findRelatedSessions reports a parent with P's id
    refine findRelated_reports_parent _ newId pid (newSessionRecord params newId now)
      (addChildSession P (newSessionRecord params newId now).id now)
      hgetC hpid ?_ hP2valid hP2id ?_
    · show (addChildSession P (newSessionRecord params newId now).id now) ∈
        ((smSaveSession cfg
          (smSaveSession cfg reg.store (newSessionRecord params newId now)).1
          (addChildSession P (newSessionRecord params newId now).id now)).1).sessions
      rw [hsw1]
      exact mem_putSessionFile_self _ _
    · rw [addChildSession_orch]
      show P.orchestrationId = params.orchestrationId
      rw [horch]

/-- A cached-and-stored parent session in orchestration "o1". -/
def p3 : SessionRecord := mkSession "P" "o1" SessionState.active 0 none []

def reg3 : Registry := { cache := [p3], store := { sessions := [p3], backups := [] } }

/-- The cross-orchestration child creation (child in "o2", parent in "o1"). -/
def c3run : Registry × Except StoreErr SessionRecord :=
  createSession {} reg3
    { type := SessionType.task, orchestrationId := "o2", parentSessionId := some "P" }
    "C" 5

/-- C3 counterexample: the child is created with `parentSessionId = P.id` and
the existing parent's `childSessionIds` gains the child's id — yet
`findRelatedSessions(C.id)` reports NO parent, because the lookup queries
only the child's orchestration ("o2") and the parent lives in "o1".  The
claim asserts the parent is reported for every existing parent. -/
theorem C3_cross_orchestration_parent_not_reported :
    (∃ C, c3run.2 = Except.ok C ∧ C.parentSessionId = some "P"
      ∧ C.orchestrationId = "o2")
    ∧ ((cacheGet c3run.1.cache "P").map (fun s => s.childSessionIds)) = some ["C"]
    ∧ (∃ rel, (findRelatedSessions c3run.1 "C").2 = Except.ok rel
        ∧ rel.parent = none) := by
  exact ⟨⟨newSessionRecord
      { type := SessionType.task, orchestrationId := "o2",
        parentSessionId := some "P" } "C" 5, rfl, rfl, rfl⟩,
    rfl, ⟨_, rfl, rfl⟩⟩

/-- C3 witness: the amended theorem at a same-orchestration concrete
instance. -/
theorem C3_createSession_parent_link_amended_witness :
    ∃ (reg' : Registry) (C : SessionRecord),
      createSession {} reg3
        { type := SessionType.task, orchestrationId := "o1",
          parentSessionId := some "P" } "C" 5 = (reg', Except.ok C)
      ∧ C.id = "C"
      ∧ C.parentSessionId = some "P"
      ∧ cacheGet reg'.cache "C" = some C
      ∧ reg'.store.sessions.find? (fun s => s.id == "C") = some C
      ∧ (∃ P2, cacheGet reg'.cache "P" = some P2
          ∧ P2.childSessionIds.contains "C" = true
          ∧ reg'.store.sessions.find? (fun s => s.id == "P") = some P2
          ∧ P2.id = "P" ∧ P2.orchestrationId = p3.orchestrationId)
      ∧ (∃ rel, (findRelatedSessions reg' "C").2 = Except.ok rel
          ∧ ∃ pr, rel.parent = some pr ∧ pr.id = "P") :=
  C3_createSession_parent_link_amended {} reg3
    { type := SessionType.task, orchestrationId := "o1", parentSessionId := some "P" }
    "P" "C" p3 5 rfl rfl (by decide) rfl (by decide) (by decide)

/-! ## C9 — deleteSession cascade -/

theorem removeChildSession_id (s : SessionRecord) (cid : String) (now : Nat) :
    (removeChildSession s cid now).id = s.id := by
  unfold removeChildSession; split <;> rfl

theorem validateSessionB_removeChildSession (s : SessionRecord) (cid : String)
    (now : Nat) : validateSessionB (removeChildSession s cid now) = validateSessionB s := by
  unfold removeChildSession validateSessionB; split <;> rfl

theorem removeChildSession_children (s : SessionRecord) (cid : String) (now : Nat)
    (h : s.childSessionIds.contains cid = true) :
    (removeChildSession s cid now).childSessionIds = s.childSessionIds.erase cid := by
  unfold removeChildSession
  rw [h]
  simp

theorem any_of_find?_eq_some {l : List SessionRecord} {p : SessionRecord → Bool}
    {x : SessionRecord} (h : l.find? p = some x) : l.any p = true :=
  List.any_eq_true.mpr ⟨x, List.mem_of_find?_eq_some h, List.find?_some h⟩

theorem any_eq_false_of_find?_eq_none {l : List SessionRecord}
    {p : SessionRecord → Bool} (h : l.find? p = none) : l.any p = false := by
  rw [List.find?_eq_none] at h
  rw [Bool.eq_false_iff]
  intro hc
  obtain ⟨x, hx, hpx⟩ := List.any_eq_true.mp hc
  exact h x hx hpx

theorem find?_filter_key_self (l : List SessionRecord) (k : String) :
    (l.filter (fun s => !(s.id == k))).find? (fun s => s.id == k) = none := by
  rw [List.find?_eq_none]
  intro x hx
  have hpred := (List.mem_filter.mp hx).2
  simp at hpred ⊢
  exact hpred

theorem find?_filter_key_other (l : List SessionRecord) (k kk : String)
    (h : k ≠ kk) :
    (l.filter (fun s => !(s.id == kk))).find? (fun s => s.id == k)
      = l.find? (fun s => s.id == k) := by
  induction l with
  | nil => simp
  | cons u us ih =>
    by_cases hu : u.id = kk
    · have : (!(u.id == kk)) = false := by simp [hu]
      rw [List.filter_cons, this]
      rw [if_neg (by simp)]
      rw [ih]
      have huk : ¬ u.id = k := by rw [hu]; exact fun he => h he.symm
      rw [List.find?_cons_of_neg _ (by simp [huk])]
    · have : (!(u.id == kk)) = true := by simp [hu]
      rw [List.filter_cons, this]
      rw [if_pos rfl]
      by_cases hk : u.id = k
      · rw [List.find?_cons_of_pos _ (by simp [hk]),
          List.find?_cons_of_pos _ (by simp [hk])]
      · rw [List.find?_cons_of_neg _ (by simp [hk]),
          List.find?_cons_of_neg _ (by simp [hk])]
        exact ih

theorem smCreateBackup_absent (cfg : StorageConfig) (st : StoreState) (k : String)
    (h : st.sessions.find? (fun s => s.id == k) = none) :
    smCreateBackup cfg st "sessions" k = st := by
  unfold smCreateBackup
  rw [h]

theorem smDeleteSession_present (cfg : StorageConfig) (st : StoreState) (k : String)
    (x : SessionRecord) (h : st.sessions.find? (fun s => s.id == k) = some x) :
    (smDeleteSession cfg st k).2 = Except.ok ()
    ∧ (smDeleteSession cfg st k).1.sessions
        = st.sessions.filter (fun s => !(s.id == k)) := by
  unfold smDeleteSession
  dsimp only
  have hst1 : (if cfg.enableBackups then smCreateBackup cfg st "sessions" k
      else st).sessions = st.sessions := by
    by_cases hb : cfg.enableBackups <;> simp [hb, smCreateBackup_sessions]
  rw [hst1, any_of_find?_eq_some h]
  simp

theorem smDeleteSession_pair_present (cfg : StorageConfig) (st : StoreState)
    (k : String) (x : SessionRecord)
    (h : st.sessions.find? (fun s => s.id == k) = some x) :
    smDeleteSession cfg st k = ((smDeleteSession cfg st k).1, Except.ok ()) := by
  rw [← (smDeleteSession_present cfg st k x h).1]

theorem smDeleteSession_absent (cfg : StorageConfig) (st : StoreState) (k : String)
    (h : st.sessions.find? (fun s => s.id == k) = none) :
    smDeleteSession cfg st k
      = (st, Except.error (StoreErr.storageErr ("Failed to delete session " ++ k))) := by
  unfold smDeleteSession
  dsimp only
  have hst1 : (if cfg.enableBackups then smCreateBackup cfg st "sessions" k else st) = st := by
    by_cases hb : cfg.enableBackups
    · simp only [hb, if_true]
      exact smCreateBackup_absent cfg st k h
    · simp [hb]
  rw [hst1]
  rw [any_eq_false_of_find?_eq_none h]
  simp

theorem deleteSessionFinish_present (cfg : StorageConfig) (reg : Registry)
    (sid : String) (x : SessionRecord)
    (h : reg.store.sessions.find? (fun s => s.id == sid) = some x) :
    deleteSessionFinish cfg reg sid =
      ({ cache := reg.cache.filter (fun s => !(s.id == sid)),
         store := (smDeleteSession cfg reg.store sid).1 }, Except.ok true) := by
  unfold deleteSessionFinish
  dsimp only
  rw [smDeleteSession_pair_present cfg reg.store sid x h]

theorem deleteSessionFinish_absent (cfg : StorageConfig) (reg : Registry)
    (sid : String)
    (h : reg.store.sessions.find? (fun s => s.id == sid) = none) :
    deleteSessionFinish cfg reg sid =
      ({ cache := reg.cache.filter (fun s => !(s.id == sid)), store := reg.store },
        Except.error (StoreErr.storageErr ("Failed to delete session " ++ sid))) := by
  unfold deleteSessionFinish
  dsimp only
  rw [smDeleteSession_absent cfg reg.store sid h]

theorem deleteRun_go_noparent (cfg : StorageConfig) (now fuel : Nat)
    (reg : Registry) (sid : String) (s : SessionRecord)
    (hget : cacheGet reg.cache sid = some s)
    (hpar : s.parentSessionId = none) :
    deleteRun cfg now (Nat.succ fuel) (DeleteCall.go sid) reg =
      (match deleteRun cfg now fuel (DeleteCall.children sid 0) reg with
      | (regC, Except.error e) => (regC, Except.error e)
      | (regC, Except.ok _) => deleteSessionFinish cfg regC sid) := by
  simp only [deleteRun]
  rw [hget]
  simp only [hpar]

theorem deleteRun_go_withparent (cfg : StorageConfig) (now fuel : Nat)
    (reg : Registry) (sid : String) (s : SessionRecord) (pid : String)
    (P : SessionRecord)
    (hget : cacheGet reg.cache sid = some s)
    (hpar : s.parentSessionId = some pid)
    (hP : cacheGet reg.cache pid = some P)
    (hval : validateSessionB (removeChildSession P sid now) = true) :
    deleteRun cfg now (Nat.succ fuel) (DeleteCall.go sid) reg =
      (match deleteRun cfg now fuel (DeleteCall.children sid 0)
          { cache := cachePut reg.cache (removeChildSession P sid now),
            store := (smSaveSession cfg reg.store (removeChildSession P sid now)).1 } with
      | (regC, Except.error e) => (regC, Except.error e)
      | (regC, Except.ok _) => deleteSessionFinish cfg regC sid) := by
  simp only [deleteRun]
  rw [hget]
  simp only [hpar]
  rw [hP]
  simp only
  rw [smSaveSession_pair_eta cfg reg.store (removeChildSession P sid now) hval]

theorem deleteRun_children_step (cfg : StorageConfig) (now fuel : Nat)
    (reg : Registry) (sid : String) (i : Nat) (s : SessionRecord)
    (hget : cacheGet reg.cache sid = some s)
    (cs : List String) (hcs : s.childSessionIds = cs)
    (hlt : i < cs.length) :
    deleteRun cfg now (Nat.succ fuel) (DeleteCall.children sid i) reg =
      (match deleteRun cfg now fuel
          (DeleteCall.go (cs.get ⟨i, hlt⟩)) reg with
      | (reg2, Except.error e) => (reg2, Except.error e)
      | (reg2, Except.ok _) =>
        deleteRun cfg now fuel (DeleteCall.children sid (i + 1)) reg2) := by
  subst hcs
  simp only [deleteRun]
  rw [hget]
  dsimp only
  simp only [dif_pos hlt]

theorem deleteRun_children_done (cfg : StorageConfig) (now fuel : Nat)
    (reg : Registry) (sid : String) (i : Nat) (s : SessionRecord)
    (hget : cacheGet reg.cache sid = some s)
    (cs : List String) (hcs : s.childSessionIds = cs)
    (hge : ¬ i < cs.length) :
    deleteRun cfg now (Nat.succ fuel) (DeleteCall.children sid i) reg
      = (reg, Except.ok true) := by
  subst hcs
  simp only [deleteRun]
  rw [hget]
  dsimp only
  simp only [dif_neg hge]

theorem deleteRun_go_uncached (cfg : StorageConfig) (now fuel : Nat)
    (reg : Registry) (sid : String)
    (hget : cacheGet reg.cache sid = none) :
    deleteRun cfg now (Nat.succ fuel) (DeleteCall.go sid) reg
      = deleteSessionFinish cfg reg sid := by
  simp only [deleteRun]
  rw [hget]

theorem cacheGet_filter_self (l : List SessionRecord) (k : String) :
    cacheGet (l.filter (fun s => !(s.id == k))) k = none :=
  find?_filter_key_self l k

theorem cacheGet_filter_other (l : List SessionRecord) (k kk : String)
    (h : k ≠ kk) :
    cacheGet (l.filter (fun s => !(s.id == kk))) k = cacheGet l k :=
  find?_filter_key_other l k kk h

theorem deleteRun_children_step_cons (cfg : StorageConfig) (now fuel : Nat)
    (reg : Registry) (sid : String) (s : SessionRecord)
    (hget : cacheGet reg.cache sid = some s)
    (c : String) (rest : List String)
    (hcs : s.childSessionIds = c :: rest) :
    deleteRun cfg now (Nat.succ fuel) (DeleteCall.children sid 0) reg =
      (match deleteRun cfg now fuel (DeleteCall.go c) reg with
      | (reg2, Except.error e) => (reg2, Except.error e)
      | (reg2, Except.ok _) =>
        deleteRun cfg now fuel (DeleteCall.children sid 1) reg2) := by
  rw [deleteRun_children_step cfg now fuel reg sid 0 s hget (c :: rest) hcs
    (by simp)]
  rfl

/-- C9 (amended): deleteSession does NOT cascade to every child.  The
`for (const childId of session.childSessionIds)` loop iterates the LIVE
array of the cached object: each recursively deleted child removes its own
id from the cached parent's `childSessionIds` (the splice in
removeChildSession), shifting the remaining ids left under the iterator, so
every other child is skipped.  For a cached session `s` with exactly two
children, deleteSession(s.id) returns true and deletes `s` and the first
child `c1` from both cache and storage, while the second child `c2` survives
in both; and for an id with no cached session and no stored file,
deleteSession throws a StorageError (from the storage unlink) instead of
returning true. -/
theorem C9_deleteSession_cascade_amended
    (cfg : StorageConfig) (reg : Registry) (s c1 c2 : SessionRecord) (now : Nat)
    (hs : cacheGet reg.cache s.id = some s)
    (hsp : s.parentSessionId = none)
    (hkids : s.childSessionIds = [c1.id, c2.id])
    (hc1 : cacheGet reg.cache c1.id = some c1)
    (hc1p : c1.parentSessionId = some s.id)
    (hc1leaf : c1.childSessionIds = [])
    (hc2cache : cacheGet reg.cache c2.id = some c2)
    (hn1 : c1.id ≠ s.id) (hn2 : c2.id ≠ s.id) (hn12 : c2.id ≠ c1.id)
    (hvS : validateSessionB s = true)
    (hstC1 : reg.store.sessions.find? (fun u => u.id == c1.id) = some c1)
    (hstC2 : reg.store.sessions.find? (fun u => u.id == c2.id) = some c2) :
    (deleteSession cfg 5 reg s.id now).2 = Except.ok true
    ∧ cacheGet (deleteSession cfg 5 reg s.id now).1.cache s.id = none
    ∧ cacheGet (deleteSession cfg 5 reg s.id now).1.cache c1.id = none
    ∧ cacheGet (deleteSession cfg 5 reg s.id now).1.cache c2.id = some c2
    ∧ (deleteSession cfg 5 reg s.id now).1.store.sessions.find?
        (fun u => u.id == s.id) = none
    ∧ (deleteSession cfg 5 reg s.id now).1.store.sessions.find?
        (fun u => u.id == c1.id) = none
    ∧ (deleteSession cfg 5 reg s.id now).1.store.sessions.find?
        (fun u => u.id == c2.id) = some c2
    ∧ (∀ (reg0 : Registry) (sid0 : String) (fuel0 now0 : Nat),
        cacheGet reg0.cache sid0 = none →
        reg0.store.sessions.find? (fun u => u.id == sid0) = none →
        (deleteSession cfg (fuel0 + 1) reg0 sid0 now0).2
          = Except.error
              (StoreErr.storageErr ("Failed to delete session " ++ sid0))) := by
  have hP2id : (removeChildSession s c1.id now).id = s.id :=
    removeChildSession_id s c1.id now
  have hvP2 : validateSessionB (removeChildSession s c1.id now) = true := by
    rw [validateSessionB_removeChildSession]; exact hvS
  have hP2kids : (removeChildSession s c1.id now).childSessionIds = [c2.id] := by
    rw [removeChildSession_children s c1.id now (by rw [hkids]; simp), hkids]
    exact List.erase_cons_head c1.id [c2.id]
  have hc1neP2 : c1.id ≠ (removeChildSession s c1.id now).id := by
    rw [hP2id]; exact hn1
  have hc2neP2 : c2.id ≠ (removeChildSession s c1.id now).id := by
    rw [hP2id]; exact hn2
  have hsw : (smSaveSession cfg reg.store (removeChildSession s c1.id now)).1.sessions
      = putSessionFile reg.store.sessions (removeChildSession s c1.id now) :=
    (smSaveSession_ok cfg reg.store _ hvP2).2
  have hc1B : cacheGet (cachePut reg.cache (removeChildSession s c1.id now)) c1.id
      = some c1 := by
    rw [cacheGet_cachePut_other reg.cache _ c1.id hc1neP2]; exact hc1
  have hfindB : (smSaveSession cfg reg.store (removeChildSession s c1.id now)).1.sessions.find?
      (fun u => u.id == c1.id) = some c1 := by
    rw [hsw, putSessionFile_find_other reg.store.sessions _ c1.id hc1neP2]
    exact hstC1
  have eC1kids : deleteRun cfg now 2 (DeleteCall.children c1.id 0)
      { cache := cachePut reg.cache (removeChildSession s c1.id now),
        store := (smSaveSession cfg reg.store (removeChildSession s c1.id now)).1 }
      = ({ cache := cachePut reg.cache (removeChildSession s c1.id now),
           store := (smSaveSession cfg reg.store (removeChildSession s c1.id now)).1 },
         Except.ok true) := by
    rw [show (2 : Nat) = Nat.succ 1 from rfl]
    exact deleteRun_children_done cfg now 1 _ c1.id 0 c1 hc1B [] hc1leaf (by simp)
  have eGoC1 : deleteRun cfg now 3 (DeleteCall.go c1.id) reg
      = ({ cache := (cachePut reg.cache (removeChildSession s c1.id now)).filter
              (fun u => !(u.id == c1.id)),
           store := (smDeleteSession cfg
              (smSaveSession cfg reg.store (removeChildSession s c1.id now)).1
              c1.id).1 },
         Except.ok true) := by
    rw [show (3 : Nat) = Nat.succ 2 from rfl]
    rw [deleteRun_go_withparent cfg now 2 reg c1.id c1 s.id s hc1 hc1p hs hvP2]
    rw [eC1kids]
    show deleteSessionFinish cfg
      { cache := cachePut reg.cache (removeChildSession s c1.id now),
        store := (smSaveSession cfg reg.store (removeChildSession s c1.id now)).1 }
      c1.id = _
    rw [deleteSessionFinish_present cfg _ c1.id c1 hfindB]
  have hgetPD : cacheGet ((cachePut reg.cache (removeChildSession s c1.id now)).filter
      (fun u => !(u.id == c1.id))) s.id = some (removeChildSession s c1.id now) := by
    rw [cacheGet_filter_other _ s.id c1.id (fun he => hn1 he.symm)]
    have h2 := cacheGet_cachePut_self reg.cache (removeChildSession s c1.id now)
    rw [hP2id] at h2
    exact h2
  have eSkids1 : deleteRun cfg now 3 (DeleteCall.children s.id 1)
      { cache := (cachePut reg.cache (removeChildSession s c1.id now)).filter
          (fun u => !(u.id == c1.id)),
        store := (smDeleteSession cfg
          (smSaveSession cfg reg.store (removeChildSession s c1.id now)).1 c1.id).1 }
      = ({ cache := (cachePut reg.cache (removeChildSession s c1.id now)).filter
              (fun u => !(u.id == c1.id)),
           store := (smDeleteSession cfg
              (smSaveSession cfg reg.store (removeChildSession s c1.id now)).1 c1.id).1 },
         Except.ok true) := by
    rw [show (3 : Nat) = Nat.succ 2 from rfl]
    exact deleteRun_children_done cfg now 2 _ s.id 1
      (removeChildSession s c1.id now) hgetPD [c2.id] hP2kids (by simp)
  have hfindD : (smDeleteSession cfg
      (smSaveSession cfg reg.store (removeChildSession s c1.id now)).1 c1.id).1.sessions.find?
      (fun u => u.id == s.id) = some (removeChildSession s c1.id now) := by
    rw [(smDeleteSession_present cfg _ c1.id c1 hfindB).2]
    rw [find?_filter_key_other _ s.id c1.id (fun he => hn1 he.symm)]
    rw [hsw]
    have h3 := putSessionFile_find_self reg.store.sessions (removeChildSession s c1.id now)
    rw [hP2id] at h3
    exact h3
  have hmain : deleteSession cfg 5 reg s.id now
      = ({ cache := ((cachePut reg.cache (removeChildSession s c1.id now)).filter
              (fun u => !(u.id == c1.id))).filter (fun u => !(u.id == s.id)),
           store := (smDeleteSession cfg
              (smDeleteSession cfg
                (smSaveSession cfg reg.store (removeChildSession s c1.id now)).1
                c1.id).1 s.id).1 },
         Except.ok true) := by
    show deleteRun cfg now 5 (DeleteCall.go s.id) reg = _
    rw [show (5 : Nat) = Nat.succ 4 from rfl]
    rw [deleteRun_go_noparent cfg now 4 reg s.id s hs hsp]
    rw [show (4 : Nat) = Nat.succ 3 from rfl]
    rw [deleteRun_children_step_cons cfg now 3 reg s.id s hs c1.id [c2.id] hkids]
    rw [eGoC1]
    show (match deleteRun cfg now 3 (DeleteCall.children s.id 1)
        { cache := (cachePut reg.cache (removeChildSession s c1.id now)).filter
            (fun u => !(u.id == c1.id)),
          store := (smDeleteSession cfg
            (smSaveSession cfg reg.store (removeChildSession s c1.id now)).1 c1.id).1 } with
      | (regC, Except.error e) => (regC, Except.error e)
      | (regC, Except.ok _) => deleteSessionFinish cfg regC s.id) = _
    rw [eSkids1]
    show deleteSessionFinish cfg
      { cache := (cachePut reg.cache (removeChildSession s c1.id now)).filter
          (fun u => !(u.id == c1.id)),
        store := (smDeleteSession cfg
          (smSaveSession cfg reg.store (removeChildSession s c1.id now)).1 c1.id).1 }
      s.id = _
    rw [deleteSessionFinish_present cfg _ s.id (removeChildSession s c1.id now) hfindD]
  refine ⟨?_, ?_, ?_, ?_, ?_, ?_, ?_, ?_⟩
  · rw [hmain]
  · rw [hmain]
    exact cacheGet_filter_self _ s.id
  · rw [hmain]
    show cacheGet (((cachePut reg.cache (removeChildSession s c1.id now)).filter
        (fun u => !(u.id == c1.id))).filter (fun u => !(u.id == s.id))) c1.id = none
    rw [cacheGet_filter_other _ c1.id s.id hn1]
    exact cacheGet_filter_self _ c1.id
  · rw [hmain]
    show cacheGet (((cachePut reg.cache (removeChildSession s c1.id now)).filter
        (fun u => !(u.id == c1.id))).filter (fun u => !(u.id == s.id))) c2.id = some c2
    rw [cacheGet_filter_other _ c2.id s.id hn2]
    rw [cacheGet_filter_other _ c2.id c1.id hn12]
    rw [cacheGet_cachePut_other reg.cache _ c2.id hc2neP2]
    exact hc2cache
  · rw [hmain]
    show ((smDeleteSession cfg
        (smDeleteSession cfg
          (smSaveSession cfg reg.store (removeChildSession s c1.id now)).1
          c1.id).1 s.id).1.sessions.find? (fun u => u.id == s.id)) = none
    rw [(smDeleteSession_present cfg _ s.id (removeChildSession s c1.id now) hfindD).2]
    exact find?_filter_key_self _ s.id
  · rw [hmain]
    show ((smDeleteSession cfg
        (smDeleteSession cfg
          (smSaveSession cfg reg.store (removeChildSession s c1.id now)).1
          c1.id).1 s.id).1.sessions.find? (fun u => u.id == c1.id)) = none
    rw [(smDeleteSession_present cfg _ s.id (removeChildSession s c1.id now) hfindD).2]
    rw [find?_filter_key_other _ c1.id s.id hn1]
    rw [(smDeleteSession_present cfg _ c1.id c1 hfindB).2]
    exact find?_filter_key_self _ c1.id
  · rw [hmain]
    show ((smDeleteSession cfg
        (smDeleteSession cfg
          (smSaveSession cfg reg.store (removeChildSession s c1.id now)).1
          c1.id).1 s.id).1.sessions.find? (fun u => u.id == c2.id)) = some c2
    rw [(smDeleteSession_present cfg _ s.id (removeChildSession s c1.id now) hfindD).2]
    rw [find?_filter_key_other _ c2.id s.id hn2]
    rw [(smDeleteSession_present cfg _ c1.id c1 hfindB).2]
    rw [find?_filter_key_other _ c2.id c1.id hn12]
    rw [hsw]
    rw [putSessionFile_find_other reg.store.sessions _ c2.id hc2neP2]
    exact hstC2
  · intro reg0 sid0 fuel0 now0 h1 h2
    show (deleteRun cfg now0 (fuel0 + 1) (DeleteCall.go sid0) reg0).2 = _
    rw [show fuel0 + 1 = Nat.succ fuel0 from rfl]
    rw [deleteRun_go_uncached cfg now0 fuel0 reg0 sid0 h1]
    rw [deleteSessionFinish_absent cfg reg0 sid0 h2]

/-- A session "S" with two children, and its two leaf children. -/
def s9 : SessionRecord := mkSession "S" "o" SessionState.active 0 none ["c1", "c2"]

def c91 : SessionRecord := mkSession "c1" "o" SessionState.active 1 (some "S") []

def c92 : SessionRecord := mkSession "c2" "o" SessionState.active 2 (some "S") []

def reg9 : Registry :=
  { cache := [s9, c91, c92], store := { sessions := [s9, c91, c92], backups := [] } }

/-- The result of deleteSession("S") on the two-child registry. -/
def del9 : Registry × Except StoreErr Bool := deleteSession {} 5 reg9 "S" 7

/-- C9 (counterexample): deleting session "S" whose children are
["c1", "c2"] reports true and removes "S" and "c1" from cache and storage,
but the second child "c2" is still present in both afterwards — the cascade
skips it because deleting "c1" spliced the live child array being iterated;
and deleting an id that does not exist throws a StorageError rather than
returning true. -/
theorem C9_second_child_survives :
    del9.2 = Except.ok true
    ∧ cacheGet del9.1.cache "S" = none
    ∧ cacheGet del9.1.cache "c1" = none
    ∧ cacheGet del9.1.cache "c2" = some c92
    ∧ del9.1.store.sessions.find? (fun u => u.id == "S") = none
    ∧ del9.1.store.sessions.find? (fun u => u.id == "c1") = none
    ∧ del9.1.store.sessions.find? (fun u => u.id == "c2") = some c92
    ∧ (deleteSession {} 1
        { cache := [], store := { sessions := [], backups := [] } } "X" 0).2
        = Except.error (StoreErr.storageErr "Failed to delete session X") :=
  ⟨rfl, rfl, rfl, rfl, rfl, rfl, rfl, rfl⟩

/-- C9 witness: the amended theorem applied to the concrete two-child
registry, and its absent-id clause applied to an empty registry. -/
theorem C9_deleteSession_cascade_amended_witness :
    (deleteSession {} 5 reg9 "S" 7).2 = Except.ok true
    ∧ cacheGet (deleteSession {} 5 reg9 "S" 7).1.cache "S" = none
    ∧ cacheGet (deleteSession {} 5 reg9 "S" 7).1.cache "c1" = none
    ∧ cacheGet (deleteSession {} 5 reg9 "S" 7).1.cache "c2" = some c92
    ∧ (deleteSession {} 5 reg9 "S" 7).1.store.sessions.find?
        (fun u => u.id == "S") = none
    ∧ (deleteSession {} 5 reg9 "S" 7).1.store.sessions.find?
        (fun u => u.id == "c1") = none
    ∧ (deleteSession {} 5 reg9 "S" 7).1.store.sessions.find?
        (fun u => u.id == "c2") = some c92
    ∧ (deleteSession {} (0 + 1)
        { cache := [], store := { sessions := [], backups := [] } } "X" 0).2
        = Except.error (StoreErr.storageErr ("Failed to delete session " ++ "X")) := by
  have h := C9_deleteSession_cascade_amended {} reg9 s9 c91 c92 7
    rfl rfl rfl rfl rfl rfl rfl (by decide) (by decide) (by decide) (by decide)
    rfl rfl
  exact ⟨h.1, h.2.1, h.2.2.1, h.2.2.2.1, h.2.2.2.2.1, h.2.2.2.2.2.1,
    h.2.2.2.2.2.2.1,
    h.2.2.2.2.2.2.2 { cache := [], store := { sessions := [], backups := [] } }
      "X" 0 0 rfl rfl⟩

/-! ## C4 — RecoveryUtils: corrupted task-manifest recovery

The recovery pipeline works on file contents (strings).  `JSON.parse` is
embedded as a strict JSON parser (`jsonParse`), JS `Date` objects created
during recovery are embedded as a dedicated `Json.date` constructor carrying
the `Date.now()`-style timestamp (string-to-date conversion is an explicit
`dateParse` parameter), and the four regex passes of `fixCommonJsonIssues`
are embedded as left-to-right scans with the exact match/replace semantics
of the global regexes. -/

/-- JSON values, plus the JS `Date` objects that recovery inserts into
recovered data (`jsonParse` never produces `date`). -/
inductive Json where
  | null
  | bool (b : Bool)
  | num (m : Int) (e : Int)
  | str (s : String)
  | arr (elems : List Json)
  | obj (fields : List (String × Json))
  | date (t : Nat)

/-- JSON whitespace: exactly space, tab, line feed, carriage return. -/
def isJsonWs (c : Char) : Bool :=
  c = ' ' || c = '\t' || c = '\n' || c = '\r'

def skipWs (s : List Char) : List Char :=
  s.dropWhile isJsonWs

def hexVal? (c : Char) : Option Nat :=
  if '0' ≤ c ∧ c ≤ '9' then some (c.toNat - '0'.toNat)
  else if 'a' ≤ c ∧ c ≤ 'f' then some (c.toNat - 'a'.toNat + 10)
  else if 'A' ≤ c ∧ c ≤ 'F' then some (c.toNat - 'A'.toNat + 10)
  else none

/-- The single-character JSON string escapes. -/
def escChar? (c : Char) : Option Char :=
  if c = '"' then some '"'
  else if c = '\\' then some '\\'
  else if c = '/' then some '/'
  else if c = 'b' then some '\x08'
  else if c = 'f' then some '\x0c'
  else if c = 'n' then some '\n'
  else if c = 'r' then some '\r'
  else if c = 't' then some '\t'
  else none

/-- Body of a JSON string literal (after the opening quote): simple escapes,
four-hex-digit unicode escapes, and a ban on raw control characters. -/
def strLitAux : List Char → List Char → Option (String × List Char)
  | _, [] => none
  | acc, '"' :: rest => some (String.mk acc.reverse, rest)
  | acc, '\\' :: 'u' :: h1 :: h2 :: h3 :: h4 :: rest =>
    (match hexVal? h1, hexVal? h2, hexVal? h3, hexVal? h4 with
    | some a, some b, some c, some d =>
      strLitAux (Char.ofNat (((a * 16 + b) * 16 + c) * 16 + d) :: acc) rest
    | _, _, _, _ => none)
  | acc, '\\' :: e :: rest =>
    (match escChar? e with
    | some c => strLitAux (c :: acc) rest
    | none => none)
  | acc, c :: rest =>
    if c.toNat < 32 then none else strLitAux (c :: acc) rest

def isDigitC (c : Char) : Bool :=
  '0' ≤ c && c ≤ '9'

def digitsToNat (ds : List Char) : Nat :=
  ds.foldl (fun n c => n * 10 + (c.toNat - 48)) 0

/-- Fraction and exponent of a JSON number, after the integer part. -/
def parseNumTail (sign : Bool) (ip : Nat) (s : List Char) :
    Option (Json × List Char) :=
  match (match s with
    | '.' :: r =>
      if (r.takeWhile isDigitC).isEmpty then none
      else some (r.takeWhile isDigitC, r.dropWhile isDigitC)
    | _ => some ([], s)) with
  | none => none
  | some (fd, s1) =>
    match (match s1 with
      | e :: r =>
        if e = 'e' ∨ e = 'E' then
          match r with
          | '+' :: rr =>
            if (rr.takeWhile isDigitC).isEmpty then none
            else some (false, digitsToNat (rr.takeWhile isDigitC),
              rr.dropWhile isDigitC)
          | '-' :: rr =>
            if (rr.takeWhile isDigitC).isEmpty then none
            else some (true, digitsToNat (rr.takeWhile isDigitC),
              rr.dropWhile isDigitC)
          | _ =>
            if (r.takeWhile isDigitC).isEmpty then none
            else some (false, digitsToNat (r.takeWhile isDigitC),
              r.dropWhile isDigitC)
        else some (false, 0, s1)
      | [] => some (false, 0, s1)) with
    | none => none
    | some (esign, ev, s2) =>
      let mant : Int := (ip * 10 ^ fd.length + digitsToNat fd : Nat)
      some (Json.num (if sign then -mant else mant)
        ((if esign then -(ev : Int) else (ev : Int)) - fd.length), s2)

/-- Integer part of a JSON number: `0` may not be followed by a digit. -/
def parseNumCore (sign : Bool) (s0 : List Char) : Option (Json × List Char) :=
  match s0 with
  | '0' :: r0 =>
    (match r0 with
    | d :: _ => if isDigitC d then none else parseNumTail sign 0 r0
    | [] => parseNumTail sign 0 [])
  | c :: _ =>
    if isDigitC c then
      parseNumTail sign (digitsToNat (s0.takeWhile isDigitC))
        (s0.dropWhile isDigitC)
    else none
  | [] => none

def parseNum (s : List Char) : Option (Json × List Char) :=
  match s with
  | '-' :: r => parseNumCore true r
  | _ => parseNumCore false s

/-- JS property assignment on an object: an existing key keeps its
position, a new key is appended. -/
def setJ : List (String × Json) → String → Json → List (String × Json)
  | [], k, v => [(k, v)]
  | q :: qs, k, v => if q.1 == k then (k, v) :: qs else q :: setJ qs k v

/-- Later duplicate keys overwrite earlier ones in place, as JS object
literals do. -/
def dedupeFields (ps : List (String × Json)) : List (String × Json) :=
  ps.foldl (fun m p => setJ m p.1 p.2) []

/-- Parser modes: a value, the tail of an array literal, the tail of an
object literal (with elements accumulated in reverse). -/
inductive PMode where
  | value : PMode
  | arrElems : List Json → PMode
  | objMembers : List (String × Json) → PMode

/-- Recursive-descent JSON parsing, structurally recursive on fuel (each
recursive call is at smaller fuel; two consecutive calls always consume at
least one input character, so `2 * length + 2` fuel is adequate). -/
def jparse : Nat → PMode → List Char → Option (Json × List Char)
  | 0, _, _ => none
  | Nat.succ fuel, PMode.value, s =>
    (match skipWs s with
    | '{' :: rest => jparse fuel (PMode.objMembers []) rest
    | '[' :: rest => jparse fuel (PMode.arrElems []) rest
    | '"' :: rest =>
      (match strLitAux [] rest with
      | some (t, r) => some (Json.str t, r)
      | none => none)
    | 't' :: 'r' :: 'u' :: 'e' :: rest => some (Json.bool true, rest)
    | 'f' :: 'a' :: 'l' :: 's' :: 'e' :: rest => some (Json.bool false, rest)
    | 'n' :: 'u' :: 'l' :: 'l' :: rest => some (Json.null, rest)
    | s1 => parseNum s1)
  | Nat.succ fuel, PMode.arrElems acc, s =>
    (match skipWs s with
    | ']' :: rest => if acc.isEmpty then some (Json.arr [], rest) else none
    | s1 =>
      match jparse fuel PMode.value s1 with
      | none => none
      | some (j, r) =>
        match skipWs r with
        | ',' :: r2 => jparse fuel (PMode.arrElems (j :: acc)) r2
        | ']' :: r2 => some (Json.arr (j :: acc).reverse, r2)
        | _ => none)
  | Nat.succ fuel, PMode.objMembers acc, s =>
    (match skipWs s with
    | '}' :: rest =>
      if acc.isEmpty then some (Json.obj [], rest) else none
    | '"' :: rest =>
      (match strLitAux [] rest with
      | none => none
      | some (k, r) =>
        match skipWs r with
        | ':' :: r2 =>
          (match jparse fuel PMode.value r2 with
          | none => none
          | some (v, r3) =>
            match skipWs r3 with
            | ',' :: r4 => jparse fuel (PMode.objMembers ((k, v) :: acc)) r4
            | '}' :: r4 =>
              some (Json.obj (dedupeFields ((k, v) :: acc).reverse), r4)
            | _ => none)
        | _ => none)
    | _ => none)

/-- JSON.parse on a whole document. -/
def jsonParse (s : String) : Option Json :=
  match jparse (2 * s.length + 2) PMode.value s.toList with
  | some (j, rest) => if skipWs rest = [] then some j else none
  | none => none

/-- The regex class `\s` of ECMAScript: ASCII whitespace plus the Unicode
space separators, NEL excluded, BOM included. -/
def isRegexWs (c : Char) : Bool :=
  c = ' ' || c = '\t' || c = '\n' || c = '\r' || c = '\x0b' || c = '\x0c' ||
  c.toNat = 0xa0 || c.toNat = 0x1680 ||
  (0x2000 ≤ c.toNat && c.toNat ≤ 0x200a) ||
  c.toNat = 0x2028 || c.toNat = 0x2029 || c.toNat = 0x202f ||
  c.toNat = 0x205f || c.toNat = 0x3000 || c.toNat = 0xfeff

/-- Pass 1 — global replace of `,(\s*[}\x5d])` by the captured group: drop a
comma standing before (whitespace and) a closing brace or bracket, resuming
the scan after the match.  Fuel bounds the scan; every step consumes at
least one character, so the input length is adequate fuel. -/
def fixTrailingCommas : Nat → List Char → List Char
  | 0, s => s
  | _ + 1, [] => []
  | fuel + 1, ',' :: rest =>
    (match rest.dropWhile isRegexWs with
    | c :: rest2 =>
      if c = '}' ∨ c = ']' then
        rest.takeWhile isRegexWs ++ c :: fixTrailingCommas fuel rest2
      else ',' :: fixTrailingCommas fuel rest
    | [] => ',' :: fixTrailingCommas fuel rest)
  | fuel + 1, c :: rest => c :: fixTrailingCommas fuel rest

/-- The quote-fix pattern after an opening quote: three runs of non-quote
characters separated by quotes, then a closing quote and a colon. -/
def quadQuote? (s : List Char) :
    Option (List Char × List Char × List Char × List Char) :=
  let g1 := s.takeWhile (fun c => c ≠ '"')
  match s.dropWhile (fun c => c ≠ '"') with
  | '"' :: s1 =>
    let g2 := s1.takeWhile (fun c => c ≠ '"')
    (match s1.dropWhile (fun c => c ≠ '"') with
    | '"' :: s2 =>
      let g3 := s2.takeWhile (fun c => c ≠ '"')
      (match s2.dropWhile (fun c => c ≠ '"') with
      | '"' :: ':' :: s3 => some (g1, g2, g3, s3)
      | _ => none)
    | _ => none)
  | _ => none

/-- Pass 2 — global replace of a key containing unescaped quotes,
`"([^"]*)"([^"]*)"([^"]*)":`, by the form with the two inner quotes
escaped. -/
def fixUnescapedQuotes : Nat → List Char → List Char
  | 0, s => s
  | _ + 1, [] => []
  | fuel + 1, '"' :: rest =>
    (match quadQuote? rest with
    | some (g1, g2, g3, s3) =>
      '"' :: (g1 ++ '\\' :: '"' :: g2 ++ '\\' :: '"' :: g3 ++ '"' :: ':' ::
        fixUnescapedQuotes fuel s3)
    | none => '"' :: fixUnescapedQuotes fuel rest)
  | fuel + 1, c :: rest => c :: fixUnescapedQuotes fuel rest

/-- The input remaining after the first (lazy) block-comment terminator. -/
def afterBlockClose : List Char → Option (List Char)
  | [] => none
  | '*' :: '/' :: rest => some rest
  | _ :: rest => afterBlockClose rest

/-- Pass 3a — remove `/* ... */` block comments (lazy up to the first
terminator; an unterminated opener is left in place). -/
def stripBlockComments : Nat → List Char → List Char
  | 0, s => s
  | _ + 1, [] => []
  | fuel + 1, '/' :: '*' :: rest =>
    (match afterBlockClose rest with
    | some rest2 => stripBlockComments fuel rest2
    | none => '/' :: stripBlockComments fuel ('*' :: rest))
  | fuel + 1, c :: rest => c :: stripBlockComments fuel rest

/-- Pass 3b — remove `//` line comments up to (not including) the next line
terminator. -/
def stripLineComments : Nat → List Char → List Char
  | 0, s => s
  | _ + 1, [] => []
  | fuel + 1, '/' :: '/' :: rest =>
    stripLineComments fuel (rest.dropWhile (fun c => !(c == '\n' || c == '\r')))
  | fuel + 1, c :: rest => c :: stripLineComments fuel rest

/-- The bare-key pattern after a `\x7b` or comma: whitespace, an
identifier, whitespace, a colon; yields the leading whitespace (kept by the
replacement), the identifier, and the input after the colon. -/
def bareKey? (s : List Char) : Option (List Char × List Char × List Char) :=
  match s.dropWhile isRegexWs with
  | c :: r =>
    if c.isAlpha || c = '_' || c = '$' then
      (match (r.dropWhile
          (fun ch => ch.isAlphanum || ch = '_' || ch = '$')).dropWhile isRegexWs with
      | ':' :: r3 =>
        some (s.takeWhile isRegexWs,
          c :: r.takeWhile (fun ch => ch.isAlphanum || ch = '_' || ch = '$'), r3)
      | _ => none)
    else none
  | [] => none

/-- Pass 4 — global replace of `([\x7b,]\s*)([a-zA-Z_$][a-zA-Z0-9_$]*)\s*:`
by the prefix, the identifier in quotes, and the colon (the whitespace
before the colon is dropped by the replacement). -/
def quoteBareKeys : Nat → List Char → List Char
  | 0, s => s
  | _ + 1, [] => []
  | fuel + 1, c :: rest =>
    if c = '{' ∨ c = ',' then
      match bareKey? rest with
      | some (ws, ident, r3) =>
        c :: ws ++ '"' :: ident ++ '"' :: ':' :: quoteBareKeys fuel r3
      | none => c :: quoteBareKeys fuel rest
    else c :: quoteBareKeys fuel rest

/-- RecoveryUtils.fixCommonJsonIssues: the four regex passes in source
order. -/
def fixCommonJsonIssues (s : String) : String :=
  let a := fixTrailingCommas s.toList.length s.toList
  let b := fixUnescapedQuotes a.length a
  let c := stripBlockComments b.length b
  let d := stripLineComments c.length c
  String.mk (quoteBareKeys d.length d)

/-- JS property read (`undefined` for a missing key is `none`). -/
def getJ (fields : List (String × Json)) (k : String) : Option Json :=
  (fields.find? (fun p => p.1 == k)).map (fun p => p.2)

/-- The own enumerable properties picked up by a JS object spread:
objects give their fields, arrays and strings their indexed elements,
primitives and dates nothing. -/
def toObjFields : Json → List (String × Json)
  | Json.obj f => f
  | Json.arr xs => xs.enum.map (fun p => (toString p.1, p.2))
  | Json.str s =>
    s.toList.enum.map (fun p => (toString p.1, Json.str (String.mk [p.2])))
  | _ => []

/-- JS truthiness of a property value (`undefined`, `null`, `false`, `0`,
and the empty string are falsy). -/
def truthyJ : Option Json → Bool
  | none => false
  | some Json.null => false
  | some (Json.bool b) => b
  | some (Json.num m _) => !(m == 0)
  | some (Json.str s) => !(s == "")
  | some (Json.arr _) => true
  | some (Json.obj _) => true
  | some (Json.date _) => true

def isArrayJ : Option Json → Bool
  | some (Json.arr _) => true
  | _ => false

/-- `x && typeof x === 'object'` (arrays and dates are objects; `null` is
falsy). -/
def isObjectTruthyJ : Option Json → Bool
  | some (Json.arr _) => true
  | some (Json.obj _) => true
  | some (Json.date _) => true
  | _ => false

def numberJ : Option Json → Bool
  | some (Json.num _ _) => true
  | _ => false

def taskStatusStrings : List String :=
  ["not_started", "in_progress", "completed", "blocked", "cancelled", "failed"]

def taskPriorityStrings : List String :=
  ["low", "medium", "high", "critical"]

/-- `!x || !Object.values(E).includes(x)` keeps the field exactly when it is
one of the enum's strings. -/
def enumOkJ (vals : List String) : Option Json → Bool
  | some (Json.str s) => vals.contains s
  | _ => false

/-- One `if (!ok(recovered.k)) recovered.k = v` repair step. -/
def stepField (p : Option Json → Bool) (k : String) (v : Json)
    (f : List (String × Json)) : List (String × Json) :=
  if p (getJ f k) then f else setJ f k v

/-- The date repair: a falsy value becomes `new Date()`; a (truthy) string
is parsed into a date; anything else is kept. -/
def fixDateField (dateParse : String → Nat) (now : Nat) (k : String)
    (f : List (String × Json)) : List (String × Json) :=
  if truthyJ (getJ f k) = false then setJ f k (Json.date now)
  else
    match getJ f k with
    | some (Json.str s) => setJ f k (Json.date (dateParse s))
    | _ => f

/-- `if (typeof recovered.progress.completionPercentage !== 'number')
recovered.progress.completionPercentage = 0` — only an object-valued
`progress` is representable here (on an array or date, JS attaches an
expando property which `JSON.stringify` drops again). -/
def fixProgressPct (f : List (String × Json)) : List (String × Json) :=
  match getJ f "progress" with
  | some (Json.obj pf) =>
    if numberJ (getJ pf "completionPercentage") then f
    else setJ f "progress" (Json.obj (setJ pf "completionPercentage" (Json.num 0 0)))
  | _ => f

/-- RecoveryUtils.recoverTaskData: spread, then the field-by-field repairs
in source order. -/
def recoverTaskData (dateParse : String → Nat) (now : Nat) (data : Json) :
    Json :=
  Json.obj
    (fixDateField dateParse now "updatedAt"
    (fixDateField dateParse now "createdAt"
    (fixProgressPct
    (stepField isObjectTruthyJ "progress"
        (Json.obj [("completionPercentage", Json.num 0 0)])
    (stepField isArrayJ "acceptanceCriteria" (Json.arr [])
    (stepField isArrayJ "dependencies" (Json.arr [])
    (stepField truthyJ "orchestrationId"
        (Json.str ("orch-" ++ toString now ++ "-recovered"))
    (stepField (enumOkJ taskPriorityStrings) "priority" (Json.str "medium")
    (stepField (enumOkJ taskStatusStrings) "status" (Json.str "not_started")
    (stepField truthyJ "description"
        (Json.str "Task recovered from corrupted data")
    (stepField truthyJ "name" (Json.str "Recovered Task")
    (stepField truthyJ "id"
        (Json.str ("task-" ++ toString now ++ "-recovered"))
    (toObjFields data)))))))))))))

/-- RecoveryUtils.recoverTaskManifestData. -/
def recoverTaskManifestData (dateParse : String → Nat) (now : Nat)
    (data : Json) : Json :=
  let f0 := toObjFields data
  let tasks := match getJ f0 "tasks" with
    | some (Json.arr xs) => xs
    | _ => []
  let f1 := setJ f0 "tasks" (Json.arr (tasks.map (recoverTaskData dateParse now)))
  Json.obj (if isArrayJ (getJ f1 "plans") then f1 else setJ f1 "plans" (Json.arr []))

/-- The DataRecoveryResult interface.  Note there is no field flagging
"reconstruction" as opposed to "repair". -/
structure DataRecoveryResult where
  success : Bool
  message : String
  recoveredData : Option Json := none
  backupCreated : Option String := none
  errors : Option (List String) := none

/-- RecoveryUtils.recoverTaskManifestFile on the file's contents: back up,
parse (after the fix passes if needed), repair and write back; when both
parses fail, report failure (the two `String(...)`d parse exceptions are
embedded as their class name). -/
def recoverTaskManifestFile (dateParse : String → Nat) (backupPath : String)
    (rawData : String) (now : Nat) : DataRecoveryResult :=
  match jsonParse rawData with
  | some manifestData =>
    { success := true
      message := "Task manifest file successfully recovered"
      recoveredData := some (recoverTaskManifestData dateParse now manifestData)
      backupCreated := some backupPath }
  | none =>
    match jsonParse (fixCommonJsonIssues rawData) with
    | some manifestData =>
      { success := true
        message := "Task manifest file successfully recovered"
        recoveredData := some (recoverTaskManifestData dateParse now manifestData)
        backupCreated := some backupPath }
    | none =>
      { success := false
        message := "Unable to parse task manifest data as JSON"
        backupCreated := some backupPath
        errors := some ["SyntaxError", "SyntaxError"] }

theorem getJ_setJ_self (f : List (String × Json)) (k : String) (v : Json) :
    getJ (setJ f k v) k = some v := by
  induction f with
  | nil => simp [setJ, getJ]
  | cons q qs ih =>
    unfold setJ
    by_cases h : q.1 = k
    · simp [getJ, h]
    · simp only [getJ] at ih ⊢
      simp [h, List.find?_cons_of_neg, ih]

theorem getJ_setJ_other (f : List (String × Json)) (k : String) (v : Json)
    (k' : String) (h : k' ≠ k) : getJ (setJ f k v) k' = getJ f k' := by
  have hkk : ¬ k = k' := fun he => h he.symm
  induction f with
  | nil => simp [setJ, getJ, List.find?, beq_false_of_ne hkk]
  | cons q qs ih =>
    unfold setJ
    by_cases hq : q.1 = k
    · have hqk : ¬ q.1 = k' := by rw [hq]; exact hkk
      simp [getJ, hq, List.find?_cons_of_neg, hqk, beq_false_of_ne hkk]
    · simp only [getJ] at ih ⊢
      by_cases hk' : q.1 = k'
      · simp [hq, hk', h, List.find?_cons_of_pos]
      · simp [hq, hk', List.find?_cons_of_neg, ih]

theorem getJ_stepField_miss (p : Option Json → Bool) (k : String) (v : Json)
    (f : List (String × Json)) (h : p (getJ f k) = false) :
    getJ (stepField p k v f) k = some v := by
  unfold stepField
  rw [h]
  rw [if_neg (by simp)]
  exact getJ_setJ_self f k v

theorem getJ_stepField_other (p : Option Json → Bool) (k : String) (v : Json)
    (f : List (String × Json)) (k' : String) (h : k' ≠ k) :
    getJ (stepField p k v f) k' = getJ f k' := by
  unfold stepField
  split
  · rfl
  · exact getJ_setJ_other f k v k' h

theorem getJ_fixDateField_other (dp : String → Nat) (now : Nat) (k : String)
    (f : List (String × Json)) (k' : String) (h : k' ≠ k) :
    getJ (fixDateField dp now k f) k' = getJ f k' := by
  unfold fixDateField
  split
  · exact getJ_setJ_other f k _ k' h
  · split
    · exact getJ_setJ_other f k _ k' h
    · rfl

theorem getJ_fixProgressPct_other (f : List (String × Json)) (k' : String)
    (h : k' ≠ "progress") : getJ (fixProgressPct f) k' = getJ f k' := by
  unfold fixProgressPct
  split
  · split
    · rfl
    · exact getJ_setJ_other f "progress" _ k' h
  · rfl

/-- A task value whose `status` is not one of the TaskStatus strings comes
out of recoverTaskData with `status = "not_started"`. -/
theorem getJ_recoverTaskData_status (dp : String → Nat) (now : Nat) (t : Json)
    (h : enumOkJ taskStatusStrings (getJ (toObjFields t) "status") = false) :
    getJ (toObjFields (recoverTaskData dp now t)) "status"
      = some (Json.str "not_started") := by
  have hobj : ∀ f : List (String × Json), toObjFields (Json.obj f) = f :=
    fun _ => rfl
  dsimp only [recoverTaskData]
  rw [hobj]
  rw [getJ_fixDateField_other dp now "updatedAt" _ "status" (by decide)]
  rw [getJ_fixDateField_other dp now "createdAt" _ "status" (by decide)]
  rw [getJ_fixProgressPct_other _ "status" (by decide)]
  rw [getJ_stepField_other isObjectTruthyJ "progress" _ _ "status" (by decide)]
  rw [getJ_stepField_other isArrayJ "acceptanceCriteria" _ _ "status" (by decide)]
  rw [getJ_stepField_other isArrayJ "dependencies" _ _ "status" (by decide)]
  rw [getJ_stepField_other truthyJ "orchestrationId" _ _ "status" (by decide)]
  rw [getJ_stepField_other (enumOkJ taskPriorityStrings) "priority" _ _ "status"
    (by decide)]
  have hF3 : getJ
      (stepField truthyJ "description" (Json.str "Task recovered from corrupted data")
      (stepField truthyJ "name" (Json.str "Recovered Task")
      (stepField truthyJ "id" (Json.str ("task-" ++ toString now ++ "-recovered"))
      (toObjFields t)))) "status" = getJ (toObjFields t) "status" := by
    rw [getJ_stepField_other truthyJ "description" _ _ "status" (by decide)]
    rw [getJ_stepField_other truthyJ "name" _ _ "status" (by decide)]
    rw [getJ_stepField_other truthyJ "id" _ _ "status" (by decide)]
  exact getJ_stepField_miss (enumOkJ taskStatusStrings) "status"
    (Json.str "not_started") _ (by rw [hF3]; exact h)

/-- C4 (amended): when a task-manifest file's contents are unparseable even
after fixCommonJsonIssues, recovery does NOT reconstruct anything: it
returns success = false with no recovered data (and the DataRecoveryResult
type has no flag distinguishing reconstruction from repair at all).  Only
when some parse succeeds is the parsed manifest repaired — in that repair,
a task whose `status` is missing or not a TaskStatus value does get the
synthetic default `not_started`. -/
theorem C4_recovery_amended (dateParse : String → Nat) (bpath : String)
    (now : Nat) :
    (∀ rawData : String, jsonParse rawData = none →
      jsonParse (fixCommonJsonIssues rawData) = none →
      recoverTaskManifestFile dateParse bpath rawData now
        = { success := false
            message := "Unable to parse task manifest data as JSON"
            recoveredData := none
            backupCreated := some bpath
            errors := some ["SyntaxError", "SyntaxError"] })
    ∧ (∀ (rawData : String) (m : Json), jsonParse rawData = some m →
      recoverTaskManifestFile dateParse bpath rawData now
        = { success := true
            message := "Task manifest file successfully recovered"
            recoveredData := some (recoverTaskManifestData dateParse now m)
            backupCreated := some bpath })
    ∧ (∀ t : Json, enumOkJ taskStatusStrings (getJ (toObjFields t) "status") = false →
      getJ (toObjFields (recoverTaskData dateParse now t)) "status"
        = some (Json.str "not_started")) := by
  refine ⟨?_, ?_, ?_⟩
  · intro rawData h1 h2
    unfold recoverTaskManifestFile
    rw [h1, h2]
  · intro rawData m h1
    unfold recoverTaskManifestFile
    rw [h1]
  · intro t h
    exact getJ_recoverTaskData_status dateParse now t h

/-- C4 (counterexample): for the Task manifest file truncated mid-document,
the original contents and the fixCommonJsonIssues output (which is the
unchanged string — the fixes repair commas, comments and keys, they cannot
close a truncated document) both fail to parse, and recovery returns
success = false with NO recovered record — not a reconstructed record with
the same id, status not_started and a reconstruction flag, as claimed (the
result type has no such flag). -/
theorem C4_truncated_not_reconstructed :
    jsonParse "\x7b\"id\": \"task-1\"" = none
    ∧ fixCommonJsonIssues "\x7b\"id\": \"task-1\"" = "\x7b\"id\": \"task-1\""
    ∧ recoverTaskManifestFile (fun _ => 0) "b" "\x7b\"id\": \"task-1\"" 0
      = { success := false
          message := "Unable to parse task manifest data as JSON"
          recoveredData := none
          backupCreated := some "b"
          errors := some ["SyntaxError", "SyntaxError"] } :=
  ⟨rfl, rfl, rfl⟩

/-- C4 witness: the amended theorem at the truncated document, at the empty
document, and at a task with no status field. -/
theorem C4_recovery_amended_witness :
    recoverTaskManifestFile (fun _ => 0) "b" "\x7b\"id\": \"task-1\"" 7
      = { success := false
          message := "Unable to parse task manifest data as JSON"
          recoveredData := none
          backupCreated := some "b"
          errors := some ["SyntaxError", "SyntaxError"] }
    ∧ recoverTaskManifestFile (fun _ => 0) "b" "\x7b\x7d" 7
      = { success := true
          message := "Task manifest file successfully recovered"
          recoveredData := some (recoverTaskManifestData (fun _ => 0) 7 (Json.obj []))
          backupCreated := some "b" }
    ∧ getJ (toObjFields (recoverTaskData (fun _ => 0) 7 Json.null)) "status"
      = some (Json.str "not_started") := by
  have h := C4_recovery_amended (fun _ => 0) "b" 7
  exact ⟨h.1 _ rfl rfl, h.2.1 _ (Json.obj []) rfl, h.2.2 Json.null rfl⟩

/-! ## C5 — TaskManifest.validateTaskDependencies

The DFS closure `hasCycle` mutates three pieces of state (`visited`,
`recursionStack`, `result.cycles`); the recursion is defunctionalized into
call modes (`go` = a hasCycle invocation, `deps` = the for-loop over the
remaining dependencies) so that the embedding is structurally recursive on
fuel and evaluates by `rfl`.  Fuel only bounds call depth; the theorems
supply the adequate `dfsFuelOf`. -/

structure DfsState where
  visited : List String
  recStack : List String
  cycles : List (List String)

/-- `path.slice(path.indexOf(taskId)).concat(taskId)` — `indexOf` yields -1
when absent, and `slice(-1)` is the last element. -/
def cycleSlice (path : List String) (tid : String) : List String :=
  match path.findIdx? (fun x => x == tid) with
  | some i => path.drop i ++ [tid]
  | none => path.drop (path.length - 1) ++ [tid]

inductive DfsCall where
  | go (taskId : String) (path : List String)
  | deps (taskId : String) (path : List String) (ds : List TaskDependency)

/-- The `hasCycle` DFS.  `go tid path`: on a recursion-stack hit push a
cycle and return true; on a visited node return false; otherwise mark the
node visited and grey and run its dependency loop, un-greying on a false
return (an early true return skips the un-grey, exactly as the source's
`return true` skips `recursionStack.delete`).  `deps`: iterate the
dependencies, recursing only on targets inside the orchestration and
stopping at the first true. -/
def dfsRun (tasks : List Task) :
    Nat → DfsCall → DfsState → DfsState × Bool
  | 0, _, st => (st, false)
  | Nat.succ fuel, DfsCall.go tid path, st =>
    if st.recStack.contains tid then
      ({ st with cycles := st.cycles ++ [cycleSlice path tid] }, true)
    else if st.visited.contains tid then (st, false)
    else
      let st1 : DfsState :=
        { st with
          visited := tid :: st.visited
          recStack := tid :: st.recStack }
      match tasks.find? (fun t => t.id == tid) with
      | some task =>
        (match dfsRun tasks fuel (DfsCall.deps tid path task.dependencies) st1 with
        | (st2, true) => (st2, true)
        | (st2, false) =>
          ({ st2 with recStack := st2.recStack.erase tid }, false))
      | none => ({ st1 with recStack := st1.recStack.erase tid }, false)
  | Nat.succ fuel, DfsCall.deps tid path ds, st =>
    match ds with
    | [] => (st, false)
    | d :: rest =>
      if (tasks.map Task.id).contains d.taskId then
        match dfsRun tasks fuel (DfsCall.go d.taskId (path ++ [tid])) st with
        | (st2, true) => (st2, true)
        | (st2, false) => dfsRun tasks fuel (DfsCall.deps tid path rest) st2
      else dfsRun tasks fuel (DfsCall.deps tid path rest) st

/-- The outer `for (const task of tasks) if (!visited.has(task.id)) ...`
loop; `found` accumulates whether any root returned true (each such root
sets `result.isValid = false`). -/
def dfsOuter (tasks : List Task) (fuel : Nat) :
    List Task → DfsState → Bool → DfsState × Bool
  | [], st, found => (st, found)
  | t :: ts, st, found =>
    if st.visited.contains t.id then dfsOuter tasks fuel ts st found
    else
      match dfsRun tasks fuel (DfsCall.go t.id []) st with
      | (st2, b) => dfsOuter tasks fuel ts st2 (found || b)

/-- The invalid-dependencies double loop (`push` on targets outside the
orchestration's id set). -/
def invalidDepsOf (tasks : List Task) : List String :=
  tasks.foldl (fun acc t =>
    t.dependencies.foldl (fun acc2 d =>
      if (tasks.map Task.id).contains d.taskId then acc2
      else acc2 ++ [t.id ++ " -> " ++ d.taskId]) acc) []

structure DepValidationResult where
  isValid : Bool
  cycles : List (List String)
  orphanedTasks : List String
  invalidDependencies : List String

/-- Adequate DFS fuel: one plus the summed footprint (node + dependency
count) of all tasks. -/
def dfsFuelOf (tasks : List Task) : Nat :=
  1 + (tasks.map (fun t => 1 + t.dependencies.length)).sum

/-- TaskManifest.validateTaskDependencies (lines 495-564): tasks of the
orchestration via queryTasks, the invalid-dependency scan, then the DFS;
`orphanedTasks` is declared and never pushed to. -/
def validateTaskDependencies (store : List Task) (oid : String) :
    DepValidationResult :=
  let tasks := queryTasks store { orchestrationId := some oid }
  let invalid := invalidDepsOf tasks
  let r := dfsOuter tasks (dfsFuelOf tasks) tasks ⟨[], [], []⟩ false
  { isValid := invalid.isEmpty && !r.2
    cycles := r.1.cycles
    orphanedTasks := []
    invalidDependencies := invalid }

/-- A dependency edge of the orchestration, as the DFS can traverse it: the
(first) task with id `a` has a dependency on `b` and `b` is an id of the
orchestration. -/
def edgeB (tasks : List Task) (a b : String) : Bool :=
  match tasks.find? (fun t => t.id == a) with
  | some t =>
    t.dependencies.any (fun d => d.taskId == b) && (tasks.map Task.id).contains b
  | none => false

/-- `pathB a xs b`: an edge chain `a → xs₀ → xs₁ → ... → b` (at least one
edge). -/
def pathB (tasks : List Task) : String → List String → String → Bool
  | a, [], b => edgeB tasks a b
  | a, x :: xs, b => edgeB tasks a x && pathB tasks x xs b

/-- The dependency edges restricted to the orchestration contain a directed
cycle. -/
def HasDepCycle (tasks : List Task) : Prop :=
  ∃ a xs, pathB tasks a xs a = true

/-- The edges along `path ++ [tid]` all hold (trivially true for an empty
path). -/
def chainToB (tasks : List Task) : List String → String → Bool
  | [], _ => true
  | a :: xs, b => pathB tasks a xs b

/-- Black = fully processed: visited and off the recursion stack. -/
def blackAt (st : DfsState) (v : String) : Prop :=
  v ∈ st.visited ∧ v ∉ st.recStack

/-- The clean-run invariant: black nodes only step to black nodes, and no
cycle lies entirely in the black set. -/
structure StInv (tasks : List Task) (st : DfsState) : Prop where
  bs : ∀ v u, blackAt st v → edgeB tasks v u = true → blackAt st u
  ncb : ∀ a xs, pathB tasks a xs a = true →
    ¬ (∀ v, v ∈ a :: xs → blackAt st v)

/-- The fuel potential: summed footprint of the unvisited tasks. -/
def phiOf (tasks : List Task) (st : DfsState) : Nat :=
  ((tasks.filter (fun t => !(st.visited.contains t.id))).map
    (fun t => 1 + t.dependencies.length)).sum

theorem scontains_iff {l : List String} {a : String} :
    l.contains a = true ↔ a ∈ l := by
  simp

theorem pathB_append (tasks : List Task) (u : List String) :
    ∀ (a t b : String) (v : List String),
    pathB tasks a (u ++ t :: v) b = (pathB tasks a u t && pathB tasks t v b) := by
  induction u with
  | nil => intro a t b v; simp [pathB]
  | cons x xs ih =>
    intro a t b v
    simp only [List.cons_append, pathB, List.append_eq]
    rw [ih x t b v, Bool.and_assoc]

theorem pathB_rotate (tasks : List Task) (a tid : String) (xs : List String)
    (h : pathB tasks a xs a = true) (hmem : tid ∈ a :: xs) :
    ∃ ys, pathB tasks tid ys tid = true := by
  rcases List.mem_cons.mp hmem with heq | hx
  · subst heq; exact ⟨xs, h⟩
  · obtain ⟨u, v, rfl⟩ := List.append_of_mem hx
    rw [pathB_append] at h
    simp only [Bool.and_eq_true] at h
    refine ⟨v ++ a :: u, ?_⟩
    rw [pathB_append]
    simp only [Bool.and_eq_true]
    exact ⟨h.2, h.1⟩

theorem chainToB_snoc (tasks : List Task) (path : List String) (tid b : String) :
    chainToB tasks (path ++ [tid]) b
      = (chainToB tasks path tid && edgeB tasks tid b) := by
  cases path with
  | nil => simp [chainToB, pathB]
  | cons p ps =>
    simp only [List.cons_append, chainToB]
    rw [show ps ++ [tid] = ps ++ tid :: [] from rfl, pathB_append]
    rfl

theorem black_chain (tasks : List Task) (st : DfsState)
    (hbs : ∀ v u, blackAt st v → edgeB tasks v u = true → blackAt st u)
    (xs : List String) :
    ∀ (a b : String), pathB tasks a xs b = true → blackAt st a →
    blackAt st b ∧ ∀ v ∈ xs, blackAt st v := by
  induction xs with
  | nil =>
    intro a b h ha
    exact ⟨hbs a b ha h, by simp⟩
  | cons x xs ih =>
    intro a b h ha
    simp only [pathB, Bool.and_eq_true] at h
    have hx := hbs a x ha h.1
    obtain ⟨hb, hall⟩ := ih x b h.2 hx
    refine ⟨hb, ?_⟩
    intro v hv
    rcases List.mem_cons.mp hv with heq | hv'
    · subst heq; exact hx
    · exact hall v hv'

theorem blackAt_push (st : DfsState) (tid : String)
    (hnv : tid ∉ st.visited) (v : String) :
    blackAt
      { st with
        visited := tid :: st.visited
        recStack := tid :: st.recStack } v ↔ blackAt st v := by
  unfold blackAt
  simp only [List.mem_cons, not_or]
  constructor
  · rintro ⟨hv | hv, hne, hns⟩
    · exact absurd hv hne
    · exact ⟨hv, hns⟩
  · rintro ⟨hv, hns⟩
    have hne : v ≠ tid := fun he => hnv (he ▸ hv)
    exact ⟨Or.inr hv, hne, hns⟩

theorem stInv_push (tasks : List Task) (st : DfsState) (tid : String)
    (hnv : tid ∉ st.visited) (hinv : StInv tasks st) :
    StInv tasks
      { st with
        visited := tid :: st.visited
        recStack := tid :: st.recStack } := by
  constructor
  · intro v u hv he
    rw [blackAt_push st tid hnv] at hv ⊢
    exact hinv.bs v u hv he
  · intro a xs hp hall
    refine hinv.ncb a xs hp ?_
    intro v hv
    rw [← blackAt_push st tid hnv]
    exact hall v hv

/-- The potential over an explicit visited list. -/
def phiV (tasks : List Task) (vis : List String) : Nat :=
  ((tasks.filter (fun t => !(vis.contains t.id))).map
    (fun t => 1 + t.dependencies.length)).sum

theorem phiV_mono (tasks : List Task) (vis vis' : List String)
    (h : ∀ x, x ∈ vis → x ∈ vis') : phiV tasks vis' ≤ phiV tasks vis := by
  induction tasks with
  | nil => simp [phiV]
  | cons t ts ih =>
    unfold phiV at ih ⊢
    rw [List.filter_cons, List.filter_cons]
    by_cases hc2 : vis.contains t.id = true
    · have hc : vis'.contains t.id = true :=
        scontains_iff.mpr (h t.id (scontains_iff.mp hc2))
      simp only [hc, hc2, Bool.not_true]
      simp at ih ⊢
      omega
    · have hc2f : vis.contains t.id = false := by
        rw [Bool.eq_false_iff]; exact hc2
      by_cases hc : vis'.contains t.id = true
      · simp only [hc, hc2f, Bool.not_true, Bool.not_false]
        simp at ih ⊢
        omega
      · have hcf : vis'.contains t.id = false := by
          rw [Bool.eq_false_iff]; exact hc
        simp only [hcf, hc2f, Bool.not_false]
        simp at ih ⊢
        omega

theorem phiV_found (tasks : List Task) (tid : String) (task : Task)
    (hf : tasks.find? (fun t => t.id == tid) = some task)
    (vis : List String) (hnv : vis.contains tid = false) :
    1 + task.dependencies.length + phiV tasks (tid :: vis) ≤ phiV tasks vis := by
  induction tasks with
  | nil => simp [List.find?] at hf
  | cons u us ih =>
    by_cases hu : u.id = tid
    · have hfu : u = task := by
        rw [List.find?_cons_of_pos _ (by simp [hu])] at hf
        exact Option.some.inj hf
      have hm := phiV_mono us vis (tid :: vis) (fun x hx => List.mem_cons_of_mem tid hx)
      unfold phiV at hm ⊢
      rw [List.filter_cons, List.filter_cons]
      have h1 : ((tid :: vis).contains u.id) = true := by
        rw [hu]; simp
      have h2 : (vis.contains u.id) = false := by rw [hu]; exact hnv
      simp only [h1, h2, Bool.not_true, Bool.not_false]
      subst hfu
      simp at hm ⊢
      omega
    · have hf' : us.find? (fun t => t.id == tid) = some task := by
        rw [List.find?_cons_of_neg _ (by simp [hu])] at hf
        exact hf
      have ih' := ih hf'
      unfold phiV at ih' ⊢
      rw [List.filter_cons, List.filter_cons]
      have hsame : ((tid :: vis).contains u.id) = (vis.contains u.id) := by
        cases hcv : vis.contains u.id with
        | true =>
          exact scontains_iff.mpr (List.mem_cons_of_mem tid (scontains_iff.mp hcv))
        | false =>
          rw [Bool.eq_false_iff] at hcv
          rw [Bool.eq_false_iff]
          intro hc
          rcases List.mem_cons.mp (scontains_iff.mp hc) with heq | hmm2
          · exact hu heq
          · exact hcv (scontains_iff.mpr hmm2)
      rw [hsame]
      cases hcv : vis.contains u.id with
      | true =>
        simp only [hcv, Bool.not_true]
        simp at ih' ⊢
        omega
      | false =>
        simp only [hcv, Bool.not_false]
        simp at ih' ⊢
        omega

theorem dfsRun_go_hit (tasks : List Task) (fuel : Nat) (st : DfsState)
    (tid : String) (path : List String)
    (h : st.recStack.contains tid = true) :
    dfsRun tasks (Nat.succ fuel) (DfsCall.go tid path) st
      = ({ st with cycles := st.cycles ++ [cycleSlice path tid] }, true) := by
  simp only [dfsRun]
  rw [if_pos h]

theorem dfsRun_go_vis (tasks : List Task) (fuel : Nat) (st : DfsState)
    (tid : String) (path : List String)
    (h1 : st.recStack.contains tid = false)
    (h2 : st.visited.contains tid = true) :
    dfsRun tasks (Nat.succ fuel) (DfsCall.go tid path) st = (st, false) := by
  simp only [dfsRun]
  rw [if_neg (by rw [h1]; simp), if_pos h2]

theorem dfsRun_go_white_some (tasks : List Task) (fuel : Nat) (st : DfsState)
    (tid : String) (path : List String) (task : Task)
    (h1 : st.recStack.contains tid = false)
    (h2 : st.visited.contains tid = false)
    (hf : tasks.find? (fun t => t.id == tid) = some task) :
    dfsRun tasks (Nat.succ fuel) (DfsCall.go tid path) st
      = (match dfsRun tasks fuel (DfsCall.deps tid path task.dependencies)
          { st with
            visited := tid :: st.visited
            recStack := tid :: st.recStack } with
        | (st2, true) => (st2, true)
        | (st2, false) => ({ st2 with recStack := st2.recStack.erase tid }, false)) := by
  simp only [dfsRun]
  rw [if_neg (by rw [h1]; simp), if_neg (by rw [h2]; simp)]
  rw [hf]

theorem dfsRun_go_white_none (tasks : List Task) (fuel : Nat) (st : DfsState)
    (tid : String) (path : List String)
    (h1 : st.recStack.contains tid = false)
    (h2 : st.visited.contains tid = false)
    (hf : tasks.find? (fun t => t.id == tid) = none) :
    dfsRun tasks (Nat.succ fuel) (DfsCall.go tid path) st
      = ({ st with visited := tid :: st.visited }, false) := by
  simp only [dfsRun]
  rw [if_neg (by rw [h1]; simp), if_neg (by rw [h2]; simp)]
  rw [hf]
  rw [List.erase_cons_head]

theorem dfsRun_deps_nil (tasks : List Task) (fuel : Nat) (st : DfsState)
    (tid : String) (path : List String) :
    dfsRun tasks (Nat.succ fuel) (DfsCall.deps tid path []) st = (st, false) := by
  simp [dfsRun]

theorem dfsRun_deps_cons_skip (tasks : List Task) (fuel : Nat) (st : DfsState)
    (tid : String) (path : List String) (d : TaskDependency)
    (rest : List TaskDependency)
    (h : (tasks.map Task.id).contains d.taskId = false) :
    dfsRun tasks (Nat.succ fuel) (DfsCall.deps tid path (d :: rest)) st
      = dfsRun tasks fuel (DfsCall.deps tid path rest) st := by
  simp only [dfsRun]
  rw [if_neg (by rw [h]; simp)]

theorem dfsRun_deps_cons_go (tasks : List Task) (fuel : Nat) (st : DfsState)
    (tid : String) (path : List String) (d : TaskDependency)
    (rest : List TaskDependency)
    (h : (tasks.map Task.id).contains d.taskId = true) :
    dfsRun tasks (Nat.succ fuel) (DfsCall.deps tid path (d :: rest)) st
      = (match dfsRun tasks fuel (DfsCall.go d.taskId (path ++ [tid])) st with
        | (st2, true) => (st2, true)
        | (st2, false) => dfsRun tasks fuel (DfsCall.deps tid path rest) st2) := by
  simp only [dfsRun]
  rw [if_pos h]

/-- The cycles list only ever grows, it grows exactly on a true result, and
a false result leaves it unchanged. -/
theorem dfsRun_cycles (tasks : List Task) :
    ∀ (fuel : Nat) (call : DfsCall) (st : DfsState),
    ∃ ext, (dfsRun tasks fuel call st).1.cycles = st.cycles ++ ext
      ∧ ((dfsRun tasks fuel call st).2 = false → ext = [])
      ∧ ((dfsRun tasks fuel call st).2 = true → ext ≠ []) := by
  intro fuel
  induction fuel with
  | zero =>
    intro call st
    refine ⟨[], by simp [dfsRun], fun _ => rfl, fun h => ?_⟩
    simp [dfsRun] at h
  | succ fuel ih =>
    intro call st
    cases call with
    | go tid path =>
      cases h1 : st.recStack.contains tid with
      | true =>
        rw [dfsRun_go_hit tasks fuel st tid path h1]
        exact ⟨[cycleSlice path tid], rfl, fun h => by simp at h, fun _ => by simp⟩
      | false =>
        cases h2 : st.visited.contains tid with
        | true =>
          rw [dfsRun_go_vis tasks fuel st tid path h1 h2]
          exact ⟨[], by simp, fun _ => rfl, fun h => by simp at h⟩
        | false =>
          cases hf : tasks.find? (fun t => t.id == tid) with
          | none =>
            rw [dfsRun_go_white_none tasks fuel st tid path h1 h2 hf]
            exact ⟨[], by simp, fun _ => rfl, fun h => by simp at h⟩
          | some task =>
            rw [dfsRun_go_white_some tasks fuel st tid path task h1 h2 hf]
            obtain ⟨ext, hcyc, hfalse, htrue⟩ := ih
              (DfsCall.deps tid path task.dependencies)
              { st with
                visited := tid :: st.visited
                recStack := tid :: st.recStack }
            rcases hr : dfsRun tasks fuel (DfsCall.deps tid path task.dependencies)
              { st with
                visited := tid :: st.visited
                recStack := tid :: st.recStack } with ⟨st2, b⟩
            rw [hr] at hcyc hfalse htrue
            cases b with
            | true =>
              refine ⟨ext, ?_, fun h => by simp at h, fun _ => htrue rfl⟩
              exact hcyc
            | false =>
              refine ⟨ext, ?_, fun _ => hfalse rfl, fun h => by simp at h⟩
              exact hcyc
    | deps tid path ds =>
      cases ds with
      | nil =>
        rw [dfsRun_deps_nil]
        exact ⟨[], by simp, fun _ => rfl, fun h => by simp at h⟩
      | cons d rest =>
        cases hc : (tasks.map Task.id).contains d.taskId with
        | false =>
          rw [dfsRun_deps_cons_skip tasks fuel st tid path d rest hc]
          exact ih (DfsCall.deps tid path rest) st
        | true =>
          rw [dfsRun_deps_cons_go tasks fuel st tid path d rest hc]
          obtain ⟨ext1, hcyc1, hfalse1, htrue1⟩ :=
            ih (DfsCall.go d.taskId (path ++ [tid])) st
          rcases hr : dfsRun tasks fuel (DfsCall.go d.taskId (path ++ [tid])) st
            with ⟨st2, b⟩
          rw [hr] at hcyc1 hfalse1 htrue1
          cases b with
          | true =>
            exact ⟨ext1, hcyc1, fun h => by simp at h, fun _ => htrue1 rfl⟩
          | false =>
            obtain ⟨ext2, hcyc2, hfalse2, htrue2⟩ :=
              ih (DfsCall.deps tid path rest) st2
            refine ⟨ext2, ?_, hfalse2, htrue2⟩
            rw [hcyc2, hcyc1, hfalse1 rfl]
            simp

/-- Soundness of the DFS: under the recursion-stack/path correspondence, a
true result implies a real dependency cycle, and a false result restores
the recursion stack and only grows the visited set. -/
theorem dfsRun_sound (tasks : List Task) :
    ∀ (fuel : Nat),
    (∀ (st : DfsState) (tid : String) (path : List String),
      st.recStack = path.reverse →
      chainToB tasks path tid = true →
      ((dfsRun tasks fuel (DfsCall.go tid path) st).2 = true → HasDepCycle tasks)
      ∧ ((dfsRun tasks fuel (DfsCall.go tid path) st).2 = false →
        (dfsRun tasks fuel (DfsCall.go tid path) st).1.recStack = st.recStack
        ∧ ∀ x, x ∈ st.visited →
            x ∈ (dfsRun tasks fuel (DfsCall.go tid path) st).1.visited))
    ∧ (∀ (st : DfsState) (tid : String) (path : List String)
        (ds : List TaskDependency),
      st.recStack = tid :: path.reverse →
      chainToB tasks path tid = true →
      (∀ d, d ∈ ds → (tasks.map Task.id).contains d.taskId = true →
        edgeB tasks tid d.taskId = true) →
      ((dfsRun tasks fuel (DfsCall.deps tid path ds) st).2 = true →
        HasDepCycle tasks)
      ∧ ((dfsRun tasks fuel (DfsCall.deps tid path ds) st).2 = false →
        (dfsRun tasks fuel (DfsCall.deps tid path ds) st).1.recStack
          = st.recStack
        ∧ ∀ x, x ∈ st.visited →
            x ∈ (dfsRun tasks fuel (DfsCall.deps tid path ds) st).1.visited)) := by
  intro fuel
  induction fuel with
  | zero =>
    constructor
    · intro st tid path _ _
      exact ⟨fun h => by simp [dfsRun] at h, fun _ => ⟨rfl, fun x hx => hx⟩⟩
    · intro st tid path ds _ _ _
      exact ⟨fun h => by simp [dfsRun] at h, fun _ => ⟨rfl, fun x hx => hx⟩⟩
  | succ fuel ih =>
    obtain ⟨ihgo, ihdeps⟩ := ih
    constructor
    · intro st tid path hrs hchain
      cases h1 : st.recStack.contains tid with
      | true =>
        rw [dfsRun_go_hit tasks fuel st tid path h1]
        refine ⟨fun _ => ?_, fun h => by simp at h⟩
        have hmem : tid ∈ path := by
          have hm := scontains_iff.mp h1
          rw [hrs] at hm
          exact List.mem_reverse.mp hm
        cases path with
        | nil => simp at hmem
        | cons p ps =>
          have hch : pathB tasks p ps tid = true := hchain
          rcases List.mem_cons.mp hmem with heq | hx
          · subst heq
            exact ⟨tid, ps, hch⟩
          · obtain ⟨u, v, rfl⟩ := List.append_of_mem hx
            rw [pathB_append] at hch
            simp only [Bool.and_eq_true] at hch
            exact ⟨tid, v, hch.2⟩
      | false =>
        cases h2 : st.visited.contains tid with
        | true =>
          rw [dfsRun_go_vis tasks fuel st tid path h1 h2]
          exact ⟨fun h => by simp at h, fun _ => ⟨rfl, fun x hx => hx⟩⟩
        | false =>
          cases hf : tasks.find? (fun t => t.id == tid) with
          | none =>
            rw [dfsRun_go_white_none tasks fuel st tid path h1 h2 hf]
            exact ⟨fun h => by simp at h,
              fun _ => ⟨rfl, fun x hx => List.mem_cons_of_mem _ hx⟩⟩
          | some task =>
            rw [dfsRun_go_white_some tasks fuel st tid path task h1 h2 hf]
            have hedges : ∀ d, d ∈ task.dependencies →
                (tasks.map Task.id).contains d.taskId = true →
                edgeB tasks tid d.taskId = true := by
              intro d hd hcont
              unfold edgeB
              rw [hf]
              simp only [Bool.and_eq_true]
              exact ⟨List.any_eq_true.mpr ⟨d, hd, by simp⟩, hcont⟩
            have hin := ihdeps
              { st with
                visited := tid :: st.visited
                recStack := tid :: st.recStack }
              tid path task.dependencies
              (by show tid :: st.recStack = tid :: path.reverse; rw [hrs])
              hchain hedges
            rcases hr : dfsRun tasks fuel
              (DfsCall.deps tid path task.dependencies)
              { st with
                visited := tid :: st.visited
                recStack := tid :: st.recStack } with ⟨st2, b⟩
            rw [hr] at hin
            cases b with
            | true =>
              exact ⟨fun _ => hin.1 rfl, fun h => by simp at h⟩
            | false =>
              obtain ⟨hrec, hvis⟩ := hin.2 rfl
              refine ⟨fun h => by simp at h, fun _ => ⟨?_, ?_⟩⟩
              · show st2.recStack.erase tid = st.recStack
                have hrec' : st2.recStack = tid :: st.recStack := hrec
                rw [hrec']
                exact List.erase_cons_head tid st.recStack
              · intro x hx
                show x ∈ st2.visited
                exact hvis x (List.mem_cons_of_mem _ hx)
    · intro st tid path ds hrs hchain hedges
      cases ds with
      | nil =>
        rw [dfsRun_deps_nil]
        exact ⟨fun h => by simp at h, fun _ => ⟨rfl, fun x hx => hx⟩⟩
      | cons d rest =>
        cases hc : (tasks.map Task.id).contains d.taskId with
        | false =>
          rw [dfsRun_deps_cons_skip tasks fuel st tid path d rest hc]
          exact ihdeps st tid path rest hrs hchain
            (fun d' hd' => hedges d' (List.mem_cons_of_mem _ hd'))
        | true =>
          rw [dfsRun_deps_cons_go tasks fuel st tid path d rest hc]
          have hedge := hedges d (List.mem_cons_self d rest) hc
          have hgo := ihgo st d.taskId (path ++ [tid])
            (by rw [hrs]; simp)
            (by rw [chainToB_snoc, hchain, hedge]; rfl)
          rcases hr : dfsRun tasks fuel
            (DfsCall.go d.taskId (path ++ [tid])) st with ⟨st2, b⟩
          rw [hr] at hgo
          cases b with
          | true =>
            exact ⟨fun _ => hgo.1 rfl, fun h => by simp at h⟩
          | false =>
            obtain ⟨hrec1, hvis1⟩ := hgo.2 rfl
            have hrec1' : st2.recStack = st.recStack := hrec1
            have hnext := ihdeps st2 tid path rest
              (by rw [hrec1', hrs]) hchain
              (fun d' hd' => hedges d' (List.mem_cons_of_mem _ hd'))
            refine ⟨hnext.1, fun hfl => ?_⟩
            obtain ⟨hrec2, hvis2⟩ := hnext.2 hfl
            refine ⟨by rw [hrec2, hrec1'], ?_⟩
            intro x hx
            exact hvis2 x (hvis1 x hx)

theorem scontains_false_iff {l : List String} {a : String} :
    l.contains a = false ↔ a ∉ l := by
  rw [Bool.eq_false_iff]
  exact not_congr scontains_iff

theorem edgeB_none (tasks : List Task) (a b : String)
    (h : tasks.find? (fun t => t.id == a) = none) : edgeB tasks a b = false := by
  unfold edgeB
  rw [h]

theorem edgeB_elim (tasks : List Task) (tid u : String) (task : Task)
    (hf : tasks.find? (fun t => t.id == tid) = some task)
    (he : edgeB tasks tid u = true) :
    ∃ d, d ∈ task.dependencies ∧ d.taskId = u
      ∧ (tasks.map Task.id).contains u = true := by
  unfold edgeB at he
  rw [hf] at he
  simp only [Bool.and_eq_true] at he
  obtain ⟨d, hd, hdid⟩ := List.any_eq_true.mp he.1
  exact ⟨d, hd, eq_of_beq hdid, he.2⟩

theorem pathB_first_edge (tasks : List Task) (a g : String) (xs : List String)
    (hp : pathB tasks a xs g = true) :
    ∃ w, edgeB tasks a w = true
      ∧ (w = g ∧ xs = [] ∨ ∃ ws, xs = w :: ws ∧ pathB tasks w ws g = true) := by
  cases xs with
  | nil => exact ⟨g, hp, Or.inl ⟨rfl, rfl⟩⟩
  | cons x xs' =>
    simp only [pathB, Bool.and_eq_true] at hp
    exact ⟨x, hp.1, Or.inr ⟨xs', rfl, hp.2⟩⟩

/-- Completeness and invariant preservation of the DFS, given adequate
fuel: a false result preserves the clean-run invariant (with the just
finished node black), and any node that reaches the recursion stack forces
a true result. -/
theorem dfsRun_complete (tasks : List Task) :
    ∀ (fuel : Nat),
    (∀ (st : DfsState) (tid : String) (path : List String),
      st.recStack = path.reverse →
      chainToB tasks path tid = true →
      StInv tasks st →
      1 + phiOf tasks st ≤ fuel →
      (((dfsRun tasks fuel (DfsCall.go tid path) st).2 = false →
          StInv tasks (dfsRun tasks fuel (DfsCall.go tid path) st).1
          ∧ tid ∈ (dfsRun tasks fuel (DfsCall.go tid path) st).1.visited
          ∧ tid ∉ st.recStack)
        ∧ ((tid ∈ st.recStack ∨
            ∃ xs g, pathB tasks tid xs g = true ∧ g ∈ st.recStack) →
          (dfsRun tasks fuel (DfsCall.go tid path) st).2 = true)))
    ∧ (∀ (st : DfsState) (tid : String) (path : List String)
        (ds : List TaskDependency),
      st.recStack = tid :: path.reverse →
      chainToB tasks path tid = true →
      (∀ d, d ∈ ds → (tasks.map Task.id).contains d.taskId = true →
        edgeB tasks tid d.taskId = true) →
      StInv tasks st →
      1 + phiOf tasks st + ds.length ≤ fuel →
      (((dfsRun tasks fuel (DfsCall.deps tid path ds) st).2 = false →
          StInv tasks (dfsRun tasks fuel (DfsCall.deps tid path ds) st).1
          ∧ (∀ d, d ∈ ds → (tasks.map Task.id).contains d.taskId = true →
            d.taskId ∈ (dfsRun tasks fuel (DfsCall.deps tid path ds) st).1.visited
            ∧ d.taskId ∉ st.recStack))
        ∧ ((∃ d, d ∈ ds ∧ (tasks.map Task.id).contains d.taskId = true ∧
            (d.taskId ∈ st.recStack ∨
              ∃ xs g, pathB tasks d.taskId xs g = true ∧ g ∈ st.recStack)) →
          (dfsRun tasks fuel (DfsCall.deps tid path ds) st).2 = true))) := by
  intro fuel
  induction fuel with
  | zero =>
    constructor
    · intro st tid path _ _ _ hfuel
      exact absurd hfuel (by omega)
    · intro st tid path ds _ _ _ _ hfuel
      exact absurd hfuel (by omega)
  | succ fuel ih =>
    obtain ⟨ihgo, ihdeps⟩ := ih
    constructor
    · intro st tid path hrs hchain hinv hfuel
      cases h1 : st.recStack.contains tid with
      | true =>
        rw [dfsRun_go_hit tasks fuel st tid path h1]
        exact ⟨fun h => by simp at h, fun _ => rfl⟩
      | false =>
        have h1m : tid ∉ st.recStack := scontains_false_iff.mp h1
        cases h2 : st.visited.contains tid with
        | true =>
          rw [dfsRun_go_vis tasks fuel st tid path h1 h2]
          have hblack : blackAt st tid := ⟨scontains_iff.mp h2, h1m⟩
          refine ⟨fun _ => ⟨hinv, scontains_iff.mp h2, h1m⟩, ?_⟩
          rintro (hmem | ⟨xs, g, hp, hg⟩)
          · exact absurd hmem h1m
          · obtain ⟨hgb, _⟩ := black_chain tasks st hinv.bs xs tid g hp hblack
            exact absurd hg hgb.2
        | false =>
          have h2m : tid ∉ st.visited := scontains_false_iff.mp h2
          cases hf : tasks.find? (fun t => t.id == tid) with
          | none =>
            rw [dfsRun_go_white_none tasks fuel st tid path h1 h2 hf]
            refine ⟨fun _ => ⟨?_, List.mem_cons_self tid st.visited, h1m⟩, ?_⟩
            · constructor
              · intro v u hv he
                by_cases hvt : v = tid
                · subst hvt
                  rw [edgeB_none tasks v u hf] at he
                  exact absurd he (by simp)
                · have hvb : blackAt st v := by
                    obtain ⟨hv1, hv2⟩ := hv
                    rcases List.mem_cons.mp hv1 with heq | hv1'
                    · exact absurd heq hvt
                    · exact ⟨hv1', hv2⟩
                  obtain ⟨hu1, hu2⟩ := hinv.bs v u hvb he
                  exact ⟨List.mem_cons_of_mem _ hu1, hu2⟩
              · intro a xs hp hall
                by_cases htid : tid ∈ a :: xs
                · obtain ⟨ys, hyc⟩ := pathB_rotate tasks a tid xs hp htid
                  obtain ⟨w, hw, _⟩ := pathB_first_edge tasks tid tid ys hyc
                  rw [edgeB_none tasks tid w hf] at hw
                  exact absurd hw (by simp)
                · refine hinv.ncb a xs hp ?_
                  intro v hv
                  obtain ⟨hv1, hv2⟩ := hall v hv
                  rcases List.mem_cons.mp hv1 with heq | hv1'
                  · exact absurd (heq ▸ hv) htid
                  · exact ⟨hv1', hv2⟩
            · rintro (hmem | ⟨xs, g, hp, hg⟩)
              · exact absurd hmem h1m
              · obtain ⟨w, hw, _⟩ := pathB_first_edge tasks tid g xs hp
                rw [edgeB_none tasks tid w hf] at hw
                exact absurd hw (by simp)
          | some task =>
            rw [dfsRun_go_white_some tasks fuel st tid path task h1 h2 hf]
            have hedges : ∀ d, d ∈ task.dependencies →
                (tasks.map Task.id).contains d.taskId = true →
                edgeB tasks tid d.taskId = true := by
              intro d hd hcont
              unfold edgeB
              rw [hf]
              simp only [Bool.and_eq_true]
              exact ⟨List.any_eq_true.mpr ⟨d, hd, by simp⟩, hcont⟩
            have hci1 : (({ st with
                visited := tid :: st.visited
                recStack := tid :: st.recStack } : DfsState)).recStack
                = tid :: path.reverse := by
              show tid :: st.recStack = tid :: path.reverse
              rw [hrs]
            have hinv1 := stInv_push tasks st tid h2m hinv
            have hphi : 1 + phiOf tasks { st with
                visited := tid :: st.visited
                recStack := tid :: st.recStack }
                + task.dependencies.length ≤ fuel := by
              have hfd := phiV_found tasks tid task hf st.visited h2
              have heq1 : phiOf tasks st = phiV tasks st.visited := rfl
              have heq2 : phiOf tasks { st with
                  visited := tid :: st.visited
                  recStack := tid :: st.recStack }
                  = phiV tasks (tid :: st.visited) := rfl
              rw [heq2]
              rw [heq1] at hfuel
              omega
            have hin := ihdeps
              { st with
                visited := tid :: st.visited
                recStack := tid :: st.recStack }
              tid path task.dependencies hci1 hchain hedges hinv1 hphi
            have hp1 := (dfsRun_sound tasks fuel).2
              { st with
                visited := tid :: st.visited
                recStack := tid :: st.recStack }
              tid path task.dependencies hci1 hchain hedges
            rcases hr : dfsRun tasks fuel
              (DfsCall.deps tid path task.dependencies)
              { st with
                visited := tid :: st.visited
                recStack := tid :: st.recStack } with ⟨st2, b⟩
            rw [hr] at hin hp1
            cases b with
            | true =>
              exact ⟨fun h => by simp at h, fun _ => rfl⟩
            | false =>
              obtain ⟨hinv2, hsuccd⟩ := hin.1 rfl
              obtain ⟨hrec2, hvis2⟩ := hp1.2 rfl
              have hrec2' : st2.recStack = tid :: st.recStack := hrec2
              have hsucc : ∀ u, edgeB tasks tid u = true →
                  u ∈ st2.visited ∧ u ∉ tid :: st.recStack := by
                intro u he
                obtain ⟨d, hd, hdu, hcont⟩ := edgeB_elim tasks tid u task hf he
                have hdd := hsuccd d hd (hdu ▸ hcont)
                rw [hdu] at hdd
                have hnr : u ∉ tid :: st.recStack := hdd.2
                exact ⟨hdd.1, hnr⟩
              refine ⟨fun _ => ⟨?_, ?_, h1m⟩, ?_⟩
              · -- StInv of the blackened state
                have hbl3 : ∀ v, blackAt
                    ({ st2 with recStack := st2.recStack.erase tid }) v
                    ↔ (v ∈ st2.visited ∧ v ∉ st.recStack) := by
                  intro v
                  unfold blackAt
                  have : st2.recStack.erase tid = st.recStack := by
                    rw [hrec2']
                    exact List.erase_cons_head tid st.recStack
                  rw [this]
                have hbl2 : ∀ v, blackAt st2 v
                    ↔ (v ∈ st2.visited ∧ v ∉ tid :: st.recStack) := by
                  intro v
                  unfold blackAt
                  rw [hrec2']
                constructor
                · intro v u hv he
                  rw [hbl3] at hv ⊢
                  by_cases hvt : v = tid
                  · subst hvt
                    obtain ⟨hu1, hu2⟩ := hsucc u he
                    exact ⟨hu1, fun hm => hu2 (List.mem_cons_of_mem _ hm)⟩
                  · have hvb2 : blackAt st2 v := by
                      rw [hbl2]
                      exact ⟨hv.1, fun hm => (List.mem_cons.mp hm).elim hvt hv.2⟩
                    have hub2 := hinv2.bs v u hvb2 he
                    rw [hbl2] at hub2
                    exact ⟨hub2.1, fun hm => hub2.2 (List.mem_cons_of_mem _ hm)⟩
                · intro a xs hp hall
                  by_cases htid : tid ∈ a :: xs
                  · obtain ⟨ys, hyc⟩ := pathB_rotate tasks a tid xs hp htid
                    obtain ⟨w, hw, hrest⟩ := pathB_first_edge tasks tid tid ys hyc
                    obtain ⟨hw1, hw2⟩ := hsucc w hw
                    rcases hrest with ⟨heqg, _⟩ | ⟨ws, hys, hp'⟩
                    · subst heqg
                      exact hw2 (List.mem_cons_self _ _)
                    · have hwb2 : blackAt st2 w := by
                        rw [hbl2]
                        exact ⟨hw1, hw2⟩
                      obtain ⟨htb, _⟩ :=
                        black_chain tasks st2 hinv2.bs ws w tid hp' hwb2
                      rw [hbl2] at htb
                      exact htb.2 (List.mem_cons_self _ _)
                  · refine hinv2.ncb a xs hp ?_
                    intro v hv
                    have hvb3 := hall v hv
                    rw [hbl3] at hvb3
                    rw [hbl2]
                    exact ⟨hvb3.1, fun hm => (List.mem_cons.mp hm).elim
                      (fun heq => htid (heq ▸ hv)) hvb3.2⟩
              · show tid ∈ st2.visited
                exact hvis2 tid (List.mem_cons_self _ _)
              · rintro (hmem | ⟨xs, g, hp, hg⟩)
                · exact absurd hmem h1m
                · obtain ⟨w, hw, hrest⟩ := pathB_first_edge tasks tid g xs hp
                  obtain ⟨d, hd, hdu, hcont⟩ := edgeB_elim tasks tid w task hf hw
                  have hwit : ∃ d', d' ∈ task.dependencies
                      ∧ (tasks.map Task.id).contains d'.taskId = true
                      ∧ (d'.taskId ∈ ({ st with
                            visited := tid :: st.visited
                            recStack := tid :: st.recStack } : DfsState).recStack ∨
                        ∃ xs' g', pathB tasks d'.taskId xs' g' = true
                          ∧ g' ∈ ({ st with
                              visited := tid :: st.visited
                              recStack := tid :: st.recStack } : DfsState).recStack) := by
                    refine ⟨d, hd, by rw [hdu]; exact hcont, ?_⟩
                    rcases hrest with ⟨heqg, _⟩ | ⟨ws, hys, hp'⟩
                    · left
                      show d.taskId ∈ tid :: st.recStack
                      rw [hdu, heqg]
                      exact List.mem_cons_of_mem _ hg
                    · right
                      refine ⟨ws, g, by rw [hdu]; exact hp', ?_⟩
                      show g ∈ tid :: st.recStack
                      exact List.mem_cons_of_mem _ hg
                  exact absurd (hin.2 hwit) (by simp)
    · intro st tid path ds hrs hchain hedges hinv hfuel
      cases ds with
      | nil =>
        rw [dfsRun_deps_nil]
        refine ⟨fun _ => ⟨hinv, fun d hd => absurd hd (List.not_mem_nil d)⟩, ?_⟩
        rintro ⟨d, hd, _, _⟩
        exact absurd hd (List.not_mem_nil d)
      | cons d rest =>
        have hfuel' : 1 + phiOf tasks st + rest.length ≤ fuel := by
          simp only [List.length_cons] at hfuel
          omega
        cases hc : (tasks.map Task.id).contains d.taskId with
        | false =>
          rw [dfsRun_deps_cons_skip tasks fuel st tid path d rest hc]
          have hnext := ihdeps st tid path rest hrs hchain
            (fun d' hd' => hedges d' (List.mem_cons_of_mem _ hd')) hinv hfuel'
          refine ⟨fun hfl => ?_, fun hwit => ?_⟩
          · obtain ⟨hi, hfacts⟩ := hnext.1 hfl
            refine ⟨hi, ?_⟩
            intro d' hd' hcont'
            rcases List.mem_cons.mp hd' with heq | hd''
            · subst heq
              exact absurd hcont' (by rw [hc]; simp)
            · exact hfacts d' hd'' hcont'
          · obtain ⟨d', hd', hcont', hreach'⟩ := hwit
            rcases List.mem_cons.mp hd' with heq | hd''
            · subst heq
              exact absurd hcont' (by rw [hc]; simp)
            · exact hnext.2 ⟨d', hd'', hcont', hreach'⟩
        | true =>
          rw [dfsRun_deps_cons_go tasks fuel st tid path d rest hc]
          have hedge := hedges d (List.mem_cons_self d rest) hc
          have hcigo : st.recStack = (path ++ [tid]).reverse := by
            rw [hrs]; simp
          have hchgo : chainToB tasks (path ++ [tid]) d.taskId = true := by
            rw [chainToB_snoc, hchain, hedge]; rfl
          have hgoC := ihgo st d.taskId (path ++ [tid]) hcigo hchgo hinv (by omega)
          have hgoS := (dfsRun_sound tasks fuel).1 st d.taskId (path ++ [tid])
            hcigo hchgo
          rcases hr : dfsRun tasks fuel (DfsCall.go d.taskId (path ++ [tid])) st
            with ⟨st2, b⟩
          rw [hr] at hgoC hgoS
          cases b with
          | true =>
            exact ⟨fun h => by simp at h, fun _ => rfl⟩
          | false =>
            obtain ⟨hinv2, hdv, hdnr⟩ := hgoC.1 rfl
            obtain ⟨hrec1, hvis1⟩ := hgoS.2 rfl
            have hrec1' : st2.recStack = st.recStack := hrec1
            have hdv' : d.taskId ∈ st2.visited := hdv
            have hphi2 : 1 + phiOf tasks st2 + rest.length ≤ fuel := by
              have hmono := phiV_mono tasks st.visited st2.visited hvis1
              have heq1 : phiOf tasks st = phiV tasks st.visited := rfl
              have heq2 : phiOf tasks st2 = phiV tasks st2.visited := rfl
              rw [heq2]
              rw [heq1] at hfuel'
              omega
            have hnext := ihdeps st2 tid path rest (by rw [hrec1', hrs]) hchain
              (fun d' hd' => hedges d' (List.mem_cons_of_mem _ hd')) hinv2 hphi2
            have hnextS := (dfsRun_sound tasks fuel).2 st2 tid path rest
              (by rw [hrec1', hrs]) hchain
              (fun d' hd' => hedges d' (List.mem_cons_of_mem _ hd'))
            refine ⟨fun hfl => ?_, fun hwit => ?_⟩
            · obtain ⟨hi, hfacts⟩ := hnext.1 hfl
              obtain ⟨_, hvmono2⟩ := hnextS.2 hfl
              refine ⟨hi, ?_⟩
              intro d' hd' hcont'
              rcases List.mem_cons.mp hd' with heq | hd''
              · subst heq
                exact ⟨hvmono2 d'.taskId hdv', hdnr⟩
              · have hfd' := hfacts d' hd'' hcont'
                exact ⟨hfd'.1, hrec1' ▸ hfd'.2⟩
            · obtain ⟨d', hd', hcont', hreach'⟩ := hwit
              rcases List.mem_cons.mp hd' with heq | hd''
              · subst heq
                exact absurd (hgoC.2 hreach') (by simp)
              · refine hnext.2 ⟨d', hd'', hcont', ?_⟩
                rcases hreach' with hm | ⟨xs', g', hp', hg'⟩
                · exact Or.inl (by rw [hrec1']; exact hm)
                · exact Or.inr ⟨xs', g', hp', by rw [hrec1']; exact hg'⟩

theorem dfsOuter_skip (tasks : List Task) (fuel : Nat) (t : Task)
    (ts : List Task) (st : DfsState) (found : Bool)
    (hv : st.visited.contains t.id = true) :
    dfsOuter tasks fuel (t :: ts) st found = dfsOuter tasks fuel ts st found := by
  simp only [dfsOuter]
  rw [if_pos hv]

theorem dfsOuter_go (tasks : List Task) (fuel : Nat) (t : Task)
    (ts : List Task) (st st2 : DfsState) (found b : Bool)
    (hv : st.visited.contains t.id = false)
    (hr : dfsRun tasks fuel (DfsCall.go t.id []) st = (st2, b)) :
    dfsOuter tasks fuel (t :: ts) st found
      = dfsOuter tasks fuel ts st2 (found || b) := by
  simp only [dfsOuter]
  rw [if_neg (by rw [hv]; simp), hr]

theorem dfsOuter_found_true (tasks : List Task) (fuel : Nat) :
    ∀ (ts : List Task) (st : DfsState),
    (dfsOuter tasks fuel ts st true).2 = true := by
  intro ts
  induction ts with
  | nil => intro st; rfl
  | cons t ts ih =>
    intro st
    cases hv : st.visited.contains t.id with
    | true =>
      rw [dfsOuter_skip tasks fuel t ts st true hv]
      exact ih st
    | false =>
      rcases hr : dfsRun tasks fuel (DfsCall.go t.id []) st with ⟨st2, b⟩
      rw [dfsOuter_go tasks fuel t ts st st2 true b hv hr]
      exact ih st2

/-- The outer loop's cycles/flag bridge: the final flag is true exactly when
it started true or some root appended a cycle. -/
theorem dfsOuter_cycles (tasks : List Task) (fuel : Nat) :
    ∀ (ts : List Task) (st : DfsState) (found : Bool),
    ∃ ext, (dfsOuter tasks fuel ts st found).1.cycles = st.cycles ++ ext
      ∧ ((dfsOuter tasks fuel ts st found).2 = false → found = false ∧ ext = [])
      ∧ ((dfsOuter tasks fuel ts st found).2 = true → found = true ∨ ext ≠ []) := by
  intro ts
  induction ts with
  | nil =>
    intro st found
    refine ⟨[], by simp [dfsOuter], fun h => ⟨h, rfl⟩, fun h => Or.inl h⟩
  | cons t ts ih =>
    intro st found
    cases hv : st.visited.contains t.id with
    | true =>
      rw [dfsOuter_skip tasks fuel t ts st found hv]
      exact ih st found
    | false =>
      rcases hr : dfsRun tasks fuel (DfsCall.go t.id []) st with ⟨st2, b⟩
      rw [dfsOuter_go tasks fuel t ts st st2 found b hv hr]
      obtain ⟨ext1, hcyc1, hfalse1, htrue1⟩ :=
        dfsRun_cycles tasks fuel (DfsCall.go t.id []) st
      rw [hr] at hcyc1 hfalse1 htrue1
      obtain ⟨ext2, hcyc2, hfalse2, htrue2⟩ := ih st2 (found || b)
      refine ⟨ext1 ++ ext2, ?_, ?_, ?_⟩
      · rw [hcyc2, hcyc1, List.append_assoc]
      · intro h
        obtain ⟨hfb, he2⟩ := hfalse2 h
        have hfound : found = false := by
          cases found
          · rfl
          · simp at hfb
        have hb : b = false := by
          cases b
          · rfl
          · rw [hfound] at hfb; simp at hfb
        rw [hfalse1 hb, he2]
        exact ⟨hfound, rfl⟩
      · intro h
        rcases htrue2 h with hfb | he2
        · cases hfound : found with
          | true => exact Or.inl rfl
          | false =>
            right
            have hb : b = true := by rw [hfound] at hfb; simpa using hfb
            intro hemp
            rw [List.append_eq_nil] at hemp
            exact htrue1 hb hemp.1
        · right
          intro hemp
          rw [List.append_eq_nil] at hemp
          exact he2 hemp.2

/-- The outer loop is sound: a true result on a clean stack means a real
cycle (or the flag was already set). -/
theorem dfsOuter_sound (tasks : List Task) (fuel : Nat) :
    ∀ (ts : List Task) (st : DfsState) (found : Bool),
    st.recStack = [] →
    (dfsOuter tasks fuel ts st found).2 = true →
    found = true ∨ HasDepCycle tasks := by
  intro ts
  induction ts with
  | nil =>
    intro st found _ h
    exact Or.inl h
  | cons t ts ih =>
    intro st found hrs h
    cases hv : st.visited.contains t.id with
    | true =>
      rw [dfsOuter_skip tasks fuel t ts st found hv] at h
      exact ih st found hrs h
    | false =>
      rcases hr : dfsRun tasks fuel (DfsCall.go t.id []) st with ⟨st2, b⟩
      rw [dfsOuter_go tasks fuel t ts st st2 found b hv hr] at h
      have hS := (dfsRun_sound tasks fuel).1 st t.id []
        (by rw [hrs]; rfl) rfl
      rw [hr] at hS
      cases b with
      | true => exact Or.inr (hS.1 rfl)
      | false =>
        obtain ⟨hrec, _⟩ := hS.2 rfl
        have h2 : st2.recStack = [] := by
          rw [(hrec : st2.recStack = st.recStack), hrs]
        rcases ih st2 (found || false) h2 h with hf | hc
        · exact Or.inl (by simpa using hf)
        · exact Or.inr hc

/-- A clean (false) outer run preserves the invariant and visits every
listed task. -/
theorem dfsOuter_clean (tasks : List Task) (fuel : Nat) :
    ∀ (ts : List Task) (st : DfsState) (found : Bool),
    st.recStack = [] →
    StInv tasks st →
    1 + phiOf tasks st ≤ fuel →
    (dfsOuter tasks fuel ts st found).2 = false →
    StInv tasks (dfsOuter tasks fuel ts st found).1
    ∧ (dfsOuter tasks fuel ts st found).1.recStack = []
    ∧ (∀ t, t ∈ ts → t.id ∈ (dfsOuter tasks fuel ts st found).1.visited)
    ∧ (∀ x, x ∈ st.visited → x ∈ (dfsOuter tasks fuel ts st found).1.visited) := by
  intro ts
  induction ts with
  | nil =>
    intro st found hrs hinv _ _
    exact ⟨hinv, hrs, fun t ht => absurd ht (List.not_mem_nil t), fun x hx => hx⟩
  | cons t ts ih =>
    intro st found hrs hinv hfl hfalse
    cases hv : st.visited.contains t.id with
    | true =>
      rw [dfsOuter_skip tasks fuel t ts st found hv] at hfalse ⊢
      obtain ⟨hi, hr2, hall, hmono⟩ := ih st found hrs hinv hfl hfalse
      refine ⟨hi, hr2, ?_, hmono⟩
      intro u hu
      rcases List.mem_cons.mp hu with heq | hu'
      · subst heq
        exact hmono u.id (scontains_iff.mp hv)
      · exact hall u hu'
    | false =>
      rcases hr : dfsRun tasks fuel (DfsCall.go t.id []) st with ⟨st2, b⟩
      rw [dfsOuter_go tasks fuel t ts st st2 found b hv hr] at hfalse ⊢
      have hC := (dfsRun_complete tasks fuel).1 st t.id []
        (by rw [hrs]; rfl) rfl hinv hfl
      have hS := (dfsRun_sound tasks fuel).1 st t.id []
        (by rw [hrs]; rfl) rfl
      rw [hr] at hC hS
      cases b with
      | true =>
        rw [show (found || true) = true from by simp] at hfalse
        rw [dfsOuter_found_true tasks fuel ts st2] at hfalse
        exact absurd hfalse (by simp)
      | false =>
        obtain ⟨hinv2, htv, _⟩ := hC.1 rfl
        obtain ⟨hrec, hvis⟩ := hS.2 rfl
        have h2 : st2.recStack = [] := by
          rw [(hrec : st2.recStack = st.recStack), hrs]
        have hfl2 : 1 + phiOf tasks st2 ≤ fuel := by
          have hmono := phiV_mono tasks st.visited st2.visited hvis
          have heq1 : phiOf tasks st = phiV tasks st.visited := rfl
          have heq2 : phiOf tasks st2 = phiV tasks st2.visited := rfl
          rw [heq2]
          rw [heq1] at hfl
          omega
        obtain ⟨hi, hr2, hall, hmono2⟩ := ih st2 (found || false) h2 hinv2 hfl2 hfalse
        refine ⟨hi, hr2, ?_, ?_⟩
        · intro u hu
          rcases List.mem_cons.mp hu with heq | hu'
          · subst heq
            exact hmono2 u.id htv
          · exact hall u hu'
        · intro x hx
          exact hmono2 x (hvis x hx)

theorem edgeB_src (tasks : List Task) (a b : String)
    (h : edgeB tasks a b = true) : ∃ t, t ∈ tasks ∧ t.id = a := by
  unfold edgeB at h
  rcases hf : tasks.find? (fun t => t.id == a) with _ | t
  · rw [hf] at h
    simp at h
  · have hp := List.find?_some hf
    have hp2 : (t.id == a) = true := hp
    exact ⟨t, List.mem_of_find?_eq_some hf, eq_of_beq hp2⟩

theorem pathB_sources (tasks : List Task) (xs : List String) :
    ∀ (a b : String), pathB tasks a xs b = true →
    ∀ v, v ∈ a :: xs → ∃ t, t ∈ tasks ∧ t.id = v := by
  induction xs with
  | nil =>
    intro a b h v hv
    rcases List.mem_cons.mp hv with heq | hv'
    · subst heq
      exact edgeB_src tasks v b h
    · exact absurd hv' (List.not_mem_nil v)
  | cons x xs' ih =>
    intro a b h v hv
    simp only [pathB, Bool.and_eq_true] at h
    rcases List.mem_cons.mp hv with heq | hv'
    · subst heq
      exact edgeB_src tasks v x h.1
    · exact ih x b h.2 v hv'

theorem stInv_init (tasks : List Task) : StInv tasks ⟨[], [], []⟩ := by
  constructor
  · intro v u hv _
    exact absurd hv.1 (List.not_mem_nil v)
  · intro a xs _ hall
    exact absurd (hall a (List.mem_cons_self a xs)).1 (List.not_mem_nil a)

theorem phiOf_init (tasks : List Task) :
    phiOf tasks ⟨[], [], []⟩
      = (tasks.map (fun t => 1 + t.dependencies.length)).sum := by
  unfold phiOf
  have hfl : tasks.filter
      (fun t => !((⟨[], [], []⟩ : DfsState).visited.contains t.id)) = tasks :=
    List.filter_eq_self.mpr (fun t _ => by simp)
  rw [hfl]

theorem foldl_if_append (c : TaskDependency → Bool) (f : TaskDependency → String) :
    ∀ (ds : List TaskDependency) (acc : List String),
    ds.foldl (fun acc2 d => if c d then acc2 else acc2 ++ [f d]) acc
      = acc ++ (ds.filter (fun d => !c d)).map f := by
  intro ds
  induction ds with
  | nil => intro acc; simp
  | cons d ds ih =>
    intro acc
    simp only [List.foldl_cons]
    by_cases hc : c d = true
    · rw [if_pos hc, ih acc, List.filter_cons]
      simp [hc]
    · have hcf : c d = false := by rw [Bool.eq_false_iff]; exact hc
      rw [if_neg hc, ih (acc ++ [f d]), List.filter_cons]
      simp [hcf]

theorem invalidDepsOf_eq (tasks : List Task) :
    invalidDepsOf tasks
      = tasks.flatMap (fun t =>
          (t.dependencies.filter
            (fun d => !((tasks.map Task.id).contains d.taskId))).map
            (fun d => t.id ++ " -> " ++ d.taskId)) := by
  unfold invalidDepsOf
  have houter : ∀ (ts : List Task) (acc : List String),
      ts.foldl (fun acc t => t.dependencies.foldl (fun acc2 d =>
        if (tasks.map Task.id).contains d.taskId then acc2
        else acc2 ++ [t.id ++ " -> " ++ d.taskId]) acc) acc
      = acc ++ ts.flatMap (fun t =>
          (t.dependencies.filter
            (fun d => !((tasks.map Task.id).contains d.taskId))).map
            (fun d => t.id ++ " -> " ++ d.taskId)) := by
    intro ts
    induction ts with
    | nil => intro acc; simp
    | cons t ts ih =>
      intro acc
      simp only [List.foldl_cons]
      rw [foldl_if_append _ _ t.dependencies acc, ih]
      rw [List.cons_bind, List.append_assoc]
  exact (houter tasks []).trans (by simp)

/-- C5: validateTaskDependencies reports at least one cycle exactly when the
dependency edges restricted to the orchestration contain a directed cycle;
every dependency edge whose target id is outside the orchestration is
flagged (the invalid-dependencies list is exactly the flat list of such
edges, independent of cycle detection); and isValid is false whenever a
cycle is reported or an invalid dependency exists. -/
theorem C5_validateDependencies_correct (store : List Task) (oid : String) :
    ((validateTaskDependencies store oid).cycles ≠ [] ↔
      HasDepCycle (queryTasks store { orchestrationId := some oid }))
    ∧ (validateTaskDependencies store oid).invalidDependencies
        = (queryTasks store { orchestrationId := some oid }).flatMap (fun t =>
            (t.dependencies.filter (fun d =>
              !(((queryTasks store { orchestrationId := some oid }).map
                  Task.id).contains d.taskId))).map
              (fun d => t.id ++ " -> " ++ d.taskId))
    ∧ ((validateTaskDependencies store oid).cycles ≠ [] →
        (validateTaskDependencies store oid).isValid = false)
    ∧ ((validateTaskDependencies store oid).invalidDependencies ≠ [] →
        (validateTaskDependencies store oid).isValid = false) := by
  set T := queryTasks store { orchestrationId := some oid } with hT
  set r := dfsOuter T (dfsFuelOf T) T (⟨[], [], []⟩ : DfsState) false with hrdef
  have hc : (validateTaskDependencies store oid).cycles = r.1.cycles := rfl
  have hvld : (validateTaskDependencies store oid).isValid
      = ((invalidDepsOf T).isEmpty && !r.2) := rfl
  have hi : (validateTaskDependencies store oid).invalidDependencies
      = invalidDepsOf T := rfl
  have hfuelOK : 1 + phiOf T (⟨[], [], []⟩ : DfsState) ≤ dfsFuelOf T := by
    rw [phiOf_init]
    unfold dfsFuelOf
    omega
  have hinit : StInv T ⟨[], [], []⟩ := stInv_init T
  obtain ⟨ext, hext, hfalse, htrue⟩ :=
    dfsOuter_cycles T (dfsFuelOf T) T ⟨[], [], []⟩ false
  rw [← hrdef] at hext hfalse htrue
  simp only [show (⟨[], [], []⟩ : DfsState).cycles = [] from rfl,
    List.nil_append] at hext
  have hbridge : r.1.cycles ≠ [] ↔ r.2 = true := by
    constructor
    · intro hne
      cases hr2 : r.2 with
      | true => rfl
      | false =>
        obtain ⟨_, he⟩ := hfalse hr2
        rw [hext, he] at hne
        exact absurd rfl hne
    · intro hr2
      rcases htrue hr2 with hf | hne
      · exact absurd hf (by simp)
      · rw [hext]; exact hne
  have hforward : r.2 = true → HasDepCycle T := by
    intro hr2
    have hs := dfsOuter_sound T (dfsFuelOf T) T ⟨[], [], []⟩ false rfl
    rw [← hrdef] at hs
    rcases hs hr2 with hf | hcy
    · exact absurd hf (by simp)
    · exact hcy
  have hbackward : HasDepCycle T → r.2 = true := by
    intro hcyc
    cases hr2 : r.2 with
    | true => rfl
    | false =>
      exfalso
      have hclean := dfsOuter_clean T (dfsFuelOf T) T ⟨[], [], []⟩ false
        rfl hinit hfuelOK
      rw [← hrdef] at hclean
      obtain ⟨hi2, hr2', hall, _⟩ := hclean hr2
      obtain ⟨a, xs, hp⟩ := hcyc
      refine hi2.ncb a xs hp ?_
      intro v hv
      obtain ⟨t, ht, htid⟩ := pathB_sources T xs a a hp v hv
      refine ⟨?_, ?_⟩
      · rw [← htid]
        exact hall t ht
      · rw [hr2']
        exact List.not_mem_nil v
  refine ⟨?_, ?_, ?_, ?_⟩
  · rw [hc]
    exact hbridge.trans ⟨hforward, hbackward⟩
  · rw [hi]
    exact invalidDepsOf_eq T
  · intro hne
    rw [hc] at hne
    rw [hvld, hbridge.mp hne]
    simp
  · intro hne
    rw [hi] at hne
    rw [hvld]
    have hie : (invalidDepsOf T).isEmpty = false := by
      cases hl : invalidDepsOf T with
      | nil => exact absurd hl hne
      | cons x xs => rfl
    rw [hie]
    simp

/-- Two mutually dependent tasks of one orchestration. -/
def t5a : Task := mkTask "X" TaskStatus.not_started TaskPriority.medium "o5"
  [{ taskId := "Y", type := DependencyType.finish_to_start }] 1

def t5b : Task := mkTask "Y" TaskStatus.not_started TaskPriority.medium "o5"
  [{ taskId := "X", type := DependencyType.finish_to_start }] 2

def store5 : List Task := [t5a, t5b]

/-- A task depending on an id that does not exist in its orchestration. -/
def t5c : Task := mkTask "Z" TaskStatus.not_started TaskPriority.medium "o5"
  [{ taskId := "W", type := DependencyType.finish_to_start }] 1

def store5b : List Task := [t5c]

/-- C5 witness: the theorem at the two-task cycle (cycles reported,
isValid false, a real cycle exists) and at the dangling dependency
(flagged, isValid false). -/
theorem C5_validateDependencies_correct_witness :
    (validateTaskDependencies store5 "o5").cycles ≠ []
    ∧ (validateTaskDependencies store5 "o5").isValid = false
    ∧ HasDepCycle (queryTasks store5 { orchestrationId := some "o5" })
    ∧ (validateTaskDependencies store5b "o5").invalidDependencies ≠ []
    ∧ (validateTaskDependencies store5b "o5").isValid = false := by
  have h := C5_validateDependencies_correct store5 "o5"
  have h2 := C5_validateDependencies_correct store5b "o5"
  have hne : (validateTaskDependencies store5 "o5").cycles ≠ [] := by decide
  have hne2 : (validateTaskDependencies store5b "o5").invalidDependencies ≠ [] := by
    decide
  exact ⟨hne, h.2.2.1 hne, h.1.mp hne, hne2, h2.2.2.2 hne2⟩

/-! ## C8 — TaskManifest.getTaskExecutionOrder (Kahn's algorithm)

JS Maps are embedded as assoc lists in insertion order (set of an existing
key updates in place, a fresh key appends; iteration follows the list).
The while loop is structurally recursive on fuel; the theorems supply the
adequate `kahnFuelOf`. -/

/-- JS `Map.set`. -/
def setAssocA {α : Type} : List (String × α) → String → α → List (String × α)
  | [], k, v => [(k, v)]
  | p :: ps, k, v => if p.1 == k then (k, v) :: ps else p :: setAssocA ps k v

/-- JS `Map.get`. -/
def getAssocA {α : Type} (m : List (String × α)) (k : String) : Option α :=
  (m.find? (fun p => p.1 == k)).map (fun p => p.2)

/-- The `for (const task of tasks) { dependencyMap.set(task.id, []);
inDegree.set(task.id, 0) }` initialization. -/
def initMaps (tasks : List Task) :
    (List (String × List String)) × (List (String × Int)) :=
  tasks.foldl (fun acc t =>
    (setAssocA acc.1 t.id [], setAssocA acc.2 t.id 0)) ([], [])

/-- The graph-building double loop: for each dependency whose target id is a
key of the dependency map, push the dependent task's id and bump its
in-degree. -/
def buildGraph (tasks : List Task) :
    (List (String × List String)) × (List (String × Int)) :=
  tasks.foldl (fun acc t =>
    t.dependencies.foldl (fun acc2 d =>
      match getAssocA acc2.1 d.taskId with
      | some lst =>
        (setAssocA acc2.1 d.taskId (lst ++ [t.id]),
         setAssocA acc2.2 t.id ((getAssocA acc2.2 t.id).getD 0 + 1))
      | none => acc2) acc) (initMaps tasks)

/-- One dependent update of the while loop's inner `for`: decrement, and
enqueue on reaching exactly zero. -/
def kahnStep (acc : List (String × Int) × List String) (depId : String) :
    List (String × Int) × List String :=
  let newDegree := (getAssocA acc.1 depId).getD 0 - 1
  (setAssocA acc.1 depId newDegree,
    if newDegree == 0 then acc.2 ++ [depId] else acc.2)

/-- The `while (queue.length > 0)` loop: shift the head, append the found
task to the result, process its dependents. -/
def kahnLoop (tasks : List Task) (depMap : List (String × List String)) :
    Nat → List String → List (String × Int) → List Task → List Task
  | 0, _, _, result => result
  | Nat.succ _, [], _, result => result
  | Nat.succ fuel, cur :: queue, inDeg, result =>
    let result2 := match tasks.find? (fun t => t.id == cur) with
      | some t => result ++ [t]
      | none => result
    let r := ((getAssocA depMap cur).getD []).foldl kahnStep (inDeg, queue)
    kahnLoop tasks depMap fuel r.2 r.1 result2

/-- Adequate fuel: every loop iteration pops one queued id, and the total
number of enqueues is at most the number of tasks plus the number of
dependency edges. -/
def kahnFuelOf (tasks : List Task) : Nat :=
  1 + (tasks.map (fun t => 1 + t.dependencies.length)).sum

/-- TaskManifest.getTaskExecutionOrder (lines 435-490). -/
def getTaskExecutionOrder (store : List Task) (oid : String) : List Task :=
  let tasks := queryTasks store { orchestrationId := some oid }
  let g := buildGraph tasks
  let queue0 := (g.2.filter (fun p => p.2 == 0)).map (fun p => p.1)
  kahnLoop tasks g.1 (kahnFuelOf tasks) queue0 g.2 []

/-- The dependency edges with both endpoints in the orchestration, in build
order: `(prerequisite id, dependent task id)`. -/
def kahnEdges (tasks : List Task) : List (String × String) :=
  tasks.flatMap (fun t =>
    (t.dependencies.filter
      (fun d => (tasks.map Task.id).contains d.taskId)).map
      (fun d => (d.taskId, t.id)))

def outsOf (tasks : List Task) (a : String) : List String :=
  ((kahnEdges tasks).filter (fun e => e.1 == a)).map (fun e => e.2)

def indegE (tasks : List Task) (b : String) : Nat :=
  ((kahnEdges tasks).filter (fun e => e.2 == b)).length

/-- Edges into `b` whose source has already been popped. -/
def popCount (tasks : List Task) (R : List String) (b : String) : Nat :=
  ((kahnEdges tasks).filter (fun e => e.2 == b && R.contains e.1)).length

/-- Edges whose source has been popped (the fuel budget). -/
def usedEdges (tasks : List Task) (R : List String) : Nat :=
  ((kahnEdges tasks).filter (fun e => R.contains e.1)).length

/-- An edge of the restricted dependency graph, prerequisite to dependent. -/
def depEdge (tasks : List Task) (a b : String) : Bool :=
  (kahnEdges tasks).contains (a, b)

def depPath (tasks : List Task) : String → List String → String → Bool
  | a, [], b => depEdge tasks a b
  | a, x :: xs, b => depEdge tasks a x && depPath tasks x xs b

/-- The restricted dependency edges have no directed cycle. -/
def DepAcyclic (tasks : List Task) : Prop :=
  ¬ ∃ a xs, depPath tasks a xs a = true

/-- Edges contributed by a prefix of the task list (the contains check is
against the full orchestration's ids, as the dependency map's key set is). -/
def edgesOfL (tasks : List Task) (done : List Task) : List (String × String) :=
  done.flatMap (fun t =>
    (t.dependencies.filter
      (fun d => (tasks.map Task.id).contains d.taskId)).map
      (fun d => (d.taskId, t.id)))

theorem kahnEdges_eq_edgesOfL (tasks : List Task) :
    kahnEdges tasks = edgesOfL tasks tasks := rfl

theorem getAssocA_set_self {α : Type} (m : List (String × α)) (k : String)
    (v : α) : getAssocA (setAssocA m k v) k = some v := by
  induction m with
  | nil => simp [setAssocA, getAssocA]
  | cons p ps ih =>
    unfold setAssocA
    by_cases h : p.1 = k
    · simp [getAssocA, h]
    · simp only [getAssocA] at ih ⊢
      simp [h, List.find?_cons_of_neg, ih]

theorem getAssocA_set_other {α : Type} (m : List (String × α)) (k : String)
    (v : α) (k' : String) (h : k' ≠ k) :
    getAssocA (setAssocA m k v) k' = getAssocA m k' := by
  have hkk : ¬ k = k' := fun he => h he.symm
  induction m with
  | nil => simp [setAssocA, getAssocA, List.find?, beq_false_of_ne hkk]
  | cons p ps ih =>
    unfold setAssocA
    by_cases hp : p.1 = k
    · have hpk : ¬ p.1 = k' := by rw [hp]; exact hkk
      simp [getAssocA, hp, List.find?_cons_of_neg, hpk, beq_false_of_ne hkk]
    · simp only [getAssocA] at ih ⊢
      by_cases hk' : p.1 = k'
      · simp [hp, hk', h, List.find?_cons_of_pos]
      · simp [hp, hk', List.find?_cons_of_neg, ih]

theorem setAssocA_fresh {α : Type} (m : List (String × α)) (k : String)
    (v : α) (h : ∀ p, p ∈ m → p.1 ≠ k) : setAssocA m k v = m ++ [(k, v)] := by
  induction m with
  | nil => rfl
  | cons p ps ih =>
    unfold setAssocA
    rw [if_neg (by simp [h p (List.mem_cons_self p ps)])]
    rw [ih (fun q hq => h q (List.mem_cons_of_mem p hq))]
    rfl

theorem getAssocA_map_of_mem {α : Type} (tasks : List Task) (f : Task → α)
    (t : Task) (ht : t ∈ tasks) (hnodup : (tasks.map Task.id).Nodup) :
    getAssocA (tasks.map (fun u => (u.id, f u))) t.id = some (f t) := by
  induction tasks with
  | nil => exact absurd ht (List.not_mem_nil t)
  | cons u us ih =>
    simp only [List.map_cons] at hnodup ⊢
    have hnd := List.nodup_cons.mp hnodup
    rcases List.mem_cons.mp ht with heq | ht'
    · subst heq
      unfold getAssocA
      rw [List.find?_cons_of_pos _ (by simp)]
      rfl
    · have hne : u.id ≠ t.id := by
        intro he
        exact hnd.1 (he ▸ List.mem_map_of_mem Task.id ht')
      unfold getAssocA
      rw [List.find?_cons_of_neg _ (by simp [beq_false_of_ne hne])]
      exact ih ht' hnd.2

theorem getAssocA_map_of_not_mem {α : Type} (tasks : List Task) (f : Task → α)
    (b : String) (hb : b ∉ tasks.map Task.id) :
    getAssocA (tasks.map (fun u => (u.id, f u))) b = none := by
  unfold getAssocA
  rw [List.find?_eq_none.mpr]
  · rfl
  · intro p hp
    obtain ⟨u, hu, hup⟩ := List.mem_map.mp hp
    intro hbeq
    apply hb
    rw [← hup] at hbeq
    have : u.id = b := eq_of_beq hbeq
    exact this ▸ List.mem_map_of_mem Task.id hu

theorem setAssocA_map {α : Type} (tasks : List Task) (f : Task → α)
    (tk : Task) (htk : tk ∈ tasks) (hnodup : (tasks.map Task.id).Nodup)
    (v : α) :
    setAssocA (tasks.map (fun u => (u.id, f u))) tk.id v
      = tasks.map (fun u => (u.id, if u.id = tk.id then v else f u)) := by
  induction tasks with
  | nil => exact absurd htk (List.not_mem_nil tk)
  | cons u us ih =>
    simp only [List.map_cons] at hnodup ⊢
    have hnd := List.nodup_cons.mp hnodup
    unfold setAssocA
    rcases List.mem_cons.mp htk with heq | htk'
    · subst heq
      rw [if_pos (by simp)]
      rw [if_pos rfl]
      have hrest : us.map (fun u => (u.id, if u.id = tk.id then v else f u))
          = us.map (fun u => (u.id, f u)) := by
        apply List.map_congr_left
        intro w hw
        have hne : w.id ≠ tk.id := by
          intro he
          exact hnd.1 (he ▸ List.mem_map_of_mem Task.id hw)
        rw [if_neg hne]
      rw [hrest]
    · have hne : u.id ≠ tk.id := by
        intro he
        exact hnd.1 (he ▸ List.mem_map_of_mem Task.id htk')
      rw [if_neg (by simp [beq_false_of_ne hne])]
      rw [if_neg hne]
      rw [ih htk' hnd.2]

theorem initMaps_aux :
    ∀ (todo : List Task) (accD : List (String × List String))
      (accI : List (String × Int)),
    (∀ t, t ∈ todo → (∀ p, p ∈ accD → p.1 ≠ t.id)
      ∧ (∀ p, p ∈ accI → p.1 ≠ t.id)) →
    (todo.map Task.id).Nodup →
    todo.foldl (fun acc t => (setAssocA acc.1 t.id [], setAssocA acc.2 t.id 0))
      (accD, accI)
      = (accD ++ todo.map (fun t => (t.id, ([] : List String))),
         accI ++ todo.map (fun t => (t.id, (0 : Int)))) := by
  intro todo
  induction todo with
  | nil => intro accD accI _ _; simp
  | cons t ts ih =>
    intro accD accI hfresh hnodup
    simp only [List.map_cons] at hnodup
    have hnd := List.nodup_cons.mp hnodup
    simp only [List.foldl_cons]
    have hft := hfresh t (List.mem_cons_self t ts)
    rw [show (setAssocA accD t.id [], setAssocA accI t.id 0)
        = (accD ++ [(t.id, ([] : List String))], accI ++ [(t.id, (0 : Int))]) from by
      rw [setAssocA_fresh accD t.id [] hft.1, setAssocA_fresh accI t.id 0 hft.2]]
    rw [ih (accD ++ [(t.id, [])]) (accI ++ [(t.id, 0)]) ?_ hnd.2]
    · simp
    · intro u hu
      have hid : u.id ≠ t.id := by
        intro he
        exact hnd.1 (he ▸ List.mem_map_of_mem Task.id hu)
      constructor
      · intro p hp
        rcases List.mem_append.mp hp with hp1 | hp2
        · exact (hfresh u (List.mem_cons_of_mem t hu)).1 p hp1
        · rw [List.mem_singleton.mp hp2]
          exact fun he => hid he.symm
      · intro p hp
        rcases List.mem_append.mp hp with hp1 | hp2
        · exact (hfresh u (List.mem_cons_of_mem t hu)).2 p hp1
        · rw [List.mem_singleton.mp hp2]
          exact fun he => hid he.symm

theorem initMaps_eq (tasks : List Task)
    (hnodup : (tasks.map Task.id).Nodup) :
    initMaps tasks
      = (tasks.map (fun t => (t.id, ([] : List String))),
         tasks.map (fun t => (t.id, (0 : Int)))) := by
  unfold initMaps
  have h := initMaps_aux tasks [] []
    (fun t _ => ⟨fun p hp => absurd hp (List.not_mem_nil p),
      fun p hp => absurd hp (List.not_mem_nil p)⟩) hnodup
  simpa using h

theorem task_id_inj (tasks : List Task)
    (hnodup : (tasks.map Task.id).Nodup) (u v : Task)
    (hu : u ∈ tasks) (hv : v ∈ tasks) (h : u.id = v.id) : u = v :=
  List.inj_on_of_nodup_map hnodup hu hv h

theorem buildInner (tasks : List Task)
    (hnodup : (tasks.map Task.id).Nodup) (t : Task) (ht : t ∈ tasks) :
    ∀ (dds : List TaskDependency) (fd : Task → List String) (fi : Task → Int),
    dds.foldl (fun acc2 d =>
      match getAssocA acc2.1 d.taskId with
      | some lst =>
        (setAssocA acc2.1 d.taskId (lst ++ [t.id]),
         setAssocA acc2.2 t.id ((getAssocA acc2.2 t.id).getD 0 + 1))
      | none => acc2)
      (tasks.map (fun u => (u.id, fd u)), tasks.map (fun u => (u.id, fi u)))
    = (tasks.map (fun u => (u.id, fd u ++
        ((((dds.filter (fun d => (tasks.map Task.id).contains d.taskId)).map
          (fun d => (d.taskId, t.id))).filter (fun e => e.1 == u.id)).map
          (fun e => e.2)))),
       tasks.map (fun u => (u.id, if u.id = t.id
         then fi u + ((dds.filter (fun d =>
           (tasks.map Task.id).contains d.taskId)).length : Int)
         else fi u))) := by
  intro dds
  induction dds with
  | nil =>
    intro fd fi
    simp only [List.foldl_nil, List.filter_nil, List.map_nil, List.length_nil,
      List.append_nil, Nat.cast_zero, add_zero, ite_self]
  | cons d dds ih =>
    intro fd fi
    simp only [List.foldl_cons]
    cases hc : (tasks.map Task.id).contains d.taskId with
    | false =>
      have hnm : d.taskId ∉ tasks.map Task.id := scontains_false_iff.mp hc
      have hstep : (match getAssocA (tasks.map (fun u => (u.id, fd u))) d.taskId with
          | some lst =>
            (setAssocA (tasks.map (fun u => (u.id, fd u))) d.taskId (lst ++ [t.id]),
             setAssocA (tasks.map (fun u => (u.id, fi u))) t.id
               ((getAssocA (tasks.map (fun u => (u.id, fi u))) t.id).getD 0 + 1))
          | none =>
            (tasks.map (fun u => (u.id, fd u)), tasks.map (fun u => (u.id, fi u))))
          = (tasks.map (fun u => (u.id, fd u)),
             tasks.map (fun u => (u.id, fi u))) := by
        rw [getAssocA_map_of_not_mem tasks fd d.taskId hnm]
      rw [hstep, ih fd fi]
      rw [List.filter_cons, if_neg (by rw [hc]; simp)]
    | true =>
      obtain ⟨td, htd, htdid⟩ := List.mem_map.mp (scontains_iff.mp hc)
      have hget : getAssocA (tasks.map (fun u => (u.id, fd u))) d.taskId
          = some (fd td) := by
        rw [← htdid]
        exact getAssocA_map_of_mem tasks fd td htd hnodup
      have hgetI : getAssocA (tasks.map (fun u => (u.id, fi u))) t.id
          = some (fi t) :=
        getAssocA_map_of_mem tasks fi t ht hnodup
      have hsetD : setAssocA (tasks.map (fun u => (u.id, fd u))) d.taskId
          (fd td ++ [t.id])
          = tasks.map (fun u => (u.id,
              if u.id = td.id then fd td ++ [t.id] else fd u)) := by
        rw [← htdid]
        exact setAssocA_map tasks fd td htd hnodup (fd td ++ [t.id])
      have hsetI : setAssocA (tasks.map (fun u => (u.id, fi u))) t.id (fi t + 1)
          = tasks.map (fun u => (u.id, if u.id = t.id then fi t + 1 else fi u)) :=
        setAssocA_map tasks fi t ht hnodup (fi t + 1)
      have hstep : (match getAssocA (tasks.map (fun u => (u.id, fd u))) d.taskId with
          | some lst =>
            (setAssocA (tasks.map (fun u => (u.id, fd u))) d.taskId (lst ++ [t.id]),
             setAssocA (tasks.map (fun u => (u.id, fi u))) t.id
               ((getAssocA (tasks.map (fun u => (u.id, fi u))) t.id).getD 0 + 1))
          | none =>
            (tasks.map (fun u => (u.id, fd u)), tasks.map (fun u => (u.id, fi u))))
          = (tasks.map (fun u => (u.id,
              if u.id = td.id then fd td ++ [t.id] else fd u)),
             tasks.map (fun u => (u.id,
              if u.id = t.id then fi t + 1 else fi u))) := by
        rw [hget, hgetI]
        simp only [Option.getD_some]
        rw [hsetD, hsetI]
      rw [hstep, ih (fun u => if u.id = td.id then fd td ++ [t.id] else fd u)
        (fun u => if u.id = t.id then fi t + 1 else fi u)]
      rw [List.filter_cons, if_pos hc]
      congr 1
      · apply List.map_congr_left
        intro u hu
        have hval : (if u.id = td.id then fd td ++ [t.id] else fd u) ++
            ((((dds.filter (fun d =>
              (tasks.map Task.id).contains d.taskId)).map
              (fun d => (d.taskId, t.id))).filter
              (fun e => e.1 == u.id)).map (fun e => e.2))
            = fd u ++
            ((((d :: dds.filter (fun d =>
              (tasks.map Task.id).contains d.taskId)).map
              (fun d => (d.taskId, t.id))).filter
              (fun e => e.1 == u.id)).map (fun e => e.2)) := by
          rw [List.map_cons]
          by_cases hud : u.id = td.id
          · have hu_eq : u = td := task_id_inj tasks hnodup u td hu htd hud
            rw [if_pos hud, List.filter_cons]
            rw [if_pos (by simp [← htdid, hud])]
            rw [List.map_cons]
            rw [hu_eq]
            simp
          · rw [if_neg hud, List.filter_cons]
            rw [if_neg (by simp [← htdid]; exact fun he => hud he.symm)]
        rw [hval]
      · apply List.map_congr_left
        intro u hu
        by_cases hu_t : u.id = t.id
        · have hu_eq : u = t := task_id_inj tasks hnodup u t hu ht hu_t
          rw [if_pos hu_t, if_pos hu_t, if_pos hu_t, hu_eq]
          congr 1
          simp only [List.length_cons]
          push_cast
          ring
        · rw [if_neg hu_t, if_neg hu_t, if_neg hu_t]

theorem block_filter_snd (L : List TaskDependency) (tid u : String) :
    ((L.map (fun d => (d.taskId, tid))).filter (fun e => e.2 == u)).length
    = if u = tid then L.length else 0 := by
  induction L with
  | nil => simp
  | cons d L ih =>
    simp only [List.map_cons, List.filter_cons]
    by_cases h : u = tid
    · rw [if_pos (by simp [h]), List.length_cons, ih, if_pos h, if_pos h,
        List.length_cons]
    · rw [if_neg (by simp; exact fun he => h he.symm), ih, if_neg h, if_neg h]

theorem buildOuter (tasks : List Task)
    (hnodup : (tasks.map Task.id).Nodup) :
    ∀ (todo done : List Task), done ++ todo = tasks →
    todo.foldl (fun acc t =>
      t.dependencies.foldl (fun acc2 d =>
        match getAssocA acc2.1 d.taskId with
        | some lst =>
          (setAssocA acc2.1 d.taskId (lst ++ [t.id]),
           setAssocA acc2.2 t.id ((getAssocA acc2.2 t.id).getD 0 + 1))
        | none => acc2) acc)
      (tasks.map (fun u => (u.id,
         ((edgesOfL tasks done).filter (fun e => e.1 == u.id)).map (fun e => e.2))),
       tasks.map (fun u => (u.id,
         (((edgesOfL tasks done).filter (fun e => e.2 == u.id)).length : Int))))
    = (tasks.map (fun u => (u.id,
         ((kahnEdges tasks).filter (fun e => e.1 == u.id)).map (fun e => e.2))),
       tasks.map (fun u => (u.id,
         (((kahnEdges tasks).filter (fun e => e.2 == u.id)).length : Int)))) := by
  intro todo
  induction todo with
  | nil =>
    intro done h
    rw [List.append_nil] at h
    subst h
    rw [List.foldl_nil, kahnEdges_eq_edgesOfL]
  | cons t todo ih =>
    intro done h
    have ht : t ∈ tasks := by
      rw [← h]
      exact List.mem_append_right _ (List.mem_cons_self t todo)
    simp only [List.foldl_cons]
    rw [buildInner tasks hnodup t ht t.dependencies
      (fun u => ((edgesOfL tasks done).filter (fun e => e.1 == u.id)).map
        (fun e => e.2))
      (fun u => (((edgesOfL tasks done).filter
        (fun e => e.2 == u.id)).length : Int))]
    have hih := ih (done ++ [t])
      (by rw [List.append_assoc, List.singleton_append, h])
    have hE : edgesOfL tasks (done ++ [t])
        = edgesOfL tasks done ++
          (t.dependencies.filter (fun d =>
            (tasks.map Task.id).contains d.taskId)).map
            (fun d => (d.taskId, t.id)) := by
      simp [edgesOfL, List.flatMap_append]
    convert hih using 2
    congr 1
    · apply List.map_congr_left
      intro u hu
      rw [hE, List.filter_append, List.map_append]
    · apply List.map_congr_left
      intro u hu
      rw [hE, List.filter_append, List.length_append, block_filter_snd]
      by_cases hu_t : u.id = t.id
      · rw [if_pos hu_t, if_pos hu_t]
        push_cast
        ring_nf
      · rw [if_neg hu_t, if_neg hu_t]
        push_cast
        ring_nf

theorem buildGraph_eq (tasks : List Task)
    (hnodup : (tasks.map Task.id).Nodup) :
    buildGraph tasks
    = (tasks.map (fun u => (u.id, outsOf tasks u.id)),
       tasks.map (fun u => (u.id, (indegE tasks u.id : Int)))) := by
  unfold buildGraph
  rw [initMaps_eq tasks hnodup]
  have h := buildOuter tasks hnodup tasks [] rfl
  have h0 : edgesOfL tasks [] = [] := rfl
  rw [h0] at h
  simp only [List.filter_nil, List.map_nil, List.length_nil, Nat.cast_zero] at h
  unfold outsOf indegE
  exact h

theorem filter_and_length_le {α : Type} (l : List α) (p q : α → Bool) :
    (l.filter (fun x => p x && q x)).length ≤ (l.filter p).length := by
  induction l with
  | nil => simp
  | cons a l ih =>
    simp only [List.filter_cons]
    by_cases hp : p a = true
    · by_cases hq : q a = true
      · rw [if_pos (by rw [hp, hq]; rfl), if_pos hp]
        simpa using ih
      · rw [if_neg (by rw [hp]; simpa using hq), if_pos hp]
        simp only [List.length_cons]
        omega
    · rw [if_neg (by rw [Bool.and_eq_true]; exact fun h => hp h.1),
        if_neg (by simpa using hp)]
      exact ih

theorem filter_and_lt_of_exists {α : Type} (l : List α) (p q : α → Bool)
    (h : ∃ x ∈ l, p x = true ∧ q x = false) :
    (l.filter (fun x => p x && q x)).length < (l.filter p).length := by
  induction l with
  | nil => simp at h
  | cons a l ih =>
    simp only [List.filter_cons]
    rcases h with ⟨x, hx, hpx, hqx⟩
    rcases List.mem_cons.mp hx with hxa | hxl
    · subst hxa
      rw [if_neg (by rw [hpx, hqx]; simp), if_pos hpx]
      simp only [List.length_cons]
      exact Nat.lt_succ_of_le (filter_and_length_le l p q)
    · have hlt := ih ⟨x, hxl, hpx, hqx⟩
      by_cases hp : p a = true
      · by_cases hq : q a = true
        · rw [if_pos (by rw [hp, hq]; rfl), if_pos hp]
          simpa using hlt
        · rw [if_neg (by rw [hp]; simpa using hq), if_pos hp]
          simp only [List.length_cons]
          omega
      · rw [if_neg (by rw [Bool.and_eq_true]; exact fun h => hp h.1),
          if_neg (by simpa using hp)]
        exact hlt

theorem popCount_le_indegE (T : List Task) (R : List String) (b : String) :
    popCount T R b ≤ indegE T b :=
  filter_and_length_le (kahnEdges T) (fun e => e.2 == b)
    (fun e => R.contains e.1)

theorem popCount_nil (T : List Task) (b : String) : popCount T [] b = 0 := by
  simp [popCount]

/-- When the popped count equals the in-degree, every edge into `b` has a
popped source. -/
theorem popped_full_sources (T : List Task) (R : List String) (b : String)
    (h : popCount T R b = indegE T b) :
    ∀ e ∈ kahnEdges T, e.2 = b → R.contains e.1 = true := by
  intro e he h2
  by_contra hc
  have hx : ∃ x ∈ kahnEdges T, (fun e => e.2 == b) x = true ∧
      (fun e => R.contains e.1) x = false :=
    ⟨e, he, by simp [h2], by simpa using hc⟩
  have := filter_and_lt_of_exists (kahnEdges T) _ _ hx
  unfold popCount indegE at h
  omega

/-- Strictness: a popped count below the in-degree exposes an edge into `b`
with an unpopped source. -/
theorem exists_unpopped_source (T : List Task) (R : List String) (b : String)
    (h : popCount T R b ≠ indegE T b) :
    ∃ e ∈ kahnEdges T, e.2 = b ∧ R.contains e.1 = false := by
  by_contra hc
  push_neg at hc
  apply h
  unfold popCount indegE
  congr 1
  apply List.filter_congr
  intro e he
  by_cases h2 : e.2 = b
  · have h4 := hc e he h2
    have h3 : R.contains e.1 = true := by
      cases hr : R.contains e.1
      · exact absurd hr h4
      · rfl
    simp [h2, h3]
    exact scontains_iff.mp h3
  · simp [h2]

theorem kahnEdges_src_mem (T : List Task) (e : String × String)
    (he : e ∈ kahnEdges T) : e.1 ∈ T.map Task.id := by
  unfold kahnEdges at he
  rcases List.mem_flatMap.mp he with ⟨t, _, hm⟩
  rcases List.mem_map.mp hm with ⟨d, hd, hde⟩
  have := List.of_mem_filter hd
  rw [← hde]
  exact scontains_iff.mp this

theorem kahnEdges_tgt_mem (T : List Task) (e : String × String)
    (he : e ∈ kahnEdges T) : e.2 ∈ T.map Task.id := by
  unfold kahnEdges at he
  rcases List.mem_flatMap.mp he with ⟨t, ht, hm⟩
  rcases List.mem_map.mp hm with ⟨d, _, hde⟩
  rw [← hde]
  exact List.mem_map.mpr ⟨t, ht, rfl⟩

theorem outsOf_mem_ids (T : List Task) (a b : String)
    (hb : b ∈ outsOf T a) : b ∈ T.map Task.id := by
  unfold outsOf at hb
  rcases List.mem_map.mp hb with ⟨e, he, hbe⟩
  rw [← hbe]
  exact kahnEdges_tgt_mem T e (List.mem_of_mem_filter he)

theorem outsOf_mem_iff (T : List Task) (a b : String) :
    b ∈ outsOf T a ↔ ∃ e ∈ kahnEdges T, e.1 = a ∧ e.2 = b := by
  unfold outsOf
  constructor
  · intro hb
    rcases List.mem_map.mp hb with ⟨e, he, hbe⟩
    exact ⟨e, List.mem_of_mem_filter he,
      by simpa using List.of_mem_filter he, hbe⟩
  · rintro ⟨e, he, h1, h2⟩
    exact List.mem_map.mpr ⟨e, List.mem_filter.mpr ⟨he, by simp [h1]⟩, h2⟩

/-- The multiplicity of `b` among the dependents of `c` counts the edges
from `c` to `b`. -/
theorem outsOf_count (T : List Task) (c b : String) :
    (outsOf T c).count b
    = ((kahnEdges T).filter (fun e => e.2 == b && e.1 == c)).length := by
  unfold outsOf
  rw [List.count, List.countP_map, List.countP_eq_length_filter,
    List.filter_filter]
  congr 1

theorem popCount_snoc (T : List Task) (R : List String) (c b : String)
    (hc : c ∉ R) :
    popCount T (R ++ [c]) b = popCount T R b + (outsOf T c).count b := by
  rw [outsOf_count]
  unfold popCount
  induction kahnEdges T with
  | nil => simp
  | cons e l ih =>
    simp only [List.filter_cons]
    by_cases h2 : (e.2 == b) = true
    · by_cases h1 : e.1 ∈ R
      · have h1c : (e.1 == c) = false := by
          simp only [beq_eq_false_iff_ne, ne_eq]
          exact fun h => hc (h ▸ h1)
        have hra : ((R ++ [c]).contains e.1) = true :=
          scontains_iff.mpr (List.mem_append_left _ h1)
        have hr : (R.contains e.1) = true := scontains_iff.mpr h1
        rw [if_pos (by rw [h2, hra]; rfl), if_pos (by rw [h2, hr]; rfl),
          if_neg (by rw [h2, h1c]; simp)]
        simp only [List.length_cons]
        omega
      · by_cases h1c : e.1 = c
        · have hra : ((R ++ [c]).contains e.1) = true :=
            scontains_iff.mpr
              (List.mem_append_right _ (List.mem_singleton.mpr h1c))
          have hr : (R.contains e.1) = false := scontains_false_iff.mpr h1
          have hec : (e.1 == c) = true := by simp [h1c]
          rw [if_pos (by rw [h2, hra]; rfl), if_neg (by rw [h2, hr]; simp),
            if_pos (by rw [h2, hec]; rfl)]
          simp only [List.length_cons]
          omega
        · have hra : ((R ++ [c]).contains e.1) = false :=
            scontains_false_iff.mpr (fun h =>
              (List.mem_append.mp h).elim (fun h' => h1 h')
                (fun h' => h1c (List.mem_singleton.mp h')))
          have hr : (R.contains e.1) = false := scontains_false_iff.mpr h1
          have hec : (e.1 == c) = false := by
            simp only [beq_eq_false_iff_ne, ne_eq]
            exact h1c
          rw [if_neg (by rw [h2, hra]; simp), if_neg (by rw [h2, hr]; simp),
            if_neg (by rw [h2, hec]; simp)]
          exact ih
    · have h2f : (e.2 == b) = false := by
        cases hb2 : (e.2 == b)
        · rfl
        · exact absurd hb2 h2
      rw [if_neg (by rw [h2f]; simp), if_neg (by rw [h2f]; simp),
        if_neg (by rw [h2f]; simp)]
      exact ih

/-- One pass of the dependent-processing `for` loop, over an in-degree map in
canonical form: every entry drops by its multiplicity in the processed list,
and the ids appended to the queue are exactly those whose running degree hits
zero during the pass. -/
theorem kahnInner (T : List Task) (hnodup : (T.map Task.id).Nodup) :
    ∀ (os : List String), (∀ b ∈ os, b ∈ T.map Task.id) →
    ∀ (w : String → Int) (Q : List String), ∃ P : List String,
    os.foldl kahnStep (T.map (fun u => (u.id, w u.id)), Q)
      = (T.map (fun u => (u.id, w u.id - (os.count u.id : Int))), Q ++ P)
    ∧ P.Nodup
    ∧ (∀ b ∈ P, b ∈ os)
    ∧ (∀ b, b ∈ T.map Task.id →
        (b ∈ P ↔ (0 < w b ∧ w b ≤ (os.count b : Int)))) := by
  intro os
  induction os with
  | nil =>
    intro _ w Q
    refine ⟨[], ?_, List.nodup_nil, by simp, ?_⟩
    · rw [List.foldl_nil, List.append_nil]
      have hm : T.map (fun u => (u.id, w u.id
          - (List.count u.id ([] : List String) : Int)))
          = T.map (fun u => (u.id, w u.id)) := by
        apply List.map_congr_left
        intro u _
        simp
      rw [hm]
    · intro b _
      simp only [List.not_mem_nil, List.count_nil, Nat.cast_zero,
        false_iff, not_and]
      intro h1
      omega
  | cons b os ih =>
    intro hos w Q
    obtain ⟨tb, htbT, htb⟩ := List.mem_map.mp (hos b (List.mem_cons_self b os))
    subst htb
    have hos' : ∀ x ∈ os, x ∈ T.map Task.id :=
      fun x hx => hos x (List.mem_cons_of_mem _ hx)
    have hg : getAssocA (T.map (fun u => (u.id, w u.id))) tb.id
        = some (w tb.id) :=
      getAssocA_map_of_mem T (fun u => w u.id) tb htbT hnodup
    have hset : setAssocA (T.map (fun u => (u.id, w u.id))) tb.id
        (w tb.id - 1)
        = T.map (fun u => (u.id, if u.id = tb.id then w tb.id - 1
            else w u.id)) :=
      setAssocA_map T (fun u => w u.id) tb htbT hnodup (w tb.id - 1)
    have hstep : kahnStep (T.map (fun u => (u.id, w u.id)), Q) tb.id
        = (T.map (fun u => (u.id, if u.id = tb.id then w tb.id - 1
            else w u.id)),
           if ((w tb.id - 1) == 0) = true then Q ++ [tb.id] else Q) := by
      unfold kahnStep
      dsimp only
      rw [hg]
      simp only [Option.getD_some]
      rw [hset]
    obtain ⟨P, hP, hPnd, hPsub, hPchar⟩ := ih hos'
      (fun x => if x = tb.id then w tb.id - 1 else w x)
      (if ((w tb.id - 1) == 0) = true then Q ++ [tb.id] else Q)
    have hP2 : os.foldl kahnStep
        (T.map (fun u => (u.id, if u.id = tb.id then w tb.id - 1
          else w u.id)),
         if ((w tb.id - 1) == 0) = true then Q ++ [tb.id] else Q)
        = (T.map (fun u => (u.id,
            (if u.id = tb.id then w tb.id - 1 else w u.id)
              - (os.count u.id : Int))),
           (if ((w tb.id - 1) == 0) = true then Q ++ [tb.id] else Q) ++ P) :=
      hP
    have hchar2 : ∀ x, x ∈ T.map Task.id →
        (x ∈ P ↔ (0 < (if x = tb.id then w tb.id - 1 else w x)
          ∧ (if x = tb.id then w tb.id - 1 else w x)
            ≤ (os.count x : Int))) := hPchar
    have hmfix : T.map (fun u => (u.id,
        (if u.id = tb.id then w tb.id - 1 else w u.id)
          - (os.count u.id : Int)))
        = T.map (fun u => (u.id, w u.id
          - (List.count u.id (tb.id :: os) : Int))) := by
      apply List.map_congr_left
      intro u _
      by_cases hu : u.id = tb.id
      · rw [if_pos hu, hu]
        congr 1
        rw [List.count_cons_self]
        push_cast
        ring
      · rw [if_neg hu]
        congr 2
        rw [List.count_cons_of_ne]
        simpa using hu
    by_cases hz : w tb.id = 1
    · have hzb : ((w tb.id - 1) == 0) = true := by
        simp [hz]
      refine ⟨tb.id :: P, ?_, ?_, ?_, ?_⟩
      · rw [List.foldl_cons, hstep, hP2, hmfix, if_pos hzb,
          List.append_assoc, List.singleton_append]
      · refine List.nodup_cons.mpr ⟨?_, hPnd⟩
        intro hmem
        have := (hchar2 tb.id (List.mem_map.mpr ⟨tb, htbT, rfl⟩)).mp hmem
        rw [if_pos rfl] at this
        omega
      · intro x hx
        rcases List.mem_cons.mp hx with h | h
        · exact h ▸ List.mem_cons_self _ _
        · exact List.mem_cons_of_mem _ (hPsub x h)
      · intro x hxid
        by_cases hx : x = tb.id
        · subst hx
          constructor
          · intro _
            rw [List.count_cons_self]
            push_cast
            omega
          · intro _
            exact List.mem_cons_self _ _
        · rw [List.count_cons_of_ne hx]
          constructor
          · intro hmem
            rcases List.mem_cons.mp hmem with h | h
            · exact absurd h hx
            · have := (hchar2 x hxid).mp h
              rw [if_neg hx] at this
              exact this
          · intro hcond
            refine List.mem_cons_of_mem _ ((hchar2 x hxid).mpr ?_)
            rw [if_neg hx]
            exact hcond
    · have hzb : ((w tb.id - 1) == 0) = false := by
        simp only [beq_eq_false_iff_ne, ne_eq]
        omega
      refine ⟨P, ?_, hPnd, ?_, ?_⟩
      · rw [List.foldl_cons, hstep, hP2, hmfix, if_neg (by rw [hzb]; simp)]
      · exact fun x hx => List.mem_cons_of_mem _ (hPsub x hx)
      · intro x hxid
        by_cases hx : x = tb.id
        · subst hx
          rw [List.count_cons_self]
          have h1 := hchar2 tb.id hxid
          rw [if_pos rfl] at h1
          rw [h1]
          push_cast
          omega
        · rw [List.count_cons_of_ne hx]
          have h1 := (hchar2 x hxid)
          rw [if_neg hx] at h1
          exact h1

/-- The while-loop invariant: the in-degree map holds each task's in-degree
minus the edges already consumed by popped prerequisites; popped ids and the
queue are disjoint, duplicate-free task ids; a task sits in the queue exactly
when its count is exhausted but it has not been popped; popped tasks are
exhausted; and every prefix of the popped ids is closed under edge sources. -/
structure KahnInv (T : List Task) (Q : List String) (D : List (String × Int))
    (R : List Task) : Prop where
  deg : D = T.map (fun u => (u.id, (indegE T u.id : Int)
    - (popCount T (R.map Task.id) u.id : Int)))
  nodupRQ : (R.map Task.id ++ Q).Nodup
  subRQ : ∀ x ∈ R.map Task.id ++ Q, x ∈ T.map Task.id
  elems : ∀ t ∈ R, t ∈ T
  fullR : ∀ u ∈ T, u.id ∈ R.map Task.id →
    popCount T (R.map Task.id) u.id = indegE T u.id
  enq : ∀ u ∈ T, (popCount T (R.map Task.id) u.id = indegE T u.id
    ∧ u.id ∉ R.map Task.id) ↔ u.id ∈ Q
  ord : ∀ n, ∀ e ∈ kahnEdges T, e.2 ∈ (R.map Task.id).take n →
    e.1 ∈ (R.map Task.id).take n

theorem kahnLoop_cons (T : List Task) (dm : List (String × List String))
    (fuel : Nat) (cur : String) (queue : List String)
    (inDeg : List (String × Int)) (result : List Task) :
    kahnLoop T dm (fuel + 1) (cur :: queue) inDeg result
    = kahnLoop T dm fuel
        ((((getAssocA dm cur).getD []).foldl kahnStep (inDeg, queue)).2)
        ((((getAssocA dm cur).getD []).foldl kahnStep (inDeg, queue)).1)
        (match T.find? (fun t => t.id == cur) with
          | some t => result ++ [t]
          | none => result) := rfl

/-- Running the while loop from any invariant state with enough fuel reaches
the empty queue, and the invariant holds there. -/
theorem kahnLoop_post (T : List Task) (hnodup : (T.map Task.id).Nodup) :
    ∀ (fuel : Nat) (Q : List String) (D : List (String × Int))
      (R : List Task),
    KahnInv T Q D R → T.length + 1 ≤ fuel + R.length →
    ∃ Rf Df,
      kahnLoop T (T.map (fun u => (u.id, outsOf T u.id))) fuel Q D R = Rf
      ∧ KahnInv T [] Df Rf := by
  intro fuel
  induction fuel with
  | zero =>
    intro Q D R hinv hfuel
    exfalso
    have hndRI : (R.map Task.id).Nodup :=
      List.Nodup.of_append_left hinv.nodupRQ
    have hsubRI : ∀ x ∈ R.map Task.id, x ∈ T.map Task.id :=
      fun x hx => hinv.subRQ x (List.mem_append_left _ hx)
    have hle := (hndRI.subperm hsubRI).length_le
    simp only [List.length_map] at hle
    omega
  | succ fuel ih =>
    intro Q D R hinv hfuel
    cases Q with
    | nil => exact ⟨R, D, rfl, hinv⟩
    | cons cur Q' =>
      have hcur_ids : cur ∈ T.map Task.id :=
        hinv.subRQ cur (List.mem_append_right _ (List.mem_cons_self _ _))
      cases hf : T.find? (fun t => t.id == cur) with
      | none =>
        exfalso
        obtain ⟨tc, htc, htcid⟩ := List.mem_map.mp hcur_ids
        have h4 := List.find?_eq_none.mp hf tc htc
        apply h4
        simp [htcid]
      | some t' =>
        have ht'T : t' ∈ T := List.mem_of_find?_eq_some hf
        have ht'id : t'.id = cur := by
          have hp := List.find?_some hf
          exact eq_of_beq hp
        have hgdm : getAssocA (T.map (fun u => (u.id, outsOf T u.id))) cur
            = some (outsOf T cur) := by
          rw [← ht'id]
          exact getAssocA_map_of_mem T (fun u => outsOf T u.id) t' ht'T
            hnodup
        obtain ⟨P, hP, hPnd, hPsub, hPchar⟩ := kahnInner T hnodup
          (outsOf T cur) (fun b hb => outsOf_mem_ids T cur b hb)
          (fun x => (indegE T x : Int) - (popCount T (R.map Task.id) x : Int))
          Q'
        have hP2 : (outsOf T cur).foldl kahnStep
            (T.map (fun u => (u.id, (indegE T u.id : Int)
              - (popCount T (R.map Task.id) u.id : Int))), Q')
            = (T.map (fun u => (u.id,
                ((indegE T u.id : Int)
                  - (popCount T (R.map Task.id) u.id : Int))
                - ((outsOf T cur).count u.id : Int))), Q' ++ P) := hP
        have hchar : ∀ b, b ∈ T.map Task.id →
            (b ∈ P ↔ (0 < (indegE T b : Int)
                - (popCount T (R.map Task.id) b : Int)
              ∧ (indegE T b : Int) - (popCount T (R.map Task.id) b : Int)
                ≤ ((outsOf T cur).count b : Int))) := hPchar
        have hnd3 := List.nodup_append.mp hinv.nodupRQ
        have hndRI : (R.map Task.id).Nodup := hnd3.1
        have hcurRI : cur ∉ R.map Task.id :=
          fun h => hnd3.2.2 h (List.mem_cons_self _ _)
        have hcurQ' : cur ∉ Q' := (List.nodup_cons.mp hnd3.2.1).1
        have hndQ' : Q'.Nodup := (List.nodup_cons.mp hnd3.2.1).2
        have hdisj : ∀ x ∈ R.map Task.id, x ∈ cur :: Q' → False :=
          fun x hx hx2 => hnd3.2.2 hx hx2
        have henq_cur := (hinv.enq t' ht'T).mpr
          (by rw [ht'id]; exact List.mem_cons_self _ _)
        have hfull_cur : popCount T (R.map Task.id) cur = indegE T cur :=
          ht'id ▸ henq_cur.1
        have hsrc_cur : ∀ e ∈ kahnEdges T, e.2 = cur →
            (R.map Task.id).contains e.1 = true :=
          popped_full_sources T (R.map Task.id) cur hfull_cur
        have hid_map : (R ++ [t']).map Task.id = R.map Task.id ++ [cur] := by
          rw [List.map_append]
          simp [ht'id]
        have hPlt : ∀ b ∈ P,
            popCount T (R.map Task.id) b < indegE T b := by
          intro b hb
          have hbid : b ∈ T.map Task.id :=
            outsOf_mem_ids T cur b (hPsub b hb)
          have h5 := (hchar b hbid).mp hb
          omega
        have hPnotRI : ∀ b ∈ P, b ∉ R.map Task.id := by
          intro b hb hmem
          obtain ⟨u, huT, huid⟩ := List.mem_map.mp
            (outsOf_mem_ids T cur b (hPsub b hb))
          have h6 := hinv.fullR u huT (huid ▸ hmem)
          have h7 := hPlt b hb
          rw [huid] at h6
          omega
        have hPne_cur : ∀ b ∈ P, b ≠ cur := by
          intro b hb he
          have h7 := hPlt b hb
          rw [he, hfull_cur] at h7
          omega
        have hPnotQ' : ∀ b ∈ P, b ∉ Q' := by
          intro b hb hmem
          obtain ⟨u, huT, huid⟩ := List.mem_map.mp
            (outsOf_mem_ids T cur b (hPsub b hb))
          have h8 := (hinv.enq u huT).mpr
            (by rw [huid]; exact List.mem_cons_of_mem _ hmem)
          have h7 := hPlt b hb
          rw [huid] at h8
          omega
        have hDfix : T.map (fun u => (u.id,
            ((indegE T u.id : Int)
              - (popCount T (R.map Task.id) u.id : Int))
            - ((outsOf T cur).count u.id : Int)))
            = T.map (fun u => (u.id, (indegE T u.id : Int)
              - (popCount T ((R ++ [t']).map Task.id) u.id : Int))) := by
          apply List.map_congr_left
          intro u _
          rw [hid_map, popCount_snoc T _ cur u.id hcurRI]
          congr 1
          push_cast
          ring
        have heq : kahnLoop T (T.map (fun u => (u.id, outsOf T u.id)))
            (fuel + 1) (cur :: Q') D R
            = kahnLoop T (T.map (fun u => (u.id, outsOf T u.id))) fuel
              (Q' ++ P)
              (T.map (fun u => (u.id, (indegE T u.id : Int)
                - (popCount T ((R ++ [t']).map Task.id) u.id : Int))))
              (R ++ [t']) := by
          rw [kahnLoop_cons, hf, hgdm, Option.getD_some, hinv.deg, hP2]
          dsimp only
          rw [hDfix]
        have hcount0 : ∀ u ∈ T, popCount T (R.map Task.id) u.id
            = indegE T u.id → (outsOf T cur).count u.id = 0 := by
          intro u _ hfull
          refine List.count_eq_zero.mpr ?_
          intro hmem
          obtain ⟨e, he, he1, he2⟩ := (outsOf_mem_iff T cur u.id).mp hmem
          have h9 := popped_full_sources T (R.map Task.id) u.id hfull e he he2
          rw [he1] at h9
          exact hcurRI (scontains_iff.mp h9)
        have hinv' : KahnInv T (Q' ++ P)
            (T.map (fun u => (u.id, (indegE T u.id : Int)
              - (popCount T ((R ++ [t']).map Task.id) u.id : Int))))
            (R ++ [t']) := by
          refine ⟨rfl, ?_, ?_, ?_, ?_, ?_, ?_⟩
          · rw [hid_map]
            refine List.nodup_append.mpr ⟨?_, ?_, ?_⟩
            · have hsl : List.Sublist (R.map Task.id ++ [cur])
                  (R.map Task.id ++ cur :: Q') :=
                List.Sublist.append_left
                  ((List.nil_sublist Q').cons₂ cur) _
              exact hsl.nodup hinv.nodupRQ
            · refine List.nodup_append.mpr ⟨hndQ', hPnd, ?_⟩
              intro x hx hx2
              exact hPnotQ' x hx2 hx
            · intro x hx hx2
              rcases List.mem_append.mp hx with hx | hx
              · rcases List.mem_append.mp hx2 with hx2 | hx2
                · exact hdisj x hx (List.mem_cons_of_mem _ hx2)
                · exact hPnotRI x hx2 hx
              · have hxc := List.mem_singleton.mp hx
                subst hxc
                rcases List.mem_append.mp hx2 with hx2 | hx2
                · exact hcurQ' hx2
                · exact hPne_cur x hx2 rfl
          · intro x hx
            rw [hid_map] at hx
            rcases List.mem_append.mp hx with hx | hx
            · rcases List.mem_append.mp hx with hx | hx
              · exact hinv.subRQ x (List.mem_append_left _ hx)
              · have hxc := List.mem_singleton.mp hx
                subst hxc
                exact hcur_ids
            · rcases List.mem_append.mp hx with hx | hx
              · exact hinv.subRQ x (List.mem_append_right _
                  (List.mem_cons_of_mem _ hx))
              · exact outsOf_mem_ids T cur x (hPsub x hx)
          · intro t ht
            rcases List.mem_append.mp ht with ht | ht
            · exact hinv.elems t ht
            · exact (List.mem_singleton.mp ht) ▸ ht'T
          · intro u huT hmem
            rw [hid_map] at hmem ⊢
            rw [popCount_snoc T _ cur u.id hcurRI]
            rcases List.mem_append.mp hmem with hmem | hmem
            · have hfull := hinv.fullR u huT hmem
              rw [hcount0 u huT hfull, hfull]
              omega
            · have huc := List.mem_singleton.mp hmem
              have hfull : popCount T (R.map Task.id) u.id = indegE T u.id :=
                huc ▸ hfull_cur
              rw [hcount0 u huT hfull, hfull]
              omega
          · intro u huT
            rw [hid_map, popCount_snoc T _ cur u.id hcurRI]
            constructor
            · rintro ⟨hfull', hnotin⟩
              have hnotRI : u.id ∉ R.map Task.id :=
                fun h => hnotin (List.mem_append_left _ h)
              have hnecur : u.id ≠ cur :=
                fun h => hnotin (List.mem_append_right _
                  (List.mem_singleton.mpr h))
              by_cases hold : popCount T (R.map Task.id) u.id
                  = indegE T u.id
              · have h10 := (hinv.enq u huT).mp ⟨hold, hnotRI⟩
                rcases List.mem_cons.mp h10 with h10 | h10
                · exact absurd h10 hnecur
                · exact List.mem_append_left _ h10
              · refine List.mem_append_right _ ?_
                refine (hchar u.id (List.mem_map.mpr ⟨u, huT, rfl⟩)).mpr ?_
                have hle := popCount_le_indegE T (R.map Task.id) u.id
                omega
            · intro hmem
              rcases List.mem_append.mp hmem with hmem | hmem
              · have h11 := (hinv.enq u huT).mpr
                  (List.mem_cons_of_mem _ hmem)
                have hc0 := hcount0 u huT h11.1
                refine ⟨by rw [hc0, h11.1]; omega, ?_⟩
                intro hin
                rcases List.mem_append.mp hin with hin | hin
                · exact h11.2 hin
                · have := List.mem_singleton.mp hin
                  exact hcurQ' (this ▸ hmem)
              · have h12 := (hchar u.id
                  (List.mem_map.mpr ⟨u, huT, rfl⟩)).mp hmem
                have hle2 := popCount_le_indegE T
                  ((R ++ [t']).map Task.id) u.id
                rw [hid_map, popCount_snoc T _ cur u.id hcurRI] at hle2
                refine ⟨by omega, ?_⟩
                intro hin
                rcases List.mem_append.mp hin with hin | hin
                · have h13 := hinv.fullR u huT hin
                  omega
                · have h14 := List.mem_singleton.mp hin
                  rw [h14, hfull_cur] at h12
                  omega
          · intro n e he he2
            rw [hid_map] at he2 ⊢
            by_cases hn : n ≤ (R.map Task.id).length
            · rw [List.take_append_eq_append_take,
                show n - (R.map Task.id).length = 0 from by omega,
                List.take_zero, List.append_nil] at he2 ⊢
              exact hinv.ord n e he he2
            · have htk : (R.map Task.id ++ [cur]).take n
                  = R.map Task.id ++ [cur] :=
                List.take_of_length_le (by
                  simp only [List.length_append, List.length_singleton]
                  omega)
              rw [htk] at he2 ⊢
              rcases List.mem_append.mp he2 with he2 | he2
              · have h15 := hinv.ord (R.map Task.id).length e he
                  (by rw [List.take_length]; exact he2)
                rw [List.take_length] at h15
                exact List.mem_append_left _ h15
              · have hec := List.mem_singleton.mp he2
                have h16 := hsrc_cur e he hec
                exact List.mem_append_left _ (scontains_iff.mp h16)
        obtain ⟨Rf, Df, heq2, hfin⟩ := ih (Q' ++ P) _ (R ++ [t']) hinv'
          (by simp only [List.length_append, List.length_cons,
            List.length_nil]; omega)
        exact ⟨Rf, Df, heq.trans heq2, hfin⟩

theorem pcontains_iff {l : List (String × String)} {a : String × String} :
    l.contains a = true ↔ a ∈ l := by
  simp

theorem filter_zero_map (L : List Task) (g : Task → Int) :
    ((L.map (fun u => (u.id, g u))).filter (fun p => p.2 == 0)).map
      (fun p => p.1)
    = (L.filter (fun u => g u == 0)).map Task.id := by
  induction L with
  | nil => rfl
  | cons u L ih =>
    simp only [List.map_cons, List.filter_cons]
    by_cases h : (g u == 0) = true
    · rw [if_pos (by exact h), if_pos h, List.map_cons, ih]
      rfl
    · rw [if_neg (by exact h), if_neg h, ih]

theorem kahnFuelOf_ge (T : List Task) : T.length + 1 ≤ kahnFuelOf T := by
  unfold kahnFuelOf
  induction T with
  | nil => simp
  | cons t ts ih =>
    simp only [List.map_cons, List.sum_cons, List.length_cons] at ih ⊢
    omega

/-- Running the whole algorithm from the built graph reaches the empty queue
with the invariant intact. -/
theorem kahn_whole (T : List Task) (hnodup : (T.map Task.id).Nodup) :
    ∃ Rf Df, kahnLoop T (T.map (fun u => (u.id, outsOf T u.id)))
        (kahnFuelOf T)
        ((T.filter (fun u => (indegE T u.id : Int) == 0)).map Task.id)
        (T.map (fun u => (u.id, (indegE T u.id : Int)))) []
      = Rf ∧ KahnInv T [] Df Rf := by
  have hinv0 : KahnInv T
      ((T.filter (fun u => (indegE T u.id : Int) == 0)).map Task.id)
      (T.map (fun u => (u.id, (indegE T u.id : Int)))) [] := by
    refine ⟨?_, ?_, ?_, ?_, ?_, ?_, ?_⟩
    · apply List.map_congr_left
      intro u _
      rw [List.map_nil, popCount_nil]
      norm_num
    · rw [List.map_nil, List.nil_append]
      exact (List.Sublist.map Task.id (List.filter_sublist T)).nodup hnodup
    · intro x hx
      rw [List.map_nil, List.nil_append] at hx
      obtain ⟨v, hv, hvid⟩ := List.mem_map.mp hx
      exact hvid ▸ List.mem_map_of_mem Task.id (List.mem_of_mem_filter hv)
    · intro t ht
      exact absurd ht (List.not_mem_nil t)
    · intro u _ hmem
      rw [List.map_nil] at hmem
      exact absurd hmem (List.not_mem_nil _)
    · intro u huT
      rw [List.map_nil, popCount_nil]
      constructor
      · rintro ⟨h0, _⟩
        refine List.mem_map.mpr ⟨u, List.mem_filter.mpr ⟨huT, ?_⟩, rfl⟩
        have : indegE T u.id = 0 := h0.symm
        simp [this]
      · intro hmem
        obtain ⟨v, hv, hvid⟩ := List.mem_map.mp hmem
        have hvf := List.mem_filter.mp hv
        have hz : indegE T v.id = 0 := by
          have := hvf.2
          simp at this
          exact_mod_cast this
        rw [← hvid, hz]
        exact ⟨rfl, List.not_mem_nil _⟩
    · intro n e _ he2
      rw [List.map_nil, List.take_nil] at he2
      exact absurd he2 (List.not_mem_nil _)
  exact kahnLoop_post T hnodup (kahnFuelOf T) _ _ [] hinv0
    (by have := kahnFuelOf_ge T; simp only [List.length_nil]; omega)

theorem exists_dup_split {α : Type} : ∀ (l : List α), ¬ l.Nodup →
    ∃ l1 x l2 l3, l = l1 ++ x :: (l2 ++ x :: l3) := by
  intro l
  induction l with
  | nil => intro h; exact absurd List.nodup_nil h
  | cons a l ih =>
    intro h
    by_cases ha : a ∈ l
    · obtain ⟨l2, l3, hsplit⟩ := List.append_of_mem ha
      exact ⟨[], a, l2, l3, by rw [hsplit]; rfl⟩
    · have hnl : ¬ l.Nodup := by
        intro hl
        exact h (List.nodup_cons.mpr ⟨ha, hl⟩)
      obtain ⟨l1, x, l2, l3, hs⟩ := ih hnl
      exact ⟨a :: l1, x, l2, l3, by rw [hs]; rfl⟩

theorem depPath_append_split (T : List Task) :
    ∀ (ys : List String) (a z b : String) (zs : List String),
    depPath T a (ys ++ z :: zs) b = true →
    depPath T a ys z = true ∧ depPath T z zs b = true := by
  intro ys
  induction ys with
  | nil =>
    intro a z b zs h
    have h2 : (depEdge T a z && depPath T z zs b) = true := h
    simp only [Bool.and_eq_true] at h2
    obtain ⟨h3, h4⟩ := h2
    exact ⟨h3, h4⟩
  | cons y ys ih =>
    intro a z b zs h
    have h2 : (depEdge T a y && depPath T y (ys ++ z :: zs) b) = true := h
    simp only [Bool.and_eq_true] at h2
    obtain ⟨h3, h4⟩ := h2
    obtain ⟨h5, h6⟩ := ih y z b zs h4
    refine ⟨?_, h6⟩
    show (depEdge T a y && depPath T y ys z) = true
    rw [h3, h5]
    rfl

theorem depPath_suffix (T : List Task) :
    ∀ (l1 : List String) (a x b : String) (xs rest : List String),
    a :: xs = l1 ++ x :: rest → depPath T a xs b = true →
    depPath T x rest b = true := by
  intro l1
  cases l1 with
  | nil =>
    intro a x b xs rest h hp
    injection h with h1 h2
    subst h1
    subst h2
    exact hp
  | cons c l1' =>
    intro a x b xs rest h hp
    injection h with h1 h2
    subst h2
    exact (depPath_append_split T l1' a x b rest hp).2

/-- Acyclicity forces the loop to pop every task: a stuck task would start an
arbitrarily long backward chain of unpopped tasks, yielding a duplicate and
hence a cycle. -/
theorem kahn_complete (T : List Task) (hacyc : DepAcyclic T)
    (Df : List (String × Int)) (Rf : List Task)
    (hfin : KahnInv T [] Df Rf) :
    ∀ u ∈ T, u.id ∈ Rf.map Task.id := by
  by_contra hcon
  push_neg at hcon
  obtain ⟨u0, hu0T, hu0not⟩ := hcon
  have hpred : ∀ x, (x ∈ T.map Task.id ∧ x ∉ Rf.map Task.id) →
      ∃ y, (y ∈ T.map Task.id ∧ y ∉ Rf.map Task.id)
        ∧ depEdge T y x = true := by
    rintro x ⟨hxids, hxnot⟩
    obtain ⟨u, huT, huid⟩ := List.mem_map.mp hxids
    have hnotq : ¬(popCount T (Rf.map Task.id) u.id = indegE T u.id
        ∧ u.id ∉ Rf.map Task.id) := by
      intro hc
      exact absurd ((hfin.enq u huT).mp hc) (List.not_mem_nil _)
    have hne : popCount T (Rf.map Task.id) u.id ≠ indegE T u.id :=
      fun h => hnotq ⟨h, fun hm => hxnot (huid ▸ hm)⟩
    obtain ⟨e, he, he2, hec⟩ :=
      exists_unpopped_source T (Rf.map Task.id) u.id hne
    refine ⟨e.1, ⟨kahnEdges_src_mem T e he,
      fun hmem => (scontains_false_iff.mp hec) hmem⟩, ?_⟩
    unfold depEdge
    apply pcontains_iff.mpr
    rw [← huid, ← he2, Prod.mk.eta]
    exact he
  have hchain : ∀ n, ∃ a xs, xs.length = n
      ∧ depPath T a xs u0.id = true
      ∧ (a ∈ T.map Task.id ∧ a ∉ Rf.map Task.id)
      ∧ ∀ x ∈ xs, (x ∈ T.map Task.id ∧ x ∉ Rf.map Task.id) := by
    intro n
    induction n with
    | zero =>
      obtain ⟨y, hy, hyE⟩ := hpred u0.id
        ⟨List.mem_map_of_mem Task.id hu0T, hu0not⟩
      refine ⟨y, [], rfl, hyE, hy, ?_⟩
      intro x hx
      exact absurd hx (List.not_mem_nil x)
    | succ n ihn =>
      obtain ⟨a, xs, hlen, hpath, haU, hxsU⟩ := ihn
      obtain ⟨y, hy, hyE⟩ := hpred a haU
      refine ⟨y, a :: xs, by simp [hlen], ?_, hy, ?_⟩
      · show (depEdge T y a && depPath T a xs u0.id) = true
        rw [hyE, hpath]
        rfl
      · intro x hx
        rcases List.mem_cons.mp hx with h | h
        · exact h ▸ haU
        · exact hxsU x h
  obtain ⟨a, xs, hlen, hpath, haU, hxsU⟩ := hchain (T.map Task.id).length
  have hsub : ∀ x ∈ a :: xs, x ∈ T.map Task.id := by
    intro x hx
    rcases List.mem_cons.mp hx with h | h
    · exact h ▸ haU.1
    · exact (hxsU x h).1
  have hnnd : ¬ (a :: xs).Nodup := by
    intro hnd
    have hle := (hnd.subperm hsub).length_le
    rw [List.length_cons, hlen] at hle
    omega
  obtain ⟨l1, x, l2, l3, hsplit⟩ := exists_dup_split (a :: xs) hnnd
  have h1 := depPath_suffix T l1 a x u0.id xs (l2 ++ x :: l3) hsplit hpath
  have h2 := (depPath_append_split T l2 x x u0.id l3 h1).1
  exact hacyc ⟨x, l2, h2⟩

theorem kahn_perm (T : List Task) (hnodup : (T.map Task.id).Nodup)
    (Rf : List Task) (hRfsub : ∀ t ∈ Rf, t ∈ T)
    (hRfnd : (Rf.map Task.id).Nodup)
    (hcomp : ∀ u ∈ T, u.id ∈ Rf.map Task.id) : Rf.Perm T := by
  have hndRf : Rf.Nodup := hRfnd.of_map
  have hndT : T.Nodup := hnodup.of_map
  have hTsub : ∀ t ∈ T, t ∈ Rf := by
    intro t ht
    obtain ⟨r, hr, hrid⟩ := List.mem_map.mp (hcomp t ht)
    have hrt : r = t := task_id_inj T hnodup r t (hRfsub r hr) ht hrid
    exact hrt ▸ hr
  exact List.Subperm.antisymm (hndRf.subperm hRfsub) (hndT.subperm hTsub)

/-- The prefix-closure invariant turns an edge into a decomposition of the
result's id list with the prerequisite strictly before the dependent. -/
theorem kahn_before (T : List Task) (hacyc : DepAcyclic T) (Rf : List Task)
    (hord : ∀ n, ∀ e ∈ kahnEdges T, e.2 ∈ (Rf.map Task.id).take n →
      e.1 ∈ (Rf.map Task.id).take n)
    (e : String × String) (he : e ∈ kahnEdges T)
    (h2 : e.2 ∈ Rf.map Task.id) :
    ∃ u v w, Rf.map Task.id = u ++ e.1 :: (v ++ e.2 :: w) := by
  obtain ⟨A, B, hAB⟩ := List.append_of_mem h2
  have hne : e.1 ≠ e.2 := by
    intro hEq
    apply hacyc
    refine ⟨e.1, [], ?_⟩
    show depEdge T e.1 e.1 = true
    unfold depEdge
    apply pcontains_iff.mpr
    nth_rewrite 2 [hEq]
    rw [Prod.mk.eta]
    exact he
  have htk : (Rf.map Task.id).take (A.length + 1) = A ++ [e.2] := by
    rw [hAB, List.take_append_eq_append_take,
      List.take_of_length_le (by omega),
      show A.length + 1 - A.length = 1 from by omega]
    simp
  have h1mem := hord (A.length + 1) e he
    (by rw [htk]; exact List.mem_append_right _ (List.mem_singleton.mpr rfl))
  rw [htk] at h1mem
  rcases List.mem_append.mp h1mem with h1A | h1s
  · obtain ⟨u, v', huv⟩ := List.append_of_mem h1A
    refine ⟨u, v', B, ?_⟩
    rw [hAB, huv, List.append_assoc, List.cons_append]
  · exact absurd (List.mem_singleton.mp h1s) hne

/-- C8: for a duplicate-free, acyclic orchestration, getTaskExecutionOrder
returns a permutation of the orchestration's tasks (so each appears exactly
once), and for every dependency edge with both endpoints present the
prerequisite's id appears strictly before the dependent's id. -/
theorem C8_execution_order_topological (store : List Task) (oid : String)
    (hnodup : ((queryTasks store
      { orchestrationId := some oid }).map Task.id).Nodup)
    (hacyc : DepAcyclic (queryTasks store { orchestrationId := some oid })) :
    (getTaskExecutionOrder store oid).Perm
      (queryTasks store { orchestrationId := some oid })
    ∧ ∀ t ∈ queryTasks store { orchestrationId := some oid },
      ∀ d ∈ t.dependencies,
      ((queryTasks store
        { orchestrationId := some oid }).map Task.id).contains d.taskId
        = true →
      ∃ u v w, (getTaskExecutionOrder store oid).map Task.id
        = u ++ d.taskId :: (v ++ t.id :: w) := by
  set T := queryTasks store { orchestrationId := some oid } with hT
  obtain ⟨Rf, Df, heq, hfin⟩ := kahn_whole T hnodup
  have hq0 : ((T.map (fun u => (u.id, (indegE T u.id : Int)))).filter
      (fun p => p.2 == 0)).map (fun p => p.1)
      = (T.filter (fun u => (indegE T u.id : Int) == 0)).map Task.id :=
    filter_zero_map T (fun u => (indegE T u.id : Int))
  have hgeq0 : getTaskExecutionOrder store oid
      = kahnLoop T (buildGraph T).1 (kahnFuelOf T)
        (((buildGraph T).2.filter (fun p => p.2 == 0)).map (fun p => p.1))
        (buildGraph T).2 [] := rfl
  have hgeq : getTaskExecutionOrder store oid = Rf := by
    rw [hgeq0, buildGraph_eq T hnodup]
    dsimp only
    rw [hq0]
    exact heq
  have hcomp := kahn_complete T hacyc Df Rf hfin
  have hndRf : (Rf.map Task.id).Nodup := by
    have h := hfin.nodupRQ
    rwa [List.append_nil] at h
  constructor
  · rw [hgeq]
    exact kahn_perm T hnodup Rf hfin.elems hndRf hcomp
  · intro t ht d hd hcont
    have he : (d.taskId, t.id) ∈ kahnEdges T := by
      unfold kahnEdges
      apply List.mem_flatMap.mpr
      exact ⟨t, ht, List.mem_map.mpr
        ⟨d, List.mem_filter.mpr ⟨hd, hcont⟩, rfl⟩⟩
    have h2 : t.id ∈ Rf.map Task.id := hcomp t ht
    obtain ⟨u, v, w, hdecomp⟩ := kahn_before T hacyc Rf hfin.ord
      (d.taskId, t.id) he h2
    exact ⟨u, v, w, by rw [hgeq]; exact hdecomp⟩

/-- A two-task orchestration with one dependency edge, for checking C8 on a
concrete input. -/
def t8a : Task :=
  mkTask "A8" TaskStatus.not_started TaskPriority.medium "o8" [] 1

def t8b : Task :=
  mkTask "B8" TaskStatus.not_started TaskPriority.medium "o8"
    [{ taskId := "A8", type := DependencyType.finish_to_start }] 2

def store8 : List Task := [t8a, t8b]

theorem store8_edges : kahnEdges
    (queryTasks store8 { orchestrationId := some "o8" })
    = [("A8", "B8")] := by decide

theorem store8_acyclic :
    DepAcyclic (queryTasks store8 { orchestrationId := some "o8" }) := by
  rintro ⟨a, xs, hpath⟩
  have hedge : ∀ x y,
      depEdge (queryTasks store8 { orchestrationId := some "o8" }) x y
        = true → x = "A8" ∧ y = "B8" := by
    intro x y h
    have hm := pcontains_iff.mp h
    rw [store8_edges] at hm
    have h3 := List.mem_singleton.mp hm
    exact ⟨congrArg Prod.fst h3, congrArg Prod.snd h3⟩
  have hmono : ∀ (ys : List String) (a b : String),
      depPath (queryTasks store8 { orchestrationId := some "o8" }) a ys b
        = true →
      (if a = "B8" then (1 : Nat) else 0) < (if b = "B8" then 1 else 0) := by
    intro ys
    induction ys with
    | nil =>
      intro a b h
      obtain ⟨hx, hy⟩ := hedge a b h
      subst hx
      subst hy
      simp
    | cons x ys ih =>
      intro a b h
      have h2 : (depEdge (queryTasks store8 { orchestrationId := some "o8" })
          a x
        && depPath (queryTasks store8 { orchestrationId := some "o8" })
          x ys b) = true := h
      simp only [Bool.and_eq_true] at h2
      have l1 := hedge a x h2.1
      have l2 := ih x b h2.2
      rw [l1.2] at l2
      rw [if_pos rfl] at l2
      by_cases hb : b = "B8"
      · rw [if_pos hb] at l2
        omega
      · rw [if_neg hb] at l2
        omega
  have h4 := hmono xs a a hpath
  omega

theorem C8_execution_order_topological_witness :
    ((queryTasks store8 { orchestrationId := some "o8" }).map Task.id).Nodup
    ∧ (getTaskExecutionOrder store8 "o8").Perm
        (queryTasks store8 { orchestrationId := some "o8" }) :=
  ⟨by decide, (C8_execution_order_topological store8 "o8" (by decide)
    store8_acyclic).1⟩

end Orch
